import Mathlib

/-!
CBFT consensus process (consensus/cbft/consensus_process.go)

A shallow embedding of the message handlers and the view management of the
CBFT consensus core.  The handlers of `consensus_process.go` are translated
statement by statement into state-passing functions over a record `Cbft`.

* Pointers that the source dereferences without a check are `Option`s whose
  `none` case makes the function return `none` (the Go runtime panics there).
* `uint32` and `uint64` arithmetic is arithmetic on `Nat` with an explicit
  reduction modulo `2^32` or `2^64`.
* Calls that leave the consensus thread (network, bridge, executor, block
  cache, transaction pool, event bus) are appended to the output trace
  `Cbft.out`.
* The collaborators whose code is not part of `consensus_process.go` (safety
  rules, vote rules, block tree, validator pool, signatures) are the fields of
  the record `Deps`; the handlers are functions of `Deps`, and the theorems
  hold for every instance.  The view state (package `state`), the threshold
  and the two certificate generators are modelled from the specification.
* A loop over a queue is a recursion on the length of the queue as fuel.
* `failpoint.Inject` markers and log lines have no effect and are left out.
-/

namespace PlatON

/-! ## Machine integers -/

/-- The constant `math.MaxUint32`, the sentinel of the view state cursors. -/
def maxUint32 : Nat := 4294967295

/-- The `uint32` expression `n + 1`. -/
def u32succ (n : Nat) : Nat := (n + 1) % 4294967296

/-- The `uint32` expression `a - b`. -/
def u32sub (a b : Nat) : Nat := (a % 4294967296 + (4294967296 - b % 4294967296)) % 4294967296

/-- The `uint64` expression `n + 1`. -/
def u64succ (n : Nat) : Nat := (n + 1) % 18446744073709551616

/-- The `uint64` expression `n - 1`. -/
def u64pred (n : Nat) : Nat := (n % 18446744073709551616 + 18446744073709551615) % 18446744073709551616

/-! ## Messages -/

abbrev Hash := Nat

/-- The fields of `types.Block` the consensus process reads. -/
structure Block where
  hash : Hash
  parentHash : Hash
  number : Nat
deriving DecidableEq, Repr

/-- The type `ctypes.QuorumCert`. -/
structure QuorumCert where
  epoch : Nat
  viewNumber : Nat
  blockHash : Hash
  blockNumber : Nat
  blockIndex : Nat
  validatorSet : List Nat
deriving DecidableEq, Repr

/-- The message `protocols.ViewChange`. -/
structure ViewChange where
  epoch : Nat
  viewNumber : Nat
  blockHash : Hash
  blockNumber : Nat
  validatorIndex : Nat
  prepareQC : Option QuorumCert
  signature : Nat
deriving DecidableEq, Repr

/-- The type `ctypes.ViewChangeQC`: the aggregated view changes. -/
structure ViewChangeQC where
  members : List ViewChange
deriving DecidableEq, Repr

/-- The message `protocols.PrepareVote`. -/
structure PrepareVote where
  epoch : Nat
  viewNumber : Nat
  blockHash : Hash
  blockNumber : Nat
  blockIndex : Nat
  validatorIndex : Nat
  parentQC : Option QuorumCert
  signature : Nat
deriving DecidableEq, Repr

/-- The message `protocols.PrepareBlock`. -/
structure PrepareBlock where
  epoch : Nat
  viewNumber : Nat
  block : Block
  blockIndex : Nat
  proposalIndex : Nat
  viewChangeQC : Option ViewChangeQC
  signature : Nat
deriving DecidableEq, Repr

/-- The type `executor.BlockExecuteStatus`; `err` is `s.Err != nil`. -/
structure BlockExecuteStatus where
  hash : Hash
  number : Nat
  err : Bool
deriving DecidableEq, Repr

/-- An error of the safety rules with its two probes `Fetch()` and `NewView()`. -/
structure SafetyError where
  fetch : Bool
  newView : Bool
deriving DecidableEq, Repr

/-- The errors a handler returns. -/
inductive HandlerError where
  | rule (e : SafetyError)
  | verify
  | lengthMismatch
deriving DecidableEq, Repr

/-! ## View state -/

/-- Modelled from the spec: the in-memory view state of package `state`
(section 3 and 4.C), which is not part of `consensus_process.go`. -/
structure ViewState where
  epoch : Nat
  viewNumber : Nat
  viewBlocks : List PrepareBlock
  viewVotes : List (Nat × PrepareVote)
  viewChanges : List (Nat × ViewChange)
  viewQCs : List QuorumCert
  maxQCIndex : Nat
  executing : Nat × Bool
  hadSendPrepareVote : List PrepareVote
  pendingPrepareVote : List PrepareVote
  highestQCBlock : Block
  highestLockBlock : Block
  highestCommitBlock : Block
  viewTimer : Nat
  lastViewChangeQC : Option ViewChangeQC
deriving DecidableEq, Repr

namespace ViewState

/-- Modelled from the spec: `AddPrepareBlock` stores the proposal under its
block index. -/
def AddPrepareBlock (s : ViewState) (msg : PrepareBlock) : ViewState :=
  { s with viewBlocks := msg :: s.viewBlocks.filter (fun p => p.blockIndex != msg.blockIndex) }

/-- Modelled from the spec: `ViewBlockByIndex(i)`, the block proposed at index
`i` of the current view, if any. -/
def ViewBlockByIndex (s : ViewState) (i : Nat) : Option Block :=
  (s.viewBlocks.find? (fun p => p.blockIndex == i)).map (fun p => p.block)

/-- Modelled from the spec: `AddPrepareVote(validator_index, v)`, idempotent
on `(index, validator_index)`. -/
def AddPrepareVote (s : ViewState) (id : Nat) (v : PrepareVote) : ViewState :=
  if s.viewVotes.any (fun e => e.1 == id && e.2.blockIndex == v.blockIndex) then s
  else { s with viewVotes := s.viewVotes ++ [(id, v)] }

/-- Modelled from the spec: `AllPrepareVoteByIndex(i)`. -/
def AllPrepareVoteByIndex (s : ViewState) (i : Nat) : List PrepareVote :=
  (s.viewVotes.filter (fun e => e.2.blockIndex == i)).map (fun e => e.2)

/-- Modelled from the spec: `PrepareVoteLenByIndex(i)`. -/
def PrepareVoteLenByIndex (s : ViewState) (i : Nat) : Nat :=
  (s.AllPrepareVoteByIndex i).length

/-- Modelled from the spec: `AddViewChange(validator_index, v)`; the view
changes are a mapping from the validator index. -/
def AddViewChange (s : ViewState) (id : Nat) (v : ViewChange) : ViewState :=
  { s with viewChanges := s.viewChanges.filter (fun e => e.1 != id) ++ [(id, v)] }

/-- Modelled from the spec: `ViewChangeLen`. -/
def ViewChangeLen (s : ViewState) : Nat := s.viewChanges.length

/-- Modelled from the spec: `AllViewChange`. -/
def AllViewChange (s : ViewState) : List ViewChange := s.viewChanges.map (fun e => e.2)

/-- Modelled from the spec: `AddQC(qc)` stores the certificate under its block
index and advances `max_qc_index`, whose value before any certificate is the
largest `uint32`. -/
def AddQC (s : ViewState) (qc : QuorumCert) : ViewState :=
  { s with
    viewQCs := s.viewQCs.filter (fun q => q.blockIndex != qc.blockIndex) ++ [qc]
    maxQCIndex :=
      if s.maxQCIndex = maxUint32 then qc.blockIndex
      else if s.maxQCIndex < qc.blockIndex then qc.blockIndex else s.maxQCIndex }

/-- The certificate the view state stores for block index `i`, if any. -/
def viewQCByIndex (s : ViewState) (i : Nat) : Option QuorumCert :=
  s.viewQCs.find? (fun q => q.blockIndex == i)

/-- Modelled from the spec: `SetExecuting(i, finished)`. -/
def SetExecuting (s : ViewState) (i : Nat) (finished : Bool) : ViewState :=
  { s with executing := (i, finished) }

/-- Modelled from the spec: `HadSendPrepareVote().Had(i)`. -/
def hadSend (s : ViewState) (i : Nat) : Bool :=
  s.hadSendPrepareVote.any (fun v => v.blockIndex == i)

/-- Modelled from the spec: `ResetView(epoch, view_number)` wipes all per-view
state and preserves the node-wide highest blocks. -/
def ResetView (s : ViewState) (epoch viewNumber : Nat) : ViewState :=
  { s with
    epoch := epoch
    viewNumber := viewNumber
    viewBlocks := []
    viewVotes := []
    viewChanges := []
    viewQCs := []
    maxQCIndex := maxUint32
    executing := (maxUint32, false)
    hadSendPrepareVote := []
    pendingPrepareVote := [] }

/-- Modelled from the spec: `SetHighestQCBlock`. -/
def SetHighestQCBlock (s : ViewState) (b : Block) : ViewState :=
  { s with highestQCBlock := b }

/-- Modelled from the spec: `SetHighestLockBlock`. -/
def SetHighestLockBlock (s : ViewState) (b : Block) : ViewState :=
  { s with highestLockBlock := b }

/-- Modelled from the spec: `SetHighestCommitBlock`. -/
def SetHighestCommitBlock (s : ViewState) (b : Block) : ViewState :=
  { s with highestCommitBlock := b }

/-- Modelled from the spec: `SetViewTimer(intervals)`; the state keeps the
number of intervals of the running timer. -/
def SetViewTimer (s : ViewState) (interval : Nat) : ViewState :=
  { s with viewTimer := interval }

/-- Modelled from the spec: `SetLastViewChangeQC`. -/
def SetLastViewChangeQC (s : ViewState) (qc : Option ViewChangeQC) : ViewState :=
  { s with lastViewChangeQC := qc }

/-- Modelled from the spec: `PendingPrepareVote().Push(v)`. -/
def pendingPush (s : ViewState) (v : PrepareVote) : ViewState :=
  { s with pendingPrepareVote := s.pendingPrepareVote ++ [v] }

/-- Modelled from the spec: `PendingPrepareVote().Pop()`. -/
def pendingPop (s : ViewState) : ViewState :=
  { s with pendingPrepareVote := s.pendingPrepareVote.tail }

/-- Modelled from the spec: `HadSendPrepareVote().Push(v)`. -/
def hadSendPush (s : ViewState) (v : PrepareVote) : ViewState :=
  { s with hadSendPrepareVote := s.hadSendPrepareVote ++ [v] }

end ViewState

/-- Modelled from the spec: `threshold(n) = ⌊2n/3⌋ + 1` (method `threshold`
of the consensus core, not part of `consensus_process.go`). -/
def threshold (n : Nat) : Nat := 2 * n / 3 + 1

/-- Modelled from the spec: `GeneratePrepareQC(votes)` copies the consensus
fields from the first vote and lists the participating validators; the
aggregated signature is not modelled.  No votes give a nil certificate. -/
def generatePrepareQC (votes : List PrepareVote) : Option QuorumCert :=
  match votes with
  | [] => none
  | v :: _ =>
    some { epoch := v.epoch, viewNumber := v.viewNumber, blockHash := v.blockHash,
           blockNumber := v.blockNumber, blockIndex := v.blockIndex,
           validatorSet := votes.map (fun w => w.validatorIndex) }

/-- Modelled from the spec: `GenerateViewChangeQC(view_changes)`; the
aggregated signature is not modelled. -/
def generateViewChangeQC (vcs : List ViewChange) : ViewChangeQC := { members := vcs }

/-- Modelled from the spec: `MaxBlock()` is the `(epoch, view, hash, number)`
of the member with the maximum `(number, hash)`; zeros without members. -/
def ViewChangeQC.MaxBlock (q : ViewChangeQC) : Nat × Nat × Hash × Nat :=
  q.members.foldl
    (fun acc vc =>
      if acc.2.2.2 < vc.blockNumber ∨ (acc.2.2.2 = vc.blockNumber ∧ acc.2.2.1 < vc.blockHash)
      then (vc.epoch, vc.viewNumber, vc.blockHash, vc.blockNumber) else acc)
    (0, 0, 0, 0)

/-! ## Output trace -/

/-- The calls the consensus thread makes to its collaborators. -/
inductive Effect where
  | commitBlock (block : Block) (qc : Option QuorumCert)
  | updateChainState (qcBlock : Block) (lock commit : Option Block)
  | sendViewChange (vc : ViewChange)
  | sendPrepareVote (block : Block) (vote : PrepareVote)
  | confirmViewChange (epoch viewNumber : Nat) (block : Block) (qc : Option QuorumCert)
      (viewChangeQC : Option ViewChangeQC)
  | broadcastViewChange (vc : ViewChange)
  | broadcastPrepareVote (vote : PrepareVote)
  | broadcastBlockQuorumCert (qc : QuorumCert)
  | fetchBlock (peer : Nat) (hash : Hash) (number : Nat)
  | send (peer : Nat) (request : Nat)
  | execute (block parent : Block)
  | clearCache (block : Option Block)
  | txPoolReset (block : Block)
  | txPoolForkedReset (newHead : Block) (rollback : List (Option Block))
deriving DecidableEq, Repr

/-! ## The consensus core -/

/-- The fields of the `Cbft` object the handlers read and write: view state,
block tree, validator pool, the loading flag and the trace of outgoing calls. -/
structure Cbft (BT VP : Type) where
  state : ViewState
  blockTree : BT
  validatorPool : VP
  loading : Bool
  out : List Effect
deriving DecidableEq

/-- The collaborators of the handlers whose code is outside
`consensus_process.go`, as parameters. -/
structure Deps (BT VP : Type) where
  /-- The constant `config.Sys.Amount` (a `uint32`). -/
  amount : Nat
  /-- The constant `state.DefaultViewNumber`. -/
  defaultViewNumber : Nat
  PrepareBlockRules : Cbft BT VP → PrepareBlock → Option SafetyError
  PrepareVoteRules : Cbft BT VP → PrepareVote → Option SafetyError
  ViewChangeRules : Cbft BT VP → ViewChange → Option SafetyError
  QCBlockRules : Cbft BT VP → Block → QuorumCert → Option SafetyError
  /-- The vote rule `AllowVote`; `true` is a nil error. -/
  AllowVote : Cbft BT VP → PrepareVote → Bool
  FindBlockAndQC : BT → Hash → Nat → Option Block × Option QuorumCert
  InsertQCBlock : BT → Block → QuorumCert → BT × Option Block × Option Block
  PruneBlock : BT → Hash → Nat → BT
  NewRoot : BT → Block → BT
  /-- The index of the local node at a height, `none` for an error. -/
  GetValidatorByNodeID : VP → Nat → Option Nat
  IsValidator : VP → Nat → Bool
  IsCandidateNode : VP → Bool
  ShouldSwitch : VP → Nat → Bool
  /-- The pool after `Update`, `none` for an error. -/
  Update : VP → Nat → Option VP
  Len : VP → Nat → Nat
  /-- The function `verifyConsensusMsg`: index of the signer, `none` for an error. -/
  verifyPrepareBlock : Cbft BT VP → PrepareBlock → Option Nat
  verifyPrepareVote : Cbft BT VP → PrepareVote → Option Nat
  verifyViewChange : Cbft BT VP → ViewChange → Option Nat
  /-- The function `signMsgByBls`: the signature, `none` for an error. -/
  signViewChange : ViewChange → Option Nat
  signPrepareVote : PrepareVote → Option Nat
  /-- The requests `prepareBlockFetchRules` and `prepareVoteFetchRules` send to
  the peer, each of them a `network.Send`. -/
  prepareBlockFetchRules : Cbft BT VP → Nat → PrepareBlock → List Nat
  prepareVoteFetchRules : Cbft BT VP → Nat → PrepareVote → List Nat

variable {BT VP : Type}

/-- Appends a call to the output trace. -/
def Cbft.emit (c : Cbft BT VP) (e : Effect) : Cbft BT VP := { c with out := c.out ++ [e] }

/-- Replaces the view state. -/
def Cbft.setState (c : Cbft BT VP) (s : ViewState) : Cbft BT VP := { c with state := s }

/-- Replaces the block tree. -/
def Cbft.setBlockTree (c : Cbft BT VP) (t : BT) : Cbft BT VP := { c with blockTree := t }

/-- Replaces the validator pool. -/
def Cbft.setValidatorPool (c : Cbft BT VP) (vp : VP) : Cbft BT VP :=
  { c with validatorPool := vp }

/-- The requests of the fetch rules, each a `network.Send` to the peer. -/
def Cbft.sendAll (c : Cbft BT VP) (peer : Nat) : List Nat → Cbft BT VP
  | [] => c
  | request :: rest => Cbft.sendAll (c.emit (Effect.send peer request)) peer rest

/-- The function `tryCommitNewBlock`. -/
def tryCommitNewBlock (d : Deps BT VP) (c : Cbft BT VP) (lock commit : Option Block) :
    Cbft BT VP :=
  match lock, commit with
  | some lk, some cm =>
    let highestqc := c.state.highestQCBlock
    let oldCommit := c.state.highestCommitBlock
    if u64succ oldCommit.number = cm.number then
      let qc := (d.FindBlockAndQC c.blockTree cm.hash cm.number).2
      let c1 := c.emit (Effect.commitBlock cm qc)
      let c2 := c1.setState (c1.state.SetHighestLockBlock lk)
      let c3 := c2.setState (c2.state.SetHighestCommitBlock cm)
      let c4 := c3.emit (Effect.updateChainState highestqc (some lk) (some cm))
      let c5 := c4.setBlockTree (d.PruneBlock c4.blockTree cm.hash cm.number)
      c5.setBlockTree (d.NewRoot c5.blockTree cm)
    else
      c.emit (Effect.updateChainState highestqc none none)
  | _, _ => c

/-- The function `clearInvalidBlocks`: one round of either of its two loops. -/
def clearInvalidStep (newBlock : Block) (acc : List (Option Block) × Cbft BT VP)
    (p : PrepareVote) : List (Option Block) × Cbft BT VP :=
  if newBlock.number < p.blockNumber then
    let block := acc.2.state.ViewBlockByIndex p.blockIndex
    (acc.1 ++ [block], acc.2.emit (Effect.clearCache block))
  else acc

/-- The function `clearInvalidBlocks`. -/
def clearInvalidBlocks (c : Cbft BT VP) (newBlock : Block) : Cbft BT VP :=
  let r1 := c.state.hadSendPrepareVote.foldl (clearInvalidStep newBlock) ([], c)
  let r2 := c.state.pendingPrepareVote.foldl (clearInvalidStep newBlock) r1
  r2.2.emit (Effect.txPoolForkedReset newBlock r2.1)

/-- The closure `interval` of `changeView`; `none` where it dereferences a
nil block or a nil certificate. -/
def changeViewInterval (d : Deps BT VP) (viewNumber : Nat) (block : Option Block)
    (qc : Option QuorumCert) : Option Nat :=
  match block with
  | none => none
  | some b =>
    if b.number = 0 then some 1
    else
      match qc with
      | none => none
      | some q =>
        if u64succ q.viewNumber ≠ viewNumber then some 1
        else some (u32sub d.amount q.blockIndex)

/-- The function `changeView`. -/
def changeView (d : Deps BT VP) (c : Cbft BT VP) (epoch viewNumber : Nat)
    (block : Option Block) (qc : Option QuorumCert) (viewChangeQC : Option ViewChangeQC) :
    Option (Cbft BT VP) :=
  let c1 := c.setState (c.state.ResetView epoch viewNumber)
  match block, changeViewInterval d viewNumber block qc with
  | some b, some interval =>
    let c2 := c1.setState (c1.state.SetViewTimer interval)
    let c3 := c2.setState (c2.state.SetLastViewChangeQC viewChangeQC)
    let c4 :=
      if c3.loading then c3
      else c3.emit (Effect.confirmViewChange epoch viewNumber b qc viewChangeQC)
    some (clearInvalidBlocks c4 b)
  | _, _ => none

/-- The function `tryChangeView`. -/
def tryChangeView (d : Deps BT VP) (c : Cbft BT VP) : Option (Cbft BT VP) :=
  let found := d.FindBlockAndQC c.blockTree c.state.highestQCBlock.hash c.state.highestQCBlock.number
  let increasing := u64succ c.state.viewNumber
  if u32succ c.state.maxQCIndex = d.amount then
    changeView d c c.state.epoch increasing found.1 found.2 none
  else if threshold (d.Len c.validatorPool c.state.highestQCBlock.number) ≤ c.state.ViewChangeLen then
    let viewChangeQC := generateViewChangeQC c.state.AllViewChange
    let number := viewChangeQC.MaxBlock.2.2.2
    match found.1 with
    | none => none
    | some b =>
      if b.number ≠ 0 then
        match found.2 with
        | none => none
        | some q =>
          if q.blockNumber < number then some c
          else changeView d c c.state.epoch increasing (some b) (some q) (some viewChangeQC)
      else changeView d c c.state.epoch increasing (some b) found.2 (some viewChangeQC)
  else some c

/-- The function `insertQCBlock` up to its call of `tryCommitNewBlock`. -/
def insertQCBlockStore (d : Deps BT VP) (c : Cbft BT VP) (block : Block) (qc : QuorumCert) :
    Cbft BT VP :=
  let c1 :=
    if c.state.epoch = qc.epoch ∧ c.state.viewNumber = qc.viewNumber then
      c.setState (c.state.AddQC qc)
    else c
  let c2 := c1.emit (Effect.txPoolReset block)
  let r := d.InsertQCBlock c2.blockTree block qc
  let c3 := c2.setBlockTree r.1
  let c4 := c3.setState (c3.state.SetHighestQCBlock block)
  tryCommitNewBlock d c4 r.2.1 r.2.2

/-- The end of `insertQCBlock`: the update of the validators. -/
def insertQCBlockSwitch (d : Deps BT VP) (c6 : Cbft BT VP) (block : Block) : Cbft BT VP :=
  if d.ShouldSwitch c6.validatorPool block.number then
    match d.Update c6.validatorPool block.number with
    | some vp =>
      let c7 := c6.setValidatorPool vp
      c7.setState (c7.state.ResetView (u64succ c7.state.epoch) d.defaultViewNumber)
    | none => c6
  else c6

/-- The function `insertQCBlock`. -/
def insertQCBlock (d : Deps BT VP) (c : Cbft BT VP) (block : Block) (qc : QuorumCert) :
    Option (Cbft BT VP) :=
  match tryChangeView d (insertQCBlockStore d c block qc) with
  | none => none
  | some c6 => some (insertQCBlockSwitch d c6 block)

/-- The closure `linked` of `insertPrepareQC`. -/
def insertPrepareQCLinked (d : Deps BT VP) (c : Cbft BT VP) (block : Option Block)
    (blockNumber : Nat) : Bool :=
  match block with
  | some b =>
    (d.FindBlockAndQC c.blockTree b.parentHash (u64pred b.number)).1.isSome
      && decide (u64succ c.state.highestQCBlock.number = blockNumber)
  | none => false

/-- The closure `hasExecuted` of `insertPrepareQC`. -/
def insertPrepareQCHasExecuted (d : Deps BT VP) (c : Cbft BT VP) (block : Option Block)
    (qc : QuorumCert) : Bool :=
  if d.IsValidator c.validatorPool qc.blockNumber then
    c.state.hadSend qc.blockIndex && insertPrepareQCLinked d c block qc.blockNumber
  else if d.IsCandidateNode c.validatorPool then
    decide (c.state.executing.1 ≠ maxUint32)
      && (decide (qc.blockIndex < c.state.executing.1)
          || (decide (qc.blockIndex = c.state.executing.1) && c.state.executing.2))
      && insertPrepareQCLinked d c block qc.blockNumber
  else false

/-- The function `insertPrepareQC`. -/
def insertPrepareQC (d : Deps BT VP) (c : Cbft BT VP) (qc : Option QuorumCert) :
    Option (Cbft BT VP) :=
  match qc with
  | none => some c
  | some q =>
    match c.state.ViewBlockByIndex q.blockIndex with
    | some b =>
      if insertPrepareQCHasExecuted d c (some b) q then insertQCBlock d c b q else some c
    | none => some c

/-- The end of a sending round of `trySendPrepareVote`, after
`hadSend.Push(p)` and the lookup of the local validator `idx`: the vote is
added to the tally, popped from the pending queue, written to the bridge
unless the node is loading, and broadcast. -/
def trySendPrepareVoteFinish (c1 : Cbft BT VP) (block : Block) (p1 : PrepareVote) (idx : Nat) :
    Cbft BT VP :=
  let c2 := c1.setState (c1.state.AddPrepareVote (idx % 4294967296) p1)
  let c3 := c2.setState c2.state.pendingPop
  let c4 := if c3.loading then c3 else c3.emit (Effect.sendPrepareVote block p1)
  c4.emit (Effect.broadcastPrepareVote p1)

/-- One round of the loop of `trySendPrepareVote` for the vote `p` on top of
the pending queue: `none` where the source aborts the process (`log.Crit`) or
dereferences the nil validator node, `some (c, false)` for a `break` and
`some (c1, true)` after the vote has been sent. -/
def trySendPrepareVoteRound (d : Deps BT VP) (c : Cbft BT VP) (p : PrepareVote) :
    Option (Cbft BT VP × Bool) :=
  if d.AllowVote c p then
    match c.state.ViewBlockByIndex p.blockIndex with
    | none => none
    | some block =>
      let found := d.FindBlockAndQC c.blockTree block.parentHash (u64pred block.number)
      if found.1.isSome ∨ block.number = 0 then
        let p1 := { p with parentQC := found.2 }
        let c1 := c.setState (c.state.hadSendPush p1)
        match d.GetValidatorByNodeID c1.validatorPool p1.blockNumber with
        | none => none
        | some idx => some (trySendPrepareVoteFinish c1 block p1 idx, true)
      else some (c, false)
  else some (c, false)

/-- The loop `for !pending.Empty()` of `trySendPrepareVote`; every round but
the last pops a vote, so that the length of the queue is enough fuel. -/
def trySendPrepareVoteLoop (d : Deps BT VP) : Nat → Cbft BT VP → Option (Cbft BT VP)
  | 0, c => some c
  | fuel + 1, c =>
    match c.state.pendingPrepareVote with
    | [] => some c
    | p :: _ =>
      match trySendPrepareVoteRound d c p with
      | none => none
      | some (c1, false) => some c1
      | some (c1, true) => trySendPrepareVoteLoop d fuel c1

/-- The function `trySendPrepareVote`. -/
def trySendPrepareVote (d : Deps BT VP) (c : Cbft BT VP) : Option (Cbft BT VP) :=
  trySendPrepareVoteLoop d c.state.pendingPrepareVote.length c

/-- The function `signBlock`; the flag is `err != nil`. -/
def signBlock (d : Deps BT VP) (c : Cbft BT VP) (hash : Hash) (number index : Nat) :
    Option (Cbft BT VP × Bool) :=
  match d.GetValidatorByNodeID c.validatorPool number with
  | none => some (c, true)
  | some idx =>
    let prepareVote : PrepareVote :=
      { epoch := c.state.epoch, viewNumber := c.state.viewNumber, blockHash := hash,
        blockNumber := number, blockIndex := index, validatorIndex := idx % 4294967296,
        parentQC := none, signature := 0 }
    match d.signPrepareVote prepareVote with
    | none => some (c, true)
    | some sig =>
      let c1 := c.setState (c.state.pendingPush { prepareVote with signature := sig })
      (trySendPrepareVote d c1).map (fun c2 => (c2, false))

/-- The first half of `findExecutableBlock`, the case of the sentinel cursor;
`none` is its early return. -/
def findExecutableFirst (d : Deps BT VP) (c : Cbft BT VP) : Option (Cbft BT VP) :=
  if c.state.executing.1 = maxUint32 then
    match c.state.ViewBlockByIndex (u32succ c.state.executing.1) with
    | some block =>
      match (d.FindBlockAndQC c.blockTree block.parentHash (u64pred block.number)).1 with
      | none => none
      | some parent =>
        let c1 := c.emit (Effect.execute block parent)
        some (c1.setState (c1.state.SetExecuting 0 false))
    | none => some c
  else some c

/-- The second half of `findExecutableBlock`, the case of a finished cursor,
with the cursor `(blockIndex, finish)` read at the start of the function. -/
def findExecutableSecond (c1 : Cbft BT VP) (blockIndex : Nat) (finish : Bool) : Cbft BT VP :=
  if finish then
    match c1.state.ViewBlockByIndex (u32succ blockIndex) with
    | some block =>
      match c1.state.ViewBlockByIndex blockIndex with
      | none => c1
      | some parent =>
        let c2 := c1.emit (Effect.execute block parent)
        c2.setState (c2.state.SetExecuting (u32succ blockIndex) false)
    | none => c1
  else c1

/-- The function `findExecutableBlock`. -/
def findExecutableBlock (d : Deps BT VP) (c : Cbft BT VP) : Cbft BT VP :=
  match findExecutableFirst d c with
  | none => c
  | some c1 => findExecutableSecond c1 c.state.executing.1 c.state.executing.2

/-- The function `findQCBlock` up to its final `tryChangeView`. -/
def findQCBlockInsert (d : Deps BT VP) (c : Cbft BT VP) : Option (Cbft BT VP) :=
  let next := u32succ c.state.maxQCIndex
  let size := c.state.PrepareVoteLenByIndex next
  if decide (threshold (d.Len c.validatorPool c.state.highestQCBlock.number) ≤ size)
      && c.state.hadSend next then
    match c.state.ViewBlockByIndex next,
        generatePrepareQC (c.state.AllPrepareVoteByIndex next) with
    | some block, some qc =>
      (insertQCBlock d c block qc).map (fun c1 => c1.emit (Effect.broadcastBlockQuorumCert qc))
    | _, _ => none
  else some c

/-- The function `findQCBlock`. -/
def findQCBlock (d : Deps BT VP) (c : Cbft BT VP) : Option (Cbft BT VP) :=
  (findQCBlockInsert d c).bind (tryChangeView d)

/-- The signing step of `onAsyncExecuteStatus`; the flag is the early return
after a failed `signBlock`. -/
def onAsyncExecuteSign (d : Deps BT VP) (c : Cbft BT VP) (s : BlockExecuteStatus) :
    Option (Cbft BT VP × Bool) :=
  if c.state.executing.2 then some (c, false)
  else
    match c.state.ViewBlockByIndex c.state.executing.1 with
    | some block =>
      if block.hash = s.hash then
        signBlock d (c.setState (c.state.SetExecuting c.state.executing.1 true))
          block.hash block.number c.state.executing.1
      else some (c, false)
    | none => some (c, false)

/-- The function `onAsyncExecuteStatus`. -/
def onAsyncExecuteStatus (d : Deps BT VP) (c : Cbft BT VP) (s : BlockExecuteStatus) :
    Option (Cbft BT VP) :=
  if s.err then some c
  else
    match onAsyncExecuteSign d c s with
    | none => none
    | some (c1, true) => some c1
    | some (c1, false) => (findQCBlock d c1).map (findExecutableBlock d)

/-- The safety rule step of `OnPrepareBlock`; an error is the early return. -/
def OnPrepareBlockRules (d : Deps BT VP) (c : Cbft BT VP) (id : Nat) (msg : PrepareBlock) :
    Option (Cbft BT VP × Option HandlerError) :=
  match d.PrepareBlockRules c msg with
  | some err =>
    if err.fetch then
      some (c.emit (Effect.fetchBlock id msg.block.hash msg.block.number),
        some (HandlerError.rule err))
    else if err.newView then
      let found :=
        match msg.viewChangeQC with
        | some v => d.FindBlockAndQC c.blockTree v.MaxBlock.2.2.1 v.MaxBlock.2.2.2
        | none => d.FindBlockAndQC c.blockTree msg.block.parentHash (u64pred msg.block.number)
      (changeView d c msg.epoch msg.viewNumber found.1 found.2 msg.viewChangeQC).map
        (fun c1 => (c1, none))
    else some (c, some (HandlerError.rule err))
  | none => some (c, none)

/-- The function `OnPrepareBlock`. -/
def OnPrepareBlock (d : Deps BT VP) (c : Cbft BT VP) (id : Nat) (msg : PrepareBlock) :
    Option (Cbft BT VP × Option HandlerError) :=
  match OnPrepareBlockRules d c id msg with
  | none => none
  | some (c1, some e) => some (c1, some e)
  | some (c1, none) =>
    match d.verifyPrepareBlock c1 msg with
    | none => some (c1, some HandlerError.verify)
    | some _ =>
      let c2 := c1.setState (c1.state.AddPrepareBlock msg)
      let c3 := c2.sendAll id (d.prepareBlockFetchRules c2 id msg)
      some (findExecutableBlock d c3, none)

/-- The function `OnPrepareVote`. -/
def OnPrepareVote (d : Deps BT VP) (c : Cbft BT VP) (id : Nat) (msg : PrepareVote) :
    Option (Cbft BT VP × Option HandlerError) :=
  match d.PrepareVoteRules c msg with
  | some err =>
    some (if err.fetch then c.emit (Effect.fetchBlock id msg.blockHash msg.blockNumber) else c,
      some (HandlerError.rule err))
  | none =>
    let c1 := c.sendAll id (d.prepareVoteFetchRules c id msg)
    match d.verifyPrepareVote c1 msg with
    | none => some (c1, some HandlerError.verify)
    | some idx =>
      match insertPrepareQC d c1 msg.parentQC with
      | none => none
      | some c2 =>
        let c3 := c2.setState (c2.state.AddPrepareVote (idx % 4294967296) msg)
        (findQCBlock d c3).map (fun c4 => (c4, none))

/-- The function `OnViewChange`. -/
def OnViewChange (d : Deps BT VP) (c : Cbft BT VP) (id : Nat) (msg : ViewChange) :
    Option (Cbft BT VP × Option HandlerError) :=
  match d.ViewChangeRules c msg with
  | some err =>
    some (if err.fetch then c.emit (Effect.fetchBlock id msg.blockHash msg.blockNumber) else c,
      some (HandlerError.rule err))
  | none =>
    match d.verifyViewChange c msg with
    | none => some (c, some HandlerError.verify)
    | some idx =>
      let c1 := c.setState (c.state.AddViewChange (idx % 4294967296) msg)
      (tryChangeView d c1).map (fun c2 => (c2, none))

/-- The ViewChange message `OnViewTimeout` builds for the local validator
`idx`, before it is signed. -/
def localViewChange (d : Deps BT VP) (c : Cbft BT VP) (idx : Nat) : ViewChange :=
  { epoch := c.state.epoch, viewNumber := c.state.viewNumber,
    blockHash := c.state.highestQCBlock.hash, blockNumber := c.state.highestQCBlock.number,
    validatorIndex := idx % 4294967296,
    prepareQC := (d.FindBlockAndQC c.blockTree c.state.highestQCBlock.hash
      c.state.highestQCBlock.number).2,
    signature := 0 }

/-- The function `OnViewTimeout`. -/
def OnViewTimeout (d : Deps BT VP) (c : Cbft BT VP) : Option (Cbft BT VP) :=
  match d.GetValidatorByNodeID c.validatorPool c.state.highestQCBlock.number with
  | none => some c
  | some idx =>
    match d.signViewChange (localViewChange d c idx) with
    | none => some c
    | some sig =>
      let signed := { localViewChange d c idx with signature := sig }
      let c1 := if c.loading then c else c.emit (Effect.sendViewChange signed)
      let c2 := c1.setState (c1.state.AddViewChange (idx % 4294967296) signed)
      let c3 := c2.emit (Effect.broadcastViewChange signed)
      tryChangeView d c3

/-- The safety rule step of the loop of `OnInsertQCBlock`; an error is the
early return. -/
def OnInsertQCBlockRules (d : Deps BT VP) (c : Cbft BT VP) (block : Block) (qc : QuorumCert) :
    Option (Cbft BT VP × Option HandlerError) :=
  match d.QCBlockRules c block qc with
  | some err =>
    if err.newView then
      (changeView d c qc.epoch qc.viewNumber (some block) (some qc) none).map
        (fun c1 => (c1, none))
    else some (c, some (HandlerError.rule err))
  | none => some (c, none)

/-- The loop of `OnInsertQCBlock` over the pairs `(blocks[i], qcs[i])`. -/
def OnInsertQCBlockLoop (d : Deps BT VP) :
    List (Block × QuorumCert) → Cbft BT VP → Option (Cbft BT VP × Option HandlerError)
  | [], c => some (c, none)
  | (block, qc) :: rest, c =>
    match OnInsertQCBlockRules d c block qc with
    | none => none
    | some (c1, some e) => some (c1, some e)
    | some (c1, none) =>
      match insertQCBlock d c1 block qc with
      | none => none
      | some c2 => OnInsertQCBlockLoop d rest c2

/-- The function `OnInsertQCBlock`. -/
def OnInsertQCBlock (d : Deps BT VP) (c : Cbft BT VP) (blocks : List Block)
    (qcs : List QuorumCert) : Option (Cbft BT VP × Option HandlerError) :=
  if blocks.length ≠ qcs.length then some (c, some HandlerError.lengthMismatch)
  else OnInsertQCBlockLoop d (blocks.zip qcs) c

/-! ## Sequences of handler calls -/

/-- The events posted on the consensus thread. -/
inductive Event where
  | prepareBlock (id : Nat) (msg : PrepareBlock)
  | prepareVote (id : Nat) (msg : PrepareVote)
  | viewChange (id : Nat) (msg : ViewChange)
  | viewTimeout
  | insertQCBlock (blocks : List Block) (qcs : List QuorumCert)
  | asyncExecuteStatus (s : BlockExecuteStatus)
deriving DecidableEq, Repr

/-- One handler call; the error a handler returns goes to the caller and is
dropped here. -/
def step (d : Deps BT VP) (c : Cbft BT VP) : Event → Option (Cbft BT VP)
  | Event.prepareBlock id msg => (OnPrepareBlock d c id msg).map (fun r => r.1)
  | Event.prepareVote id msg => (OnPrepareVote d c id msg).map (fun r => r.1)
  | Event.viewChange id msg => (OnViewChange d c id msg).map (fun r => r.1)
  | Event.viewTimeout => OnViewTimeout d c
  | Event.insertQCBlock blocks qcs => (OnInsertQCBlock d c blocks qcs).map (fun r => r.1)
  | Event.asyncExecuteStatus s => onAsyncExecuteStatus d c s

/-- A sequence of handler calls. -/
def run (d : Deps BT VP) (c : Cbft BT VP) : List Event → Option (Cbft BT VP)
  | [] => some c
  | e :: es => (step d c e).bind (fun c1 => run d c1 es)

/-! ## Notions for the invariants -/

/-- Whether a call is the broadcast of a local message, a PrepareVote or a
ViewChange. -/
def Effect.isLocalBroadcast : Effect → Bool
  | Effect.broadcastPrepareVote _ => true
  | Effect.broadcastViewChange _ => true
  | _ => false

/-- The second state differs from the first at most by calls appended to the
trace, none of them the broadcast of a local message. -/
def OutExt (c c1 : Cbft BT VP) : Prop :=
  c1.state = c.state ∧ c1.blockTree = c.blockTree ∧ c1.validatorPool = c.validatorPool
    ∧ c1.loading = c.loading
    ∧ ∃ es, c1.out = c.out ++ es ∧ ∀ e ∈ es, Effect.isLocalBroadcast e = false

/-- A property of the node that the steps of a view change keep. -/
structure Stable (P : Cbft BT VP → Prop) : Prop where
  emit : ∀ c e, Effect.isLocalBroadcast e = false → P c → P (c.emit e)
  reset : ∀ c e v, P c → P (c.setState (c.state.ResetView e v))
  timer : ∀ c iv, P c → P (c.setState (c.state.SetViewTimer iv))
  lastVC : ∀ c vc, P c → P (c.setState (c.state.SetLastViewChangeQC vc))

/-- A property of the node that the steps of `insertQCBlock` keep. -/
structure StableIns (d : Deps BT VP) (P : Cbft BT VP → Prop) : Prop where
  AddQC : ∀ c qc, P c → P (c.setState (c.state.AddQC qc))
  tree : ∀ c t, P c → P (c.setBlockTree t)
  highestQC : ∀ c b, P c → P (c.setState (c.state.SetHighestQCBlock b))
  commit : ∀ c bt b qc, P c →
    P (tryCommitNewBlock d c (d.InsertQCBlock bt b qc).2.1 (d.InsertQCBlock bt b qc).2.2)
  pool : ∀ c vp, P c → P (c.setValidatorPool vp)

/-- A property of the node that storing a received vote or view change keeps. -/
structure StableMsg (P : Cbft BT VP → Prop) : Prop where
  broadcastVC : ∀ c v, P c → P (c.emit (Effect.broadcastViewChange v))
  AddViewChange : ∀ c id v, P c → P (c.setState (c.state.AddViewChange id v))
  AddPrepareVote : ∀ c id v, P c → P (c.setState (c.state.AddPrepareVote id v))

/-- A property of the node that the steps of the execution and voting
pipeline keep. -/
structure StablePipe (P : Cbft BT VP → Prop) : Prop where
  emitAny : ∀ c e, P c → P (c.emit e)
  AddPrepareBlock : ∀ c msg, P c → P (c.setState (c.state.AddPrepareBlock msg))
  SetExecuting : ∀ c i f, P c → P (c.setState (c.state.SetExecuting i f))
  pendingPush : ∀ c v, P c → P (c.setState (c.state.pendingPush v))
  pendingPop : ∀ c, P c → P (c.setState c.state.pendingPop)
  hadSendPush : ∀ c v, P c → P (c.setState (c.state.hadSendPush v))

/-- Modelled from the spec: the contract of the block tree (section 4.D,
scenario S2) the commit rule relies on.  The lock candidate `InsertQCBlock`
returns is the child of the commit candidate, and its number is a `uint64`. -/
def TreeContract (d : Deps BT VP) : Prop :=
  ∀ bt b qc lock commit, (d.InsertQCBlock bt b qc).2 = (some lock, some commit) →
    lock.number = commit.number + 1 ∧ lock.number < 18446744073709551616

/-- The highest lock and commit blocks of a valid state: the lock block is at
most one above the commit block, whose successor is a `uint64`. -/
def CommitValid (c : Cbft BT VP) : Prop :=
  c.state.highestLockBlock.number ≤ c.state.highestCommitBlock.number + 1
    ∧ c.state.highestCommitBlock.number + 1 < 18446744073709551616

/-- A valid state whose highest commit and lock numbers are at least `n` and `m`. -/
def CommitAbove (n m : Nat) (c : Cbft BT VP) : Prop :=
  CommitValid c ∧ n ≤ c.state.highestCommitBlock.number ∧ m ≤ c.state.highestLockBlock.number

/-- The certificates of the view state and `max_qc_index` are those of `s`, or
the view has been reset since. -/
def ViewQCsOf (s : ViewState) (r : ViewState) : Prop :=
  (r.viewQCs = s.viewQCs ∧ r.maxQCIndex = s.maxQCIndex)
    ∨ (r.viewQCs = [] ∧ r.maxQCIndex = maxUint32)

/-- The property `insertQCBlock` establishes before its `tryChangeView`: the
highest QC block is `b`, the block tree is `t`, and the certificates of the
view are those of `s`. -/
def InsertedQC (b : Block) (t : BT) (s : ViewState) (x : Cbft BT VP) : Prop :=
  x.state.highestQCBlock = b ∧ x.blockTree = t ∧ ViewQCsOf s x.state

/-- The PrepareVotes broadcast in a trace, in order. -/
def broadcastVotes : List Effect → List PrepareVote
  | [] => []
  | Effect.broadcastPrepareVote v :: es => v :: broadcastVotes es
  | _ :: es => broadcastVotes es

/-- Whether the parent of the block voted by `p` is found in the block tree,
or that block has number `0`: the condition of `trySendPrepareVote` for
sending `p`. -/
def voteReleasable (d : Deps BT VP) (c : Cbft BT VP) (p : PrepareVote) : Bool :=
  match c.state.ViewBlockByIndex p.blockIndex with
  | some block =>
    (d.FindBlockAndQC c.blockTree block.parentHash (u64pred block.number)).1.isSome
      || decide (block.number = 0)
  | none => false

/-- The vote `p` with the certificate the block tree holds for the parent of
the voted block as its `ParentQC`. -/
def withParentQC (d : Deps BT VP) (c : Cbft BT VP) (p : PrepareVote) : PrepareVote :=
  match c.state.ViewBlockByIndex p.blockIndex with
  | some block =>
    { p with parentQC := (d.FindBlockAndQC c.blockTree block.parentHash (u64pred block.number)).2 }
  | none => p

/-- What a round of `trySendPrepareVote` leaves alone: block tree, validator
pool, loading flag, and every field of the view state but the two vote queues
and the vote tally. -/
def SendFrame (c c1 : Cbft BT VP) : Prop :=
  c1.blockTree = c.blockTree ∧ c1.validatorPool = c.validatorPool ∧ c1.loading = c.loading
    ∧ c1.state.viewBlocks = c.state.viewBlocks ∧ c1.state.executing = c.state.executing
    ∧ c1.state.epoch = c.state.epoch ∧ c1.state.viewNumber = c.state.viewNumber
    ∧ c1.state.viewQCs = c.state.viewQCs ∧ c1.state.maxQCIndex = c.state.maxQCIndex
    ∧ c1.state.viewChanges = c.state.viewChanges
    ∧ c1.state.highestQCBlock = c.state.highestQCBlock
    ∧ c1.state.highestLockBlock = c.state.highestLockBlock
    ∧ c1.state.highestCommitBlock = c.state.highestCommitBlock

/-- What `trySendPrepareVote` does from `c` to `r`: it sends the votes `sent`
from the front of the pending queue, each with the parent certificate of the
block tree attached, and leaves `rest`. -/
def SentVotes (d : Deps BT VP) (c r : Cbft BT VP) (sent rest : List PrepareVote) : Prop :=
  c.state.pendingPrepareVote = sent ++ rest
    ∧ r.state.pendingPrepareVote = rest
    ∧ r.state.hadSendPrepareVote = c.state.hadSendPrepareVote ++ sent.map (withParentQC d c)
    ∧ broadcastVotes r.out = broadcastVotes c.out ++ sent.map (withParentQC d c)
    ∧ (∀ p ∈ sent, voteReleasable d c p = true)
    ∧ (∀ e ∈ r.state.viewVotes, e ∈ c.state.viewVotes ∨ e.2 ∈ sent.map (withParentQC d c))
    ∧ (∀ p, rest.head? = some p → d.AllowVote r p = false ∨ voteReleasable d c p = false)

/-- The block indices of the votes this node has signed in the view, the sent
ones first, each group in the order of its queue. -/
def ViewState.voteIndices (s : ViewState) : List Nat :=
  (s.hadSendPrepareVote ++ s.pendingPrepareVote).map (fun v => v.blockIndex)

/-- The invariant of the execution and voting pipeline of a view: no proposal
sits at the sentinel index; the indices of the signed votes, sent ones first,
are strictly increasing; all of them are at most the index of the executing
cursor and below it while that block is not finished; and a cursor at the
sentinel means nothing has been signed. -/
structure PipeInv (s : ViewState) : Prop where
  blocks : ∀ b ∈ s.viewBlocks, b.blockIndex < maxUint32
  sorted : List.Pairwise (fun a b => a < b) s.voteIndices
  cursor : s.executing.1 ≤ maxUint32
  fresh : s.executing.1 = maxUint32 → s.executing.2 = false ∧ s.voteIndices = []
  below : ∀ i ∈ s.voteIndices,
    i ≤ s.executing.1 ∧ (i = s.executing.1 → s.executing.2 = true)

/-- The pipeline invariant together with the trace: the votes sent in the
current view are the last votes broadcast, in the same order. -/
def VoteInv (c : Cbft BT VP) : Prop :=
  PipeInv c.state ∧ ∃ pre, broadcastVotes c.out = pre ++ c.state.hadSendPrepareVote

/-- Modelled from the spec: the contract of `PrepareBlockRules` (section 4.A)
the pipeline relies on.  A proposal that passes the rules, or that opens a new
view, has its block index in `[0, Amount)`; `Amount` is a `uint32`. -/
def ProposalInRange (d : Deps BT VP) : Prop :=
  d.amount ≤ maxUint32
    ∧ ∀ c msg, (∀ e, d.PrepareBlockRules c msg = some e → e.fetch = false ∧ e.newView = true) →
        msg.blockIndex < d.amount

/-- Every certificate stored in the view state `x` either was stored in `s`
already or is backed by at least `th` stored votes for its block index. -/
def QCsBacked (s : ViewState) (th : Nat) (x : Cbft BT VP) : Prop :=
  ∀ i, (x.state.viewQCByIndex i).isSome = true →
    (s.viewQCByIndex i).isSome = true ∨ th ≤ x.state.PrepareVoteLenByIndex i


/-- The three consensus messages a peer can deliver. -/
inductive ConsensusMsg where
  | prepareBlock (msg : PrepareBlock)
  | prepareVote (msg : PrepareVote)
  | viewChange (msg : ViewChange)
deriving DecidableEq, Repr

/-- The handler of a consensus message received from peer `id`. -/
def handleMsg (d : Deps BT VP) (c : Cbft BT VP) (id : Nat) :
    ConsensusMsg → Option (Cbft BT VP × Option HandlerError)
  | ConsensusMsg.prepareBlock msg => OnPrepareBlock d c id msg
  | ConsensusMsg.prepareVote msg => OnPrepareVote d c id msg
  | ConsensusMsg.viewChange msg => OnViewChange d c id msg

/-- A message the handler drops in the state it was received in: the safety
rules answer with an error (for a proposal: one that does not ask for a new
view), or they pass and `verifyConsensusMsg` fails. -/
def droppedMsg (d : Deps BT VP) (c : Cbft BT VP) (id : Nat) : ConsensusMsg → Bool
  | ConsensusMsg.prepareBlock msg =>
    match d.PrepareBlockRules c msg with
    | some err => err.fetch || !err.newView
    | none => (d.verifyPrepareBlock c msg).isNone
  | ConsensusMsg.prepareVote msg =>
    match d.PrepareVoteRules c msg with
    | some _ => true
    | none => (d.verifyPrepareVote (c.sendAll id (d.prepareVoteFetchRules c id msg)) msg).isNone
  | ConsensusMsg.viewChange msg =>
    match d.ViewChangeRules c msg with
    | some _ => true
    | none => (d.verifyViewChange c msg).isNone

/-- The votes this node has signed in the view state `r`, pending and sent,
are those of `s`, or the view has been reset since. -/
def SignedVotesOf (s r : ViewState) : Prop :=
  (r.pendingPrepareVote = s.pendingPrepareVote ∧ r.hadSendPrepareVote = s.hadSendPrepareVote)
    ∨ (r.pendingPrepareVote = [] ∧ r.hadSendPrepareVote = [])

/-- The PrepareVote `signBlock` builds for `block` at index `index` as
validator `idx`, with the signature `sig`. -/
def signedVote (c : Cbft BT VP) (block : Block) (index idx sig : Nat) : PrepareVote :=
  { epoch := c.state.epoch, viewNumber := c.state.viewNumber, blockHash := block.hash,
    blockNumber := block.number, blockIndex := index, validatorIndex := idx % 4294967296,
    parentQC := none, signature := sig }

/-- The blocks passed to `ClearCache` in a trace, in order. -/
def clearedBlocks : List Effect → List (Option Block)
  | [] => []
  | Effect.clearCache b :: es => b :: clearedBlocks es
  | _ :: es => clearedBlocks es

/-- Reference for one pair of `OnInsertQCBlock`: `insertQCBlock(block, qc)`,
preceded by `changeView(qc.epoch, qc.view_number, block, qc, none)` when the
result of `QCBlockRules` is NewView.  There is no result when the rules reject
the pair with another error, or when one of the calls does not complete. -/
def insertPairRef (d : Deps BT VP) (c : Cbft BT VP) (p : Block × QuorumCert) :
    Option (Cbft BT VP) :=
  match d.QCBlockRules c p.1 p.2 with
  | none => insertQCBlock d c p.1 p.2
  | some err =>
    if err.newView then
      (changeView d c p.2.epoch p.2.viewNumber (some p.1) (some p.2) none).bind
        (fun c1 => insertQCBlock d c1 p.1 p.2)
    else none

/-- Reference for `OnInsertQCBlock`: the pairs applied one after the other, in
list order. -/
def insertPairsRef (d : Deps BT VP) : List (Block × QuorumCert) → Cbft BT VP → Option (Cbft BT VP)
  | [], c => some c
  | p :: rest, c => (insertPairRef d c p).bind (insertPairsRef d rest)

/-- The invariant of the executing cursor: it is the sentinel, or the view
holds the block it points at. -/
def CursorBlock (c : Cbft BT VP) : Prop :=
  c.state.executing.1 = maxUint32
    ∨ (c.state.ViewBlockByIndex c.state.executing.1).isSome = true
/-! ## A concrete instance for the examples -/

/-- Modelled from the spec: a block tree (section 4.D) as the list of the
stored blocks with their certificates; the root has none. -/
abbrev ToyTree := List (Block × Option QuorumCert)

/-- Modelled from the spec: `FindBlockAndQC(hash, number)`. -/
def toyFind (t : ToyTree) (h : Hash) (n : Nat) : Option Block × Option QuorumCert :=
  match t.find? (fun e => e.1.hash == h && e.1.number == n) with
  | some e => (some e.1, e.2)
  | none => (none, none)

/-- The parent of a block in the tree; a block of number `0` has none. -/
def toyParent (t : ToyTree) (b : Block) : Option Block :=
  if b.number = 0 then none else (toyFind t b.parentHash (u64pred b.number)).1

/-- Modelled from the spec: `InsertQCBlock(block, qc)` stores the pair; the
lock candidate is the parent of the inserted block and the commit candidate
the parent of the lock candidate, when the tree holds both. -/
def toyInsert (t : ToyTree) (b : Block) (qc : QuorumCert) :
    ToyTree × Option Block × Option Block :=
  let t1 := t ++ [(b, some qc)]
  match toyParent t1 b with
  | none => (t1, none, none)
  | some lock =>
    match toyParent t1 lock with
    | none => (t1, none, none)
    | some commit => (t1, some lock, some commit)

/-- Modelled from the spec: `PruneBlock(hash, number)` discards the blocks
below the committed one. -/
def toyPrune (t : ToyTree) (_h : Hash) (n : Nat) : ToyTree :=
  t.filter (fun e => decide (n ≤ e.1.number))

/-- An instance of the collaborators: four validators, the local node is
validator 0, a proposal passes the rules when its index is below `Amount`,
every other message passes them, and every signature succeeds. -/
def toyDeps : Deps ToyTree Nat where
  amount := 10
  defaultViewNumber := 0
  PrepareBlockRules := fun _ msg =>
    if msg.blockIndex < 10 then none else some { fetch := false, newView := false }
  PrepareVoteRules := fun _ _ => none
  ViewChangeRules := fun _ _ => none
  QCBlockRules := fun _ _ _ => none
  AllowVote := fun c p => !c.state.hadSend p.blockIndex
  FindBlockAndQC := toyFind
  InsertQCBlock := toyInsert
  PruneBlock := toyPrune
  NewRoot := fun t _ => t
  GetValidatorByNodeID := fun _ _ => some 0
  IsValidator := fun _ _ => true
  IsCandidateNode := fun _ => false
  ShouldSwitch := fun _ _ => false
  Update := fun vp _ => some vp
  Len := fun vp _ => vp
  verifyPrepareBlock := fun _ msg => some msg.proposalIndex
  verifyPrepareVote := fun _ msg => some msg.validatorIndex
  verifyViewChange := fun _ msg => some msg.validatorIndex
  signViewChange := fun _ => some 1
  signPrepareVote := fun _ => some 1
  prepareBlockFetchRules := fun _ _ _ => []
  prepareVoteFetchRules := fun _ _ _ => []

/-- The genesis block. -/
def genesis : Block := { hash := 100, parentHash := 0, number := 0 }

/-- Three blocks on top of genesis. -/
def blockB1 : Block := { hash := 101, parentHash := 100, number := 1 }

def blockB2 : Block := { hash := 102, parentHash := 101, number := 2 }

def blockB3 : Block := { hash := 103, parentHash := 102, number := 3 }

/-- The view state of scenario S1..S3: view `(1, 0)`, nothing received, the
three highest blocks are genesis. -/
def viewState0 : ViewState where
  epoch := 1
  viewNumber := 0
  viewBlocks := []
  viewVotes := []
  viewChanges := []
  viewQCs := []
  maxQCIndex := maxUint32
  executing := (maxUint32, false)
  hadSendPrepareVote := []
  pendingPrepareVote := []
  highestQCBlock := genesis
  highestLockBlock := genesis
  highestCommitBlock := genesis
  viewTimer := 10
  lastViewChangeQC := none

/-- The node of the scenarios: four validators and a tree holding genesis. -/
def cbft0 : Cbft ToyTree Nat where
  state := viewState0
  blockTree := [(genesis, none)]
  validatorPool := 4
  loading := false
  out := []

/-- The filled view of the example: the certificate of index 9 is the last of ten. -/
def cbftFilled : Cbft ToyTree Nat :=
  cbft0.setState { viewState0 with maxQCIndex := 9 }


/-- The certificate of a block at index `i` of view `(1, 0)`. -/
def qcOf (b : Block) (i : Nat) : QuorumCert :=
  { epoch := 1, viewNumber := 0, blockHash := b.hash, blockNumber := b.number, blockIndex := i,
    validatorSet := [0, 1, 2] }

/-- Scenario S2 through catch-up: the three blocks arrive with their certificates. -/
def eventsS2 : List Event :=
  [Event.insertQCBlock [blockB1, blockB2] [qcOf blockB1 0, qcOf blockB2 1],
   Event.insertQCBlock [blockB3] [qcOf blockB3 2]]

/-- The node after the first event of `eventsS2`. -/
def cbftS2a : Cbft ToyTree Nat := (run toyDeps cbft0 (eventsS2.take 1)).getD cbft0

/-- The node after both events of `eventsS2`. -/
def cbftS2b : Cbft ToyTree Nat := (run toyDeps cbftS2a (eventsS2.drop 1)).getD cbft0

/-- A ViewChange of validator `i` for view `(1, 0)` on genesis. -/
def viewChangeOf (i : Nat) : ViewChange :=
  { epoch := 1, viewNumber := 0, blockHash := genesis.hash, blockNumber := genesis.number,
    validatorIndex := i, prepareQC := none, signature := 1 }

/-- The node of scenario S3 with the view changes of validators 0, 1 and 2. -/
def cbftQuorum : Cbft ToyTree Nat :=
  cbft0.setState { viewState0 with
    viewChanges := [(0, viewChangeOf 0), (1, viewChangeOf 1), (2, viewChangeOf 2)] }

/-- A certificate for `blockB1` from another view, `(1, 7)`. -/
def qcOtherView : QuorumCert :=
  { epoch := 1, viewNumber := 7, blockHash := blockB1.hash, blockNumber := blockB1.number,
    blockIndex := 3, validatorSet := [0, 1, 2] }

/-- The node after `insertQCBlock(blockB1, qcOtherView)`. -/
def cbftOtherView : Cbft ToyTree Nat :=
  (insertQCBlock toyDeps cbft0 blockB1 qcOtherView).getD cbft0

/-- The proposal of block `b` at index `i` of view `(1, 0)` by validator 1. -/
def proposalOf (b : Block) (i : Nat) : PrepareBlock :=
  { epoch := 1, viewNumber := 0, block := b, blockIndex := i, proposalIndex := 1,
    viewChangeQC := none, signature := 1 }

/-- The vote of validator `v` for block `b` at index `i` of view `(1, 0)`,
without a parent certificate. -/
def voteOf (v : Nat) (b : Block) (i : Nat) : PrepareVote :=
  { epoch := 1, viewNumber := 0, blockHash := b.hash, blockNumber := b.number, blockIndex := i,
    validatorIndex := v, parentQC := none, signature := 1 }

/-- A node with the proposals of `blockB1` and `blockB2`, both executed and
signed, whose votes are pending; the block tree holds genesis only. -/
def cbftVotes : Cbft ToyTree Nat :=
  cbft0.setState { viewState0 with
    viewBlocks := [proposalOf blockB1 0, proposalOf blockB2 1]
    executing := (1, true)
    pendingPrepareVote := [voteOf 0 blockB1 0, voteOf 0 blockB2 1] }

/-- The node `cbftVotes` after `trySendPrepareVote`. -/
def cbftVotesSent : Cbft ToyTree Nat := (trySendPrepareVote toyDeps cbftVotes).getD cbft0

/-- Scenario S1 followed by the second slot: the proposal of `blockB1` is
executed and voted, the votes of validators 1 and 2 complete its certificate,
then the proposal of `blockB2` is executed and voted. -/
def eventsS1 : List Event :=
  [Event.prepareBlock 1 (proposalOf blockB1 0),
   Event.asyncExecuteStatus { hash := blockB1.hash, number := blockB1.number, err := false },
   Event.prepareVote 1 (voteOf 1 blockB1 0),
   Event.prepareVote 2 (voteOf 2 blockB1 0),
   Event.prepareBlock 1 (proposalOf blockB2 1),
   Event.asyncExecuteStatus { hash := blockB2.hash, number := blockB2.number, err := false }]

/-- The node after `eventsS1`. -/
def cbftS1 : Cbft ToyTree Nat := (run toyDeps cbft0 eventsS1).getD cbft0

/-- The node of scenario S1 when the vote of validator 2 for `blockB1` has
been stored and `findQCBlock` is about to run. -/
def cbftBeforeQC : Cbft ToyTree Nat :=
  ((run toyDeps cbft0 (eventsS1.take 3)).getD cbft0).setState
    (((run toyDeps cbft0 (eventsS1.take 3)).getD cbft0).state.AddPrepareVote 2
      (voteOf 2 blockB1 0))

/-- The node `cbftBeforeQC` after `findQCBlock`. -/
def cbftAfterQC : Cbft ToyTree Nat := (findQCBlock toyDeps cbftBeforeQC).getD cbft0

/-- A catch-up batch with `blockB1` and its certificate for index 0 of the
current view. -/
def eventsCatchUp : List Event := [Event.insertQCBlock [blockB1] [qcOf blockB1 0]]

/-- The node after `eventsCatchUp`. -/
def cbftCatchUp : Cbft ToyTree Nat := (run toyDeps cbft0 eventsCatchUp).getD cbft0


/-- The collaborators of `toyDeps` with safety rules that answer every
proposal with NewView and a signature check that rejects every proposal. -/
def toyDepsNewView : Deps ToyTree Nat :=
  { toyDeps with
    PrepareBlockRules := fun _ _ => some { fetch := false, newView := true }
    verifyPrepareBlock := fun _ _ => none }

/-- A proposal of `blockB1` for view `(1, 1)` that carries the view changes of
validators 0, 1 and 2 on genesis and a signature that does not verify. -/
def proposalNewView : PrepareBlock :=
  { epoch := 1, viewNumber := 1, block := blockB1, blockIndex := 0, proposalIndex := 1,
    viewChangeQC := some { members := [viewChangeOf 0, viewChangeOf 1, viewChangeOf 2] },
    signature := 0 }

/-- The node after `OnPrepareBlock` has handled `proposalNewView`. -/
def cbftNewViewRejected : Cbft ToyTree Nat :=
  ((OnPrepareBlock toyDepsNewView cbft0 1 proposalNewView).getD (cbft0, none)).1

/-- The collaborators of `toyDeps` with a signature check that rejects every
vote. -/
def toyDepsBadVote : Deps ToyTree Nat :=
  { toyDeps with verifyPrepareVote := fun _ _ => none }

/-- The collaborators of `toyDeps` with safety rules that answer every
proposal with Fetch. -/
def toyDepsFetch : Deps ToyTree Nat :=
  { toyDeps with PrepareBlockRules := fun _ _ => some { fetch := true, newView := false } }

/-- The collaborators of `toyDeps` for a node that is not a validator: the
validator pool does not list the local node. -/
def toyDepsObserver : Deps ToyTree Nat :=
  { toyDeps with GetValidatorByNodeID := fun _ _ => none }

/-- A node that holds the proposal of `blockB1` at index 0 and is executing it. -/
def cbftExecuting : Cbft ToyTree Nat :=
  cbft0.setState { viewState0 with
    viewBlocks := [proposalOf blockB1 0]
    executing := (0, false) }

/-- The successful execution status of `blockB1`. -/
def statusB1 : BlockExecuteStatus :=
  { hash := blockB1.hash, number := blockB1.number, err := false }

/-- The node of scenario S3: view `(1, 0)`, nothing received, and a block tree
that holds genesis with the certificate `q`, if it has one. -/
def cbftS3 (q : Option QuorumCert) : Cbft ToyTree Nat := cbft0.setBlockTree [(genesis, q)]

/-- The ViewChange of validator `i` for view `(1, 0)` on genesis with the
certificate `q`. -/
def viewChangeS3 (i : Nat) (q : Option QuorumCert) : ViewChange :=
  { viewChangeOf i with prepareQC := q }

/-- Scenario S3: the local timeout, then the ViewChanges of validators 1 and 2. -/
def eventsS3 (q : Option QuorumCert) : List Event :=
  [Event.viewTimeout, Event.viewChange 1 (viewChangeS3 1 q),
   Event.viewChange 2 (viewChangeS3 2 q)]

/-- A certificate for genesis of view `(1, 0)` at block index 0. -/
def qcGenesis : QuorumCert :=
  { epoch := 1, viewNumber := 0, blockHash := genesis.hash, blockNumber := genesis.number,
    blockIndex := 0, validatorSet := [0, 1, 2] }

/-- The node after scenario S3 when genesis carries `qcGenesis`. -/
def cbftAfterS3 : Cbft ToyTree Nat :=
  (run toyDeps (cbftS3 (some qcGenesis)) (eventsS3 (some qcGenesis))).getD cbft0

/-- The node of `eventsS1` when the proposal of `blockB2` at index 1 has been
stored and `findExecutableBlock` is about to run: `blockB1` at index 0 is
executed and certified. -/
def cbftNextReady : Cbft ToyTree Nat :=
  ((run toyDeps cbft0 (eventsS1.take 4)).getD cbft0).setState
    (((run toyDeps cbft0 (eventsS1.take 4)).getD cbft0).state.AddPrepareBlock
      (proposalOf blockB2 1))

/-- A view that stalls after two proposals: the proposal of `blockB1` is
executed and its vote sent, the proposal of `blockB2` is executed and its
vote signed but kept pending (the block tree does not hold `blockB1` yet);
then the view timer fires and the ViewChanges of validators 1 and 2 arrive. -/
def eventsRollback : List Event :=
  [Event.prepareBlock 1 (proposalOf blockB1 0),
   Event.asyncExecuteStatus { hash := blockB1.hash, number := blockB1.number, err := false },
   Event.prepareBlock 1 (proposalOf blockB2 1),
   Event.asyncExecuteStatus { hash := blockB2.hash, number := blockB2.number, err := false },
   Event.viewTimeout,
   Event.viewChange 1 (viewChangeOf 1),
   Event.viewChange 2 (viewChangeOf 2)]

/-- The node before the last event of `eventsRollback`. -/
def cbftBeforeRotate : Cbft ToyTree Nat := (run toyDeps cbft0 (eventsRollback.take 6)).getD cbft0

/-- The node after `eventsRollback`. -/
def cbftRotated : Cbft ToyTree Nat := (run toyDeps cbft0 eventsRollback).getD cbft0

/-- The collaborators of `toyDeps` with rules for catch-up that reject every
block of number 2. -/
def toyDepsReject : Deps ToyTree Nat :=
  { toyDeps with
    QCBlockRules := fun _ b _ =>
      if b.number = 2 then some { fetch := false, newView := false } else none }

/-- The node after `insertQCBlock(blockB1, qcOf blockB1 0)`. -/
def cbftOnePair : Cbft ToyTree Nat :=
  (insertQCBlock toyDepsReject cbft0 blockB1 (qcOf blockB1 0)).getD cbft0

/-- The collaborators of `toyDeps` with safety rules that reject every
message whose `(epoch, view)` is not that of the current view. -/
def toyDepsStrict : Deps ToyTree Nat :=
  { toyDeps with
    PrepareBlockRules := fun c msg =>
      if msg.epoch = c.state.epoch ∧ msg.viewNumber = c.state.viewNumber
          ∧ msg.blockIndex < 10 then none
      else some { fetch := false, newView := false }
    PrepareVoteRules := fun c msg =>
      if msg.epoch = c.state.epoch ∧ msg.viewNumber = c.state.viewNumber then none
      else some { fetch := false, newView := false }
    ViewChangeRules := fun c msg =>
      if msg.epoch = c.state.epoch ∧ msg.viewNumber = c.state.viewNumber then none
      else some { fetch := false, newView := false } }

/-- A ViewChange of validator `i` for view `(epoch 1, v)` on the block `b`
with the certificate `q`. -/
def viewChangeOn (v i : Nat) (b : Block) (q : Option QuorumCert) : ViewChange :=
  { epoch := 1, viewNumber := v, blockHash := b.hash, blockNumber := b.number,
    validatorIndex := i, prepareQC := q, signature := 1 }

/-- A late vote of validator 3 for `blockB1` at index 0 of view `(1, 0)` that
carries the certificate of `blockB2` as parent certificate. -/
def voteLate : PrepareVote :=
  { voteOf 3 blockB1 0 with parentQC := some (qcOf blockB2 1) }

/-- The proposal of `blockB3` at index 0 of view `(1, 1)`. -/
def proposalB3 : PrepareBlock :=
  { epoch := 1, viewNumber := 1, block := blockB3, blockIndex := 0, proposalIndex := 1,
    viewChangeQC := none, signature := 1 }

/-- The vote of validator 1 for `blockB3` at index 0 of view `(1, 1)`. -/
def voteB3 : PrepareVote :=
  { epoch := 1, viewNumber := 1, blockHash := blockB3.hash, blockNumber := blockB3.number,
    blockIndex := 0, validatorIndex := 1, parentQC := none, signature := 1 }

/-- A run, every message of which is of the view the node is in when it
arrives, in which a vote of view `(1, 0)` is stored in view `(1, 1)`.  After
`eventsS1` the ViewChanges of validators 1, 2 and 3 name `blockB2`, which the
node has not certified yet, so the view change waits.  The late vote of
validator 3 brings the certificate of `blockB2`: `insertPrepareQC` inserts it
and rotates the view to `(1, 1)`, and the vote is stored afterwards.  In the
new view `blockB3` is proposed at index 0, executed and voted, and the vote of
validator 1 arrives. -/
def eventsStale : List Event :=
  eventsS1 ++
  [Event.viewChange 1 (viewChangeOn 0 1 blockB2 (some (qcOf blockB2 1))),
   Event.viewChange 2 (viewChangeOn 0 2 blockB2 (some (qcOf blockB2 1))),
   Event.viewChange 3 (viewChangeOn 0 3 blockB2 (some (qcOf blockB2 1))),
   Event.prepareVote 3 voteLate,
   Event.prepareBlock 1 proposalB3,
   Event.asyncExecuteStatus { hash := blockB3.hash, number := blockB3.number, err := false },
   Event.prepareVote 1 voteB3]

/-- The certificate of `blockB3` at index 0 of view `(1, 1)`. -/
def qcB3 : QuorumCert :=
  { epoch := 1, viewNumber := 1, blockHash := blockB3.hash, blockNumber := blockB3.number,
    blockIndex := 0, validatorSet := [0, 1, 3] }

/-- The run `eventsStale` followed by the ViewChanges of validators 1 and 2
for view `(1, 1)` on `blockB3`. -/
def eventsBehind : List Event :=
  eventsStale ++
  [Event.viewChange 1 (viewChangeOn 1 1 blockB3 (some qcB3)),
   Event.viewChange 2 (viewChangeOn 1 2 blockB3 (some qcB3))]

/-- The node of `eventsBehind` when the ViewChange of validator 3 on `blockB3`
has been stored and `tryChangeView` is about to run. -/
def cbftBehind : Cbft ToyTree Nat :=
  ((run toyDepsStrict cbft0 eventsBehind).getD cbft0).setState
    (((run toyDepsStrict cbft0 eventsBehind).getD cbft0).state.AddViewChange 3
      (viewChangeOn 1 3 blockB3 (some qcB3)))

/-- The node after `eventsS1` and the ViewChanges of validators 1 and 2 on
`blockB1`, the highest QC block, when the ViewChange of validator 3 has been
stored and `tryChangeView` is about to run. -/
def cbftQuorumB1 : Cbft ToyTree Nat :=
  ((run toyDeps cbftS1
      [Event.viewChange 1 (viewChangeOn 0 1 blockB1 (some (qcOf blockB1 0))),
       Event.viewChange 2 (viewChangeOn 0 2 blockB1 (some (qcOf blockB1 0)))]).getD cbft0).setState
    (((run toyDeps cbftS1
      [Event.viewChange 1 (viewChangeOn 0 1 blockB1 (some (qcOf blockB1 0))),
       Event.viewChange 2 (viewChangeOn 0 2 blockB1 (some (qcOf blockB1 0)))]).getD
        cbft0).state.AddViewChange 3 (viewChangeOn 0 3 blockB1 (some (qcOf blockB1 0))))
/-! ## Frame lemmas -/

@[simp] theorem Cbft.emit_state (c : Cbft BT VP) (e : Effect) : (c.emit e).state = c.state := rfl

@[simp] theorem Cbft.emit_blockTree (c : Cbft BT VP) (e : Effect) :
    (c.emit e).blockTree = c.blockTree := rfl

@[simp] theorem Cbft.emit_validatorPool (c : Cbft BT VP) (e : Effect) :
    (c.emit e).validatorPool = c.validatorPool := rfl

@[simp] theorem Cbft.emit_loading (c : Cbft BT VP) (e : Effect) :
    (c.emit e).loading = c.loading := rfl

@[simp] theorem Cbft.emit_out (c : Cbft BT VP) (e : Effect) : (c.emit e).out = c.out ++ [e] := rfl

@[simp] theorem Cbft.setState_state (c : Cbft BT VP) (s : ViewState) :
    (c.setState s).state = s := rfl

@[simp] theorem Cbft.setState_blockTree (c : Cbft BT VP) (s : ViewState) :
    (c.setState s).blockTree = c.blockTree := rfl

@[simp] theorem Cbft.setState_validatorPool (c : Cbft BT VP) (s : ViewState) :
    (c.setState s).validatorPool = c.validatorPool := rfl

@[simp] theorem Cbft.setState_loading (c : Cbft BT VP) (s : ViewState) :
    (c.setState s).loading = c.loading := rfl

@[simp] theorem Cbft.setState_out (c : Cbft BT VP) (s : ViewState) :
    (c.setState s).out = c.out := rfl

@[simp] theorem Cbft.setBlockTree_state (c : Cbft BT VP) (t : BT) :
    (c.setBlockTree t).state = c.state := rfl

@[simp] theorem Cbft.setBlockTree_blockTree (c : Cbft BT VP) (t : BT) :
    (c.setBlockTree t).blockTree = t := rfl

@[simp] theorem Cbft.setBlockTree_validatorPool (c : Cbft BT VP) (t : BT) :
    (c.setBlockTree t).validatorPool = c.validatorPool := rfl

@[simp] theorem Cbft.setBlockTree_loading (c : Cbft BT VP) (t : BT) :
    (c.setBlockTree t).loading = c.loading := rfl

@[simp] theorem Cbft.setBlockTree_out (c : Cbft BT VP) (t : BT) :
    (c.setBlockTree t).out = c.out := rfl

@[simp] theorem Cbft.setValidatorPool_state (c : Cbft BT VP) (vp : VP) :
    (c.setValidatorPool vp).state = c.state := rfl

@[simp] theorem Cbft.setValidatorPool_blockTree (c : Cbft BT VP) (vp : VP) :
    (c.setValidatorPool vp).blockTree = c.blockTree := rfl

@[simp] theorem Cbft.setValidatorPool_validatorPool (c : Cbft BT VP) (vp : VP) :
    (c.setValidatorPool vp).validatorPool = vp := rfl

@[simp] theorem Cbft.setValidatorPool_loading (c : Cbft BT VP) (vp : VP) :
    (c.setValidatorPool vp).loading = c.loading := rfl

@[simp] theorem Cbft.setValidatorPool_out (c : Cbft BT VP) (vp : VP) :
    (c.setValidatorPool vp).out = c.out := rfl

theorem outExt_refl (c : Cbft BT VP) : OutExt c c :=
  ⟨rfl, rfl, rfl, rfl, [], by simp, by simp⟩

theorem outExt_trans {c c1 c2 : Cbft BT VP} (h1 : OutExt c c1) (h2 : OutExt c1 c2) :
    OutExt c c2 := by
  obtain ⟨a1, a2, a3, a4, e1, a5, a6⟩ := h1
  obtain ⟨b1, b2, b3, b4, e2, b5, b6⟩ := h2
  refine ⟨b1.trans a1, b2.trans a2, b3.trans a3, b4.trans a4, e1 ++ e2, by rw [b5, a5]; simp, ?_⟩
  intro e he
  rcases List.mem_append.1 he with h | h
  · exact a6 e h
  · exact b6 e h

theorem outExt_ofEmit (c : Cbft BT VP) (e : Effect) (he : Effect.isLocalBroadcast e = false) :
    OutExt c (c.emit e) :=
  ⟨rfl, rfl, rfl, rfl, [e], rfl, by simpa using he⟩

theorem sendAll_outExt (peer : Nat) (l : List Nat) :
    ∀ c : Cbft BT VP, OutExt c (c.sendAll peer l) := by
  induction l with
  | nil => intro c; exact outExt_refl c
  | cons x l ih =>
    intro c
    exact outExt_trans (outExt_ofEmit c _ (by rfl)) (ih _)

theorem clearInvalid_foldl (nb : Block) (l : List PrepareVote)
    (acc : List (Option Block) × Cbft BT VP) :
    OutExt acc.2 (l.foldl (clearInvalidStep nb) acc).2 := by
  induction l generalizing acc with
  | nil => exact outExt_refl _
  | cons p l ih =>
    simp only [List.foldl_cons]
    refine outExt_trans ?_ (ih _)
    unfold clearInvalidStep
    split
    · exact outExt_ofEmit _ _ rfl
    · exact outExt_refl _

theorem clearInvalidBlocks_frame (c : Cbft BT VP) (nb : Block) :
    OutExt c (clearInvalidBlocks c nb) := by
  unfold clearInvalidBlocks
  exact outExt_trans
    (outExt_trans
      (clearInvalid_foldl nb c.state.hadSendPrepareVote (([], c) : List (Option Block) × Cbft BT VP))
      (clearInvalid_foldl nb c.state.pendingPrepareVote _))
    (outExt_ofEmit _ _ rfl)

theorem clearInvalidBlocks_confirm_frame (c3 : Cbft BT VP) (ef : Effect)
    (hef : Effect.isLocalBroadcast ef = false) (b : Block) :
    OutExt c3 (clearInvalidBlocks (if c3.loading then c3 else c3.emit ef) b) := by
  refine outExt_trans ?_ (clearInvalidBlocks_frame _ b)
  split
  · exact outExt_refl _
  · exact outExt_ofEmit _ _ hef

/-- The result of `changeView` when the timer interval is defined. -/
theorem changeView_some (d : Deps BT VP) (c : Cbft BT VP) (e v : Nat) (b : Block)
    (oqc : Option QuorumCert) (vc : Option ViewChangeQC) (iv : Nat)
    (hiv : changeViewInterval d v (some b) oqc = some iv) :
    ∃ r, changeView d c e v (some b) oqc vc = some r
      ∧ r.state = ((c.state.ResetView e v).SetViewTimer iv).SetLastViewChangeQC vc
      ∧ r.blockTree = c.blockTree ∧ r.validatorPool = c.validatorPool
      ∧ r.loading = c.loading
      ∧ ∃ es, r.out = c.out ++ es ∧ ∀ x ∈ es, Effect.isLocalBroadcast x = false := by
  unfold changeView
  simp only [hiv]
  obtain ⟨h1, h2, h3, h4, es, h5, h6⟩ := clearInvalidBlocks_confirm_frame
    (((c.setState (c.state.ResetView e v)).setState
      ((c.state.ResetView e v).SetViewTimer iv)).setState
      (((c.state.ResetView e v).SetViewTimer iv).SetLastViewChangeQC vc))
    (Effect.confirmViewChange e v b oqc vc) rfl b
  exact ⟨_, rfl, h1, h2, h3, h4, es, h5, h6⟩

/-- A stable property survives appended calls that are not vote broadcasts. -/
theorem stable_append {P : Cbft BT VP → Prop} (hS : Stable P) (es : List Effect) :
    ∀ c : Cbft BT VP, (∀ e ∈ es, Effect.isLocalBroadcast e = false) → P c →
      P { c with out := c.out ++ es } := by
  induction es with
  | nil => intro c _ hc; simpa using hc
  | cons e es ih =>
    intro c hq hc
    have h1 := ih (c.emit e) (fun x hx => hq x (List.mem_cons_of_mem _ hx))
      (hS.emit c e (hq e (List.mem_cons_self _ _)) hc)
    simpa [Cbft.emit] using h1

theorem stable_outExt {P : Cbft BT VP → Prop} (hS : Stable P) {c c1 : Cbft BT VP}
    (h : OutExt c c1) (hc : P c) : P c1 := by
  obtain ⟨h1, h2, h3, h4, es, h5, h6⟩ := h
  have h := stable_append hS es c h6 hc
  have : c1 = { c with out := c.out ++ es } := by
    cases c1; cases c; simp_all
  rw [this]; exact h

theorem changeView_stable {P : Cbft BT VP → Prop} (hS : Stable P) (d : Deps BT VP)
    (c r : Cbft BT VP) (e v : Nat) (b : Option Block) (oqc : Option QuorumCert)
    (vc : Option ViewChangeQC) (hc : P c) (h : changeView d c e v b oqc vc = some r) : P r := by
  unfold changeView at h
  dsimp only at h
  split at h
  · rename_i b1 iv _
    simp only [Option.some.injEq] at h
    rw [← h]
    refine stable_outExt hS (clearInvalidBlocks_frame _ b1) ?_
    have h1 := hS.lastVC _ vc (hS.timer _ iv (hS.reset c e v hc))
    split
    · exact h1
    · exact hS.emit _ _ rfl h1
  · exact absurd h (by simp)

theorem tryChangeView_stable {P : Cbft BT VP → Prop} (hS : Stable P) (d : Deps BT VP)
    (c r : Cbft BT VP) (hc : P c) (h : tryChangeView d c = some r) : P r := by
  unfold tryChangeView at h
  dsimp only at h
  split at h
  · exact changeView_stable hS d c r _ _ _ _ _ hc h
  · split at h
    · split at h
      · exact absurd h (by simp)
      · split at h
        · split at h
          · exact absurd h (by simp)
          · split at h
            · simp only [Option.some.injEq] at h; rw [← h]; exact hc
            · exact changeView_stable hS d c r _ _ _ _ _ hc h
        · exact changeView_stable hS d c r _ _ _ _ _ hc h
    · simp only [Option.some.injEq] at h; rw [← h]; exact hc

theorem insertQCBlockStore_stable {P : Cbft BT VP → Prop} (hS : Stable P) (d : Deps BT VP)
    (hI : StableIns d P) (c : Cbft BT VP) (b : Block) (qc : QuorumCert) (hc : P c) :
    P (insertQCBlockStore d c b qc) := by
  unfold insertQCBlockStore
  have h1 : P (if c.state.epoch = qc.epoch ∧ c.state.viewNumber = qc.viewNumber then
      c.setState (c.state.AddQC qc) else c) := by
    split
    · exact hI.AddQC c qc hc
    · exact hc
  have h2 := hS.emit _ (Effect.txPoolReset b) rfl h1
  exact hI.commit _
    (Cbft.emit (if c.state.epoch = qc.epoch ∧ c.state.viewNumber = qc.viewNumber
      then c.setState (c.state.AddQC qc) else c) (Effect.txPoolReset b)).blockTree
    b qc (hI.highestQC _ b (hI.tree _
    (d.InsertQCBlock (Cbft.emit (if c.state.epoch = qc.epoch ∧ c.state.viewNumber = qc.viewNumber
      then c.setState (c.state.AddQC qc) else c) (Effect.txPoolReset b)).blockTree b qc).1 h2))

theorem insertQCBlockSwitch_stable {P : Cbft BT VP → Prop} (hS : Stable P) (d : Deps BT VP)
    (hI : StableIns d P) (c : Cbft BT VP) (b : Block) (hc : P c) :
    P (insertQCBlockSwitch d c b) := by
  unfold insertQCBlockSwitch
  split
  · split
    · exact hS.reset _ _ _ (hI.pool _ _ hc)
    · exact hc
  · exact hc

theorem insertQCBlock_stable {P : Cbft BT VP → Prop} (hS : Stable P) (d : Deps BT VP)
    (hI : StableIns d P) (c r : Cbft BT VP) (b : Block) (qc : QuorumCert) (hc : P c)
    (h : insertQCBlock d c b qc = some r) : P r := by
  unfold insertQCBlock at h
  split at h
  · exact absurd h (by simp)
  · rename_i c6 h6
    simp only [Option.some.injEq] at h
    rw [← h]
    exact insertQCBlockSwitch_stable hS d hI c6 b
      (tryChangeView_stable hS d _ c6 (insertQCBlockStore_stable hS d hI c b qc hc) h6)

theorem insertPrepareQC_stable {P : Cbft BT VP → Prop} (hS : Stable P) (d : Deps BT VP)
    (hI : StableIns d P) (c r : Cbft BT VP) (oqc : Option QuorumCert) (hc : P c)
    (h : insertPrepareQC d c oqc = some r) : P r := by
  unfold insertPrepareQC at h
  split at h
  · simp only [Option.some.injEq] at h; rw [← h]; exact hc
  · split at h
    · split at h
      · exact insertQCBlock_stable hS d hI c r _ _ hc h
      · simp only [Option.some.injEq] at h; rw [← h]; exact hc
    · simp only [Option.some.injEq] at h; rw [← h]; exact hc

theorem findQCBlockInsert_stable {P : Cbft BT VP → Prop} (hS : Stable P) (d : Deps BT VP)
    (hI : StableIns d P) (c r : Cbft BT VP) (hc : P c)
    (h : findQCBlockInsert d c = some r) : P r := by
  unfold findQCBlockInsert at h
  dsimp only at h
  split at h
  · split at h
    · simp only [Option.map_eq_some'] at h
      obtain ⟨c0, h0, h3⟩ := h
      rw [← h3]
      exact hS.emit _ _ rfl (insertQCBlock_stable hS d hI c c0 _ _ hc h0)
    · exact absurd h (by simp)
  · simp only [Option.some.injEq] at h; rw [← h]; exact hc

theorem findQCBlock_stable {P : Cbft BT VP → Prop} (hS : Stable P) (d : Deps BT VP)
    (hI : StableIns d P) (c r : Cbft BT VP) (hc : P c)
    (h : findQCBlock d c = some r) : P r := by
  unfold findQCBlock at h
  simp only [Option.bind_eq_some] at h
  obtain ⟨c1, h1, h2⟩ := h
  exact tryChangeView_stable hS d c1 r (findQCBlockInsert_stable hS d hI c c1 hc h1) h2

theorem OnInsertQCBlockRules_stable {P : Cbft BT VP → Prop} (hS : Stable P) (d : Deps BT VP)
    (c r : Cbft BT VP) (e : Option HandlerError) (b : Block) (qc : QuorumCert) (hc : P c)
    (h : OnInsertQCBlockRules d c b qc = some (r, e)) : P r := by
  unfold OnInsertQCBlockRules at h
  split at h
  · split at h
    · simp only [Option.map_eq_some', Prod.mk.injEq] at h
      obtain ⟨c0, h0, h3, _⟩ := h
      rw [← h3]
      exact changeView_stable hS d c c0 _ _ _ _ _ hc h0
    · simp only [Option.some.injEq, Prod.mk.injEq] at h
      rw [← h.1]; exact hc
  · simp only [Option.some.injEq, Prod.mk.injEq] at h
    rw [← h.1]; exact hc

theorem OnInsertQCBlockLoop_stable {P : Cbft BT VP → Prop} (hS : Stable P) (d : Deps BT VP)
    (hI : StableIns d P) (l : List (Block × QuorumCert)) :
    ∀ (c r : Cbft BT VP) (e : Option HandlerError), P c →
      OnInsertQCBlockLoop d l c = some (r, e) → P r := by
  induction l with
  | nil =>
    intro c r e hc h
    simp only [OnInsertQCBlockLoop, Option.some.injEq, Prod.mk.injEq] at h
    rw [← h.1]; exact hc
  | cons p l ih =>
    intro c r e hc h
    obtain ⟨block, qc⟩ := p
    unfold OnInsertQCBlockLoop at h
    split at h
    · exact absurd h (by simp)
    · rename_i c1 e1 hchk
      simp only [Option.some.injEq, Prod.mk.injEq] at h
      rw [← h.1]
      exact OnInsertQCBlockRules_stable hS d c c1 _ block qc hc hchk
    · rename_i c1 hchk
      have hc1 : P c1 := OnInsertQCBlockRules_stable hS d c c1 _ block qc hc hchk
      split at h
      · exact absurd h (by simp)
      · rename_i c2 h2
        exact ih c2 r e (insertQCBlock_stable hS d hI c1 c2 _ _ hc1 h2) h

theorem OnInsertQCBlock_stable {P : Cbft BT VP → Prop} (hS : Stable P) (d : Deps BT VP)
    (hI : StableIns d P) (c r : Cbft BT VP) (e : Option HandlerError) (blocks : List Block)
    (qcs : List QuorumCert) (hc : P c) (h : OnInsertQCBlock d c blocks qcs = some (r, e)) :
    P r := by
  unfold OnInsertQCBlock at h
  split at h
  · simp only [Option.some.injEq, Prod.mk.injEq] at h
    rw [← h.1]; exact hc
  · exact OnInsertQCBlockLoop_stable hS d hI _ c r e hc h

theorem OnViewChange_stable {P : Cbft BT VP → Prop} (hS : Stable P) (hM : StableMsg P)
    (d : Deps BT VP) (c r : Cbft BT VP) (e : Option HandlerError) (id : Nat) (msg : ViewChange)
    (hc : P c) (h : OnViewChange d c id msg = some (r, e)) : P r := by
  unfold OnViewChange at h
  split at h
  · simp only [Option.some.injEq, Prod.mk.injEq] at h
    rw [← h.1]
    split
    · exact hS.emit _ _ rfl hc
    · exact hc
  · split at h
    · simp only [Option.some.injEq, Prod.mk.injEq] at h
      rw [← h.1]; exact hc
    · simp only [Option.map_eq_some', Prod.mk.injEq] at h
      obtain ⟨c2, h2, h3, _⟩ := h
      rw [← h3]
      exact tryChangeView_stable hS d _ c2 (hM.AddViewChange c _ msg hc) h2

theorem OnViewTimeout_stable {P : Cbft BT VP → Prop} (hS : Stable P) (hM : StableMsg P)
    (d : Deps BT VP) (c r : Cbft BT VP) (hc : P c) (h : OnViewTimeout d c = some r) : P r := by
  unfold OnViewTimeout at h
  split at h
  · simp only [Option.some.injEq] at h; rw [← h]; exact hc
  · split at h
    · simp only [Option.some.injEq] at h; rw [← h]; exact hc
    · dsimp only at h
      refine tryChangeView_stable hS d _ r ?_ h
      refine hM.broadcastVC _ _ (hM.AddViewChange _ _ _ ?_)
      split
      · exact hc
      · exact hS.emit _ _ (by rfl) hc

theorem OnPrepareVote_stable {P : Cbft BT VP → Prop} (hS : Stable P) (hM : StableMsg P)
    (d : Deps BT VP) (hI : StableIns d P) (c r : Cbft BT VP) (e : Option HandlerError)
    (id : Nat) (msg : PrepareVote) (hc : P c) (h : OnPrepareVote d c id msg = some (r, e)) :
    P r := by
  unfold OnPrepareVote at h
  split at h
  · simp only [Option.some.injEq, Prod.mk.injEq] at h
    rw [← h.1]
    split
    · exact hS.emit _ _ rfl hc
    · exact hc
  · have hc1 : P (c.sendAll id (d.prepareVoteFetchRules c id msg)) :=
      stable_outExt hS (sendAll_outExt id _ c) hc
    dsimp only at h
    split at h
    · simp only [Option.some.injEq, Prod.mk.injEq] at h
      rw [← h.1]; exact hc1
    · split at h
      · exact absurd h (by simp)
      · rename_i c2 h2
        simp only [Option.map_eq_some', Prod.mk.injEq] at h
        obtain ⟨c4, h4, h5, _⟩ := h
        rw [← h5]
        exact findQCBlock_stable hS d hI _ c4
          (hM.AddPrepareVote _ _ msg (insertPrepareQC_stable hS d hI _ c2 _ hc1 h2)) h4

theorem trySendPrepareVoteFinish_stable {P : Cbft BT VP → Prop} (hM : StableMsg P)
    (hP : StablePipe P) (c1 : Cbft BT VP) (block : Block) (p1 : PrepareVote) (idx : Nat)
    (hc : P c1) : P (trySendPrepareVoteFinish c1 block p1 idx) := by
  unfold trySendPrepareVoteFinish
  refine hP.emitAny _ _ ?_
  split
  · exact hP.pendingPop _ (hM.AddPrepareVote _ _ _ hc)
  · exact hP.emitAny _ _ (hP.pendingPop _ (hM.AddPrepareVote _ _ _ hc))

theorem trySendPrepareVoteRound_stable {P : Cbft BT VP → Prop} (hM : StableMsg P)
    (hP : StablePipe P) (d : Deps BT VP) (c r : Cbft BT VP) (p : PrepareVote) (f : Bool)
    (hc : P c) (h : trySendPrepareVoteRound d c p = some (r, f)) : P r := by
  unfold trySendPrepareVoteRound at h
  split at h
  · split at h
    · exact absurd h (by simp)
    · dsimp only at h
      split at h
      · split at h
        · exact absurd h (by simp)
        · simp only [Option.some.injEq, Prod.mk.injEq] at h
          rw [← h.1]
          exact trySendPrepareVoteFinish_stable hM hP _ _ _ _ (hP.hadSendPush c _ hc)
      · simp only [Option.some.injEq, Prod.mk.injEq] at h; rw [← h.1]; exact hc
  · simp only [Option.some.injEq, Prod.mk.injEq] at h; rw [← h.1]; exact hc

theorem trySendPrepareVoteLoop_stable {P : Cbft BT VP → Prop} (hM : StableMsg P)
    (hP : StablePipe P) (d : Deps BT VP) (fuel : Nat) :
    ∀ (c r : Cbft BT VP), P c → trySendPrepareVoteLoop d fuel c = some r → P r := by
  induction fuel with
  | zero =>
    intro c r hc h
    simp only [trySendPrepareVoteLoop, Option.some.injEq] at h
    rw [← h]; exact hc
  | succ n ih =>
    intro c r hc h
    unfold trySendPrepareVoteLoop at h
    split at h
    · simp only [Option.some.injEq] at h; rw [← h]; exact hc
    · split at h
      · exact absurd h (by simp)
      · rename_i c1 h1
        simp only [Option.some.injEq] at h
        rw [← h]
        exact trySendPrepareVoteRound_stable hM hP d c c1 _ false hc h1
      · rename_i c1 h1
        exact ih c1 r (trySendPrepareVoteRound_stable hM hP d c c1 _ true hc h1) h

theorem signBlock_stable {P : Cbft BT VP → Prop} (hM : StableMsg P) (hP : StablePipe P)
    (d : Deps BT VP) (c r : Cbft BT VP) (hash number index : Nat) (f : Bool) (hc : P c)
    (h : signBlock d c hash number index = some (r, f)) : P r := by
  unfold signBlock at h
  split at h
  · simp only [Option.some.injEq, Prod.mk.injEq] at h; rw [← h.1]; exact hc
  · dsimp only at h
    split at h
    · simp only [Option.some.injEq, Prod.mk.injEq] at h; rw [← h.1]; exact hc
    · simp only [Option.map_eq_some', Prod.mk.injEq] at h
      obtain ⟨c2, h2, h3, _⟩ := h
      rw [← h3]
      exact trySendPrepareVoteLoop_stable hM hP d _ _ c2 (hP.pendingPush c _ hc) h2

theorem findExecutableFirst_stable {P : Cbft BT VP → Prop} (hP : StablePipe P)
    (d : Deps BT VP) (c c1 : Cbft BT VP) (hc : P c) (h1 : findExecutableFirst d c = some c1) :
    P c1 := by
  unfold findExecutableFirst at h1
  split at h1
  · split at h1
    · split at h1
      · exact absurd h1 (by simp)
      · simp only [Option.some.injEq] at h1
        rw [← h1]
        exact hP.SetExecuting _ 0 false (hP.emitAny c _ hc)
    · simp only [Option.some.injEq] at h1; rw [← h1]; exact hc
  · simp only [Option.some.injEq] at h1; rw [← h1]; exact hc

theorem findExecutableBlock_stable {P : Cbft BT VP → Prop} (hP : StablePipe P)
    (d : Deps BT VP) (c : Cbft BT VP) (hc : P c) : P (findExecutableBlock d c) := by
  unfold findExecutableBlock
  split
  · exact hc
  · rename_i c1 h1
    have hc1 : P c1 := findExecutableFirst_stable hP d c c1 hc h1
    unfold findExecutableSecond
    split
    · split
      · split
        · exact hc1
        · exact hP.SetExecuting _ _ false (hP.emitAny c1 _ hc1)
      · exact hc1
    · exact hc1

theorem onAsyncExecuteSign_stable {P : Cbft BT VP → Prop} (hM : StableMsg P)
    (hP : StablePipe P) (d : Deps BT VP) (c r : Cbft BT VP) (s : BlockExecuteStatus)
    (f : Bool) (hc : P c) (h : onAsyncExecuteSign d c s = some (r, f)) : P r := by
  unfold onAsyncExecuteSign at h
  split at h
  · simp only [Option.some.injEq, Prod.mk.injEq] at h; rw [← h.1]; exact hc
  · split at h
    · split at h
      · exact signBlock_stable hM hP d _ r _ _ _ f (hP.SetExecuting c _ true hc) h
      · simp only [Option.some.injEq, Prod.mk.injEq] at h; rw [← h.1]; exact hc
    · simp only [Option.some.injEq, Prod.mk.injEq] at h; rw [← h.1]; exact hc

theorem onAsyncExecuteStatus_stable {P : Cbft BT VP → Prop} (hS : Stable P)
    (hM : StableMsg P) (hP : StablePipe P) (d : Deps BT VP) (hI : StableIns d P)
    (c r : Cbft BT VP) (s : BlockExecuteStatus) (hc : P c)
    (h : onAsyncExecuteStatus d c s = some r) : P r := by
  unfold onAsyncExecuteStatus at h
  split at h
  · simp only [Option.some.injEq] at h; rw [← h]; exact hc
  · split at h
    · exact absurd h (by simp)
    · rename_i c1 hsg
      simp only [Option.some.injEq] at h
      rw [← h]
      exact onAsyncExecuteSign_stable hM hP d c c1 s true hc hsg
    · rename_i c1 hsg
      have hc1 : P c1 := onAsyncExecuteSign_stable hM hP d c c1 s false hc hsg
      simp only [Option.map_eq_some'] at h
      obtain ⟨c2, h2, h3⟩ := h
      rw [← h3]
      exact findExecutableBlock_stable hP d c2 (findQCBlock_stable hS d hI c1 c2 hc1 h2)

theorem OnPrepareBlockRules_stable {P : Cbft BT VP → Prop} (hS : Stable P) (d : Deps BT VP)
    (c r : Cbft BT VP) (e : Option HandlerError) (id : Nat) (msg : PrepareBlock) (hc : P c)
    (h : OnPrepareBlockRules d c id msg = some (r, e)) : P r := by
  unfold OnPrepareBlockRules at h
  split at h
  · split at h
    · simp only [Option.some.injEq, Prod.mk.injEq] at h
      rw [← h.1]; exact hS.emit c _ rfl hc
    · split at h
      · simp only [Option.map_eq_some', Prod.mk.injEq] at h
        obtain ⟨c0, h0, h3, _⟩ := h
        rw [← h3]
        exact changeView_stable hS d c c0 _ _ _ _ _ hc h0
      · simp only [Option.some.injEq, Prod.mk.injEq] at h
        rw [← h.1]; exact hc
  · simp only [Option.some.injEq, Prod.mk.injEq] at h
    rw [← h.1]; exact hc

theorem OnPrepareBlock_stable {P : Cbft BT VP → Prop} (hS : Stable P) (hP : StablePipe P)
    (d : Deps BT VP) (c r : Cbft BT VP) (e : Option HandlerError) (id : Nat)
    (msg : PrepareBlock) (hc : P c) (h : OnPrepareBlock d c id msg = some (r, e)) : P r := by
  unfold OnPrepareBlock at h
  split at h
  · exact absurd h (by simp)
  · rename_i c1 e1 hchk
    simp only [Option.some.injEq, Prod.mk.injEq] at h
    rw [← h.1]
    exact OnPrepareBlockRules_stable hS d c c1 _ id msg hc hchk
  · rename_i c1 hchk
    have hc1 : P c1 := OnPrepareBlockRules_stable hS d c c1 _ id msg hc hchk
    split at h
    · simp only [Option.some.injEq, Prod.mk.injEq] at h
      rw [← h.1]; exact hc1
    · simp only [Option.some.injEq, Prod.mk.injEq] at h
      rw [← h.1]
      refine findExecutableBlock_stable hP d _ ?_
      exact stable_outExt hS (sendAll_outExt id _ _) (hP.AddPrepareBlock c1 msg hc1)

theorem step_stable {P : Cbft BT VP → Prop} (hS : Stable P) (hM : StableMsg P)
    (hP : StablePipe P) (d : Deps BT VP) (hI : StableIns d P) (c r : Cbft BT VP) (ev : Event)
    (hc : P c) (h : step d c ev = some r) : P r := by
  cases ev with
  | prepareBlock id msg =>
    simp only [step, Option.map_eq_some'] at h
    obtain ⟨⟨r1, e⟩, h1, h2⟩ := h
    rw [← h2]
    exact OnPrepareBlock_stable hS hP d c r1 e id msg hc h1
  | prepareVote id msg =>
    simp only [step, Option.map_eq_some'] at h
    obtain ⟨⟨r1, e⟩, h1, h2⟩ := h
    rw [← h2]
    exact OnPrepareVote_stable hS hM d hI c r1 e id msg hc h1
  | viewChange id msg =>
    simp only [step, Option.map_eq_some'] at h
    obtain ⟨⟨r1, e⟩, h1, h2⟩ := h
    rw [← h2]
    exact OnViewChange_stable hS hM d c r1 e id msg hc h1
  | viewTimeout => exact OnViewTimeout_stable hS hM d c r hc h
  | insertQCBlock blocks qcs =>
    simp only [step, Option.map_eq_some'] at h
    obtain ⟨⟨r1, e⟩, h1, h2⟩ := h
    rw [← h2]
    exact OnInsertQCBlock_stable hS d hI c r1 e blocks qcs hc h1
  | asyncExecuteStatus s => exact onAsyncExecuteStatus_stable hS hM hP d hI c r s hc h

theorem run_stable {P : Cbft BT VP → Prop} (hS : Stable P) (hM : StableMsg P)
    (hP : StablePipe P) (d : Deps BT VP) (hI : StableIns d P) (evs : List Event) :
    ∀ (c r : Cbft BT VP), P c → run d c evs = some r → P r := by
  induction evs with
  | nil =>
    intro c r hc h
    simp only [run, Option.some.injEq] at h
    rw [← h]; exact hc
  | cons ev evs ih =>
    intro c r hc h
    simp only [run, Option.bind_eq_some] at h
    obtain ⟨c1, h1, h2⟩ := h
    exact ih c1 r (step_stable hS hM hP d hI c c1 ev hc h1) h2

/-- The `uint32` difference is the difference of the numbers when it does not wrap. -/
theorem u32sub_eq (a b : Nat) (hb : b ≤ a) (ha : a < 4294967296) : u32sub a b = a - b := by
  unfold u32sub
  have h1 : a % 4294967296 = a := Nat.mod_eq_of_lt ha
  have h2 : b % 4294967296 = b := Nat.mod_eq_of_lt (by omega)
  rw [h1, h2]
  omega

/-! ## The highest lock and commit blocks -/

theorem commitAbove_stable (n m : Nat) : Stable (CommitAbove n m : Cbft BT VP → Prop) :=
  ⟨fun _ _ _ h => h, fun _ _ _ h => h, fun _ _ h => h, fun _ _ h => h⟩

theorem commitAbove_stableMsg (n m : Nat) : StableMsg (CommitAbove n m : Cbft BT VP → Prop) := by
  refine ⟨fun _ _ h => h, fun _ _ _ h => h, ?_⟩
  intro c id v h
  unfold ViewState.AddPrepareVote
  split
  · exact h
  · exact h

theorem commitAbove_stablePipe (n m : Nat) :
    StablePipe (CommitAbove n m : Cbft BT VP → Prop) :=
  ⟨fun _ _ h => h, fun _ _ h => h, fun _ _ _ h => h, fun _ _ h => h, fun _ h => h,
    fun _ _ h => h⟩

/-- An incremental commit moves neither of the two highest blocks down when
the lock candidate is the child of the commit candidate. -/
theorem tryCommitNewBlock_commitAbove (d : Deps BT VP) (n m : Nat) (c : Cbft BT VP)
    (lock commit : Option Block)
    (hlc : ∀ lk cm, lock = some lk → commit = some cm →
      lk.number = cm.number + 1 ∧ lk.number < 18446744073709551616)
    (h : CommitAbove n m c) : CommitAbove n m (tryCommitNewBlock d c lock commit) := by
  unfold tryCommitNewBlock
  split
  · rename_i lk cm
    obtain ⟨hk1, hk2⟩ := hlc lk cm rfl rfl
    obtain ⟨⟨hv1, hv2⟩, hn, hm⟩ := h
    dsimp only
    split
    · rename_i hs
      have hs1 : c.state.highestCommitBlock.number + 1 = cm.number := by
        rw [← hs]
        exact (Nat.mod_eq_of_lt hv2).symm
      refine ⟨⟨?_, ?_⟩, ?_, ?_⟩
      · show lk.number ≤ cm.number + 1
        omega
      · show cm.number + 1 < 18446744073709551616
        omega
      · show n ≤ cm.number
        omega
      · show m ≤ lk.number
        omega
    · exact ⟨⟨hv1, hv2⟩, hn, hm⟩
  · exact h

theorem commitAbove_stableIns (d : Deps BT VP) (hT : TreeContract d) (n m : Nat) :
    StableIns d (CommitAbove n m) := by
  refine ⟨fun _ _ h => h, fun _ _ h => h, fun _ _ h => h, ?_, fun _ _ h => h⟩
  intro c bt b qc h
  refine tryCommitNewBlock_commitAbove d n m c _ _ ?_ h
  intro lk cm h1 h2
  exact hT bt b qc lk cm (by rw [Prod.ext_iff]; exact ⟨h1, h2⟩)

theorem toyFind_number (t : ToyTree) (h : Hash) (n : Nat) (b : Block)
    (hf : (toyFind t h n).1 = some b) : b.number = n := by
  unfold toyFind at hf
  split at hf
  · rename_i e he
    have hp := List.find?_some he
    simp only [Bool.and_eq_true, beq_iff_eq] at hp
    simp only [Option.some.injEq] at hf
    rw [← hf]; exact hp.2
  · exact absurd hf (by simp)

theorem toyParent_number (t : ToyTree) (b p : Block) (hp : toyParent t b = some p) :
    b.number ≠ 0 ∧ p.number = u64pred b.number := by
  unfold toyParent at hp
  split at hp
  · exact absurd hp (by simp)
  · rename_i h0
    exact ⟨h0, toyFind_number t _ _ p hp⟩

theorem toyDeps_treeContract : TreeContract toyDeps := by
  intro bt b qc lock commit h
  have h' : (toyInsert bt b qc).2 = (some lock, some commit) := h
  unfold toyInsert at h'
  dsimp only at h'
  split at h'
  · simp at h'
  · rename_i lk hlk
    split at h'
    · simp at h'
    · rename_i cm hcm
      simp only [Prod.mk.injEq, Option.some.injEq] at h'
      obtain ⟨h1, h2⟩ := h'
      subst h1; subst h2
      obtain ⟨_, hl⟩ := toyParent_number _ _ _ hlk
      obtain ⟨hc0, hc⟩ := toyParent_number _ _ _ hcm
      have hlt : lk.number < 18446744073709551616 := by
        rw [hl]; unfold u64pred; exact Nat.mod_lt _ (by norm_num)
      refine ⟨?_, hlt⟩
      rw [hc]; unfold u64pred
      rw [Nat.mod_eq_of_lt hlt]
      omega

/-! ## The certificates of the view -/

theorem insertedQC_stable (b : Block) (t : BT) (s : ViewState) :
    Stable (InsertedQC b t s : Cbft BT VP → Prop) := by
  refine ⟨fun _ _ _ h => h, ?_, fun _ _ h => h, fun _ _ h => h⟩
  intro c e v h
  exact ⟨h.1, h.2.1, Or.inr ⟨rfl, rfl⟩⟩

theorem tryCommitNewBlock_frame (d : Deps BT VP) (c : Cbft BT VP) (lock commit : Option Block) :
    (tryCommitNewBlock d c lock commit).state.highestQCBlock = c.state.highestQCBlock
      ∧ (tryCommitNewBlock d c lock commit).state.viewQCs = c.state.viewQCs
      ∧ (tryCommitNewBlock d c lock commit).state.maxQCIndex = c.state.maxQCIndex
      ∧ ((tryCommitNewBlock d c lock commit).blockTree = c.blockTree
          ∨ ∃ cm, commit = some cm
              ∧ (tryCommitNewBlock d c lock commit).blockTree
                  = d.NewRoot (d.PruneBlock c.blockTree cm.hash cm.number) cm) := by
  unfold tryCommitNewBlock
  split
  · rename_i lk cm
    dsimp only
    split
    · exact ⟨rfl, rfl, rfl, Or.inr ⟨cm, rfl, rfl⟩⟩
    · exact ⟨rfl, rfl, rfl, Or.inl rfl⟩
  · exact ⟨rfl, rfl, rfl, Or.inl rfl⟩

theorem tryCommitNewBlock_votes (d : Deps BT VP) (c : Cbft BT VP) (lock commit : Option Block) :
    (tryCommitNewBlock d c lock commit).state.viewVotes = c.state.viewVotes := by
  unfold tryCommitNewBlock
  split
  · dsimp only
    split <;> rfl
  · rfl

/-- The state `insertQCBlock` reaches before its `tryChangeView`. -/
theorem insertQCBlockStore_frame (d : Deps BT VP) (c : Cbft BT VP) (block : Block)
    (qc : QuorumCert) :
    (insertQCBlockStore d c block qc).state.highestQCBlock = block
      ∧ ((insertQCBlockStore d c block qc).blockTree = (d.InsertQCBlock c.blockTree block qc).1
          ∨ ∃ cm, (d.InsertQCBlock c.blockTree block qc).2.2 = some cm
              ∧ (insertQCBlockStore d c block qc).blockTree = d.NewRoot
                  (d.PruneBlock (d.InsertQCBlock c.blockTree block qc).1 cm.hash cm.number) cm)
      ∧ (insertQCBlockStore d c block qc).state.viewQCs
          = (if c.state.epoch = qc.epoch ∧ c.state.viewNumber = qc.viewNumber then
              c.state.AddQC qc else c.state).viewQCs
      ∧ (insertQCBlockStore d c block qc).state.maxQCIndex
          = (if c.state.epoch = qc.epoch ∧ c.state.viewNumber = qc.viewNumber then
              c.state.AddQC qc else c.state).maxQCIndex := by
  unfold insertQCBlockStore
  split
  · obtain ⟨f1, f2, f3, f4⟩ := tryCommitNewBlock_frame d
      ((((c.setState (c.state.AddQC qc)).emit (Effect.txPoolReset block)).setBlockTree
        (d.InsertQCBlock c.blockTree block qc).1).setState
        ((c.state.AddQC qc).SetHighestQCBlock block))
      (d.InsertQCBlock c.blockTree block qc).2.1 (d.InsertQCBlock c.blockTree block qc).2.2
    exact ⟨f1, f4, f2, f3⟩
  · obtain ⟨f1, f2, f3, f4⟩ := tryCommitNewBlock_frame d
      (((c.emit (Effect.txPoolReset block)).setBlockTree
        (d.InsertQCBlock c.blockTree block qc).1).setState
        (c.state.SetHighestQCBlock block))
      (d.InsertQCBlock c.blockTree block qc).2.1 (d.InsertQCBlock c.blockTree block qc).2.2
    exact ⟨f1, f4, f2, f3⟩

theorem insertQCBlockSwitch_cases (d : Deps BT VP) (c : Cbft BT VP) (b : Block) :
    insertQCBlockSwitch d c b = c
      ∨ ∃ vp, insertQCBlockSwitch d c b
          = (c.setValidatorPool vp).setState
              (c.state.ResetView (u64succ c.state.epoch) d.defaultViewNumber) := by
  unfold insertQCBlockSwitch
  split
  · split
    · rename_i vp _
      exact Or.inr ⟨vp, rfl⟩
    · exact Or.inl rfl
  · exact Or.inl rfl

/-! ## Sending the pending votes -/

theorem sendFrame_refl (c : Cbft BT VP) : SendFrame c c :=
  ⟨rfl, rfl, rfl, rfl, rfl, rfl, rfl, rfl, rfl, rfl, rfl, rfl, rfl⟩

theorem sendFrame_trans {c c1 c2 : Cbft BT VP} (h1 : SendFrame c c1) (h2 : SendFrame c1 c2) :
    SendFrame c c2 := by
  obtain ⟨a1, a2, a3, a4, a5, a6, a7, a8, a9, a10, a11, a12, a13⟩ := h1
  obtain ⟨b1, b2, b3, b4, b5, b6, b7, b8, b9, b10, b11, b12, b13⟩ := h2
  exact ⟨b1.trans a1, b2.trans a2, b3.trans a3, b4.trans a4, b5.trans a5, b6.trans a6,
    b7.trans a7, b8.trans a8, b9.trans a9, b10.trans a10, b11.trans a11, b12.trans a12,
    b13.trans a13⟩

theorem broadcastVotes_append (es fs : List Effect) :
    broadcastVotes (es ++ fs) = broadcastVotes es ++ broadcastVotes fs := by
  induction es with
  | nil => rfl
  | cons e es ih =>
    cases e <;> simp [broadcastVotes, ih]

theorem broadcastVotes_quiet (es : List Effect)
    (h : ∀ e ∈ es, Effect.isLocalBroadcast e = false) : broadcastVotes es = [] := by
  induction es with
  | nil => rfl
  | cons e es ih =>
    have he := h e (List.mem_cons_self _ _)
    have ih1 := ih (fun x hx => h x (List.mem_cons_of_mem _ hx))
    cases e <;> simp_all [broadcastVotes, Effect.isLocalBroadcast]

theorem withParentQC_congr (d : Deps BT VP) (c c1 : Cbft BT VP) (p : PrepareVote)
    (ht : c1.blockTree = c.blockTree) (hb : c1.state.viewBlocks = c.state.viewBlocks) :
    withParentQC d c1 p = withParentQC d c p := by
  unfold withParentQC ViewState.ViewBlockByIndex
  rw [ht, hb]

theorem voteReleasable_congr (d : Deps BT VP) (c c1 : Cbft BT VP) (p : PrepareVote)
    (ht : c1.blockTree = c.blockTree) (hb : c1.state.viewBlocks = c.state.viewBlocks) :
    voteReleasable d c1 p = voteReleasable d c p := by
  unfold voteReleasable ViewState.ViewBlockByIndex
  rw [ht, hb]

theorem withParentQC_blockIndex (d : Deps BT VP) (c : Cbft BT VP) (p : PrepareVote) :
    (withParentQC d c p).blockIndex = p.blockIndex := by
  unfold withParentQC
  split <;> rfl

theorem addPrepareVote_votes (s : ViewState) (id : Nat) (v : PrepareVote) :
    ∀ e ∈ (s.AddPrepareVote id v).viewVotes, e ∈ s.viewVotes ∨ e = (id, v) := by
  intro e he
  unfold ViewState.AddPrepareVote at he
  split at he
  · exact Or.inl he
  · rcases List.mem_append.1 he with h | h
    · exact Or.inl h
    · exact Or.inr (by simpa using h)

theorem addPrepareVote_frame (s : ViewState) (id : Nat) (v : PrepareVote) :
    (s.AddPrepareVote id v).hadSendPrepareVote = s.hadSendPrepareVote
      ∧ (s.AddPrepareVote id v).pendingPrepareVote = s.pendingPrepareVote
      ∧ (s.AddPrepareVote id v).viewBlocks = s.viewBlocks
      ∧ (s.AddPrepareVote id v).executing = s.executing
      ∧ (s.AddPrepareVote id v).epoch = s.epoch
      ∧ (s.AddPrepareVote id v).viewNumber = s.viewNumber
      ∧ (s.AddPrepareVote id v).viewQCs = s.viewQCs
      ∧ (s.AddPrepareVote id v).maxQCIndex = s.maxQCIndex
      ∧ (s.AddPrepareVote id v).viewChanges = s.viewChanges
      ∧ (s.AddPrepareVote id v).highestQCBlock = s.highestQCBlock
      ∧ (s.AddPrepareVote id v).highestLockBlock = s.highestLockBlock
      ∧ (s.AddPrepareVote id v).highestCommitBlock = s.highestCommitBlock := by
  unfold ViewState.AddPrepareVote
  split <;> exact ⟨rfl, rfl, rfl, rfl, rfl, rfl, rfl, rfl, rfl, rfl, rfl, rfl⟩

theorem trySendPrepareVoteFinish_spec (c1 : Cbft BT VP) (block : Block) (p1 : PrepareVote)
    (idx : Nat) :
    (trySendPrepareVoteFinish c1 block p1 idx).state.hadSendPrepareVote
        = c1.state.hadSendPrepareVote
      ∧ (trySendPrepareVoteFinish c1 block p1 idx).state.pendingPrepareVote
        = c1.state.pendingPrepareVote.tail
      ∧ broadcastVotes (trySendPrepareVoteFinish c1 block p1 idx).out
        = broadcastVotes c1.out ++ [p1]
      ∧ (∀ e ∈ (trySendPrepareVoteFinish c1 block p1 idx).state.viewVotes,
          e ∈ c1.state.viewVotes ∨ e.2 = p1)
      ∧ SendFrame c1 (trySendPrepareVoteFinish c1 block p1 idx) := by
  obtain ⟨a1, a2, a3, a4, a5, a6, a7, a8, a9, a10, a11, a12⟩ :=
    addPrepareVote_frame c1.state (idx % 4294967296) p1
  have hv := addPrepareVote_votes c1.state (idx % 4294967296) p1
  unfold trySendPrepareVoteFinish
  by_cases hl : c1.loading = true
  · simp only [Cbft.setState_loading, hl, if_true, Cbft.emit_state, Cbft.setState_state,
      Cbft.emit_out, Cbft.setState_out, broadcastVotes_append]
    refine ⟨a1, by show List.tail _ = _; rw [a2],
      by simp [broadcastVotes, broadcastVotes_append], ?_,
      ⟨rfl, rfl, rfl, a3, a4, a5, a6, a7, a8, a9, a10, a11, a12⟩⟩
    intro e he
    rcases hv e he with h1 | h1
    · exact Or.inl h1
    · exact Or.inr (by rw [h1])
  · simp only [Cbft.setState_loading, hl, if_false, Cbft.emit_state, Cbft.setState_state,
      Cbft.emit_out, Cbft.setState_out, broadcastVotes_append]
    refine ⟨a1, by show List.tail _ = _; rw [a2],
      by simp [broadcastVotes, broadcastVotes_append], ?_,
      ⟨rfl, rfl, rfl, a3, a4, a5, a6, a7, a8, a9, a10, a11, a12⟩⟩
    intro e he
    rcases hv e he with h1 | h1
    · exact Or.inl h1
    · exact Or.inr (by rw [h1])

/-- A round of `trySendPrepareVote` that sends the vote `p`. -/
theorem trySendPrepareVoteRound_sent (d : Deps BT VP) (c c1 : Cbft BT VP) (p : PrepareVote)
    (h : trySendPrepareVoteRound d c p = some (c1, true)) :
    d.AllowVote c p = true ∧ voteReleasable d c p = true
      ∧ c1.state.hadSendPrepareVote = c.state.hadSendPrepareVote ++ [withParentQC d c p]
      ∧ c1.state.pendingPrepareVote = c.state.pendingPrepareVote.tail
      ∧ broadcastVotes c1.out = broadcastVotes c.out ++ [withParentQC d c p]
      ∧ (∀ e ∈ c1.state.viewVotes, e ∈ c.state.viewVotes ∨ e.2 = withParentQC d c p)
      ∧ SendFrame c c1 := by
  unfold trySendPrepareVoteRound at h
  split at h
  · rename_i hallow
    split at h
    · exact absurd h (by simp)
    · rename_i block hblock
      dsimp only at h
      split at h
      · rename_i hgate
        split at h
        · exact absurd h (by simp)
        · rename_i idx _
          simp only [Option.some.injEq, Prod.mk.injEq, and_true] at h
          have hw : withParentQC d c p = { p with parentQC :=
              (d.FindBlockAndQC c.blockTree block.parentHash (u64pred block.number)).2 } := by
            unfold withParentQC; rw [hblock]
          have hr : voteReleasable d c p = true := by
            unfold voteReleasable; rw [hblock]
            simpa using hgate
          obtain ⟨b1, b2, b3, b4, b5⟩ := trySendPrepareVoteFinish_spec
            (c.setState (c.state.hadSendPush (withParentQC d c p))) block
            (withParentQC d c p) idx
          rw [← hw] at h
          rw [← h]
          exact ⟨hallow, hr, b1, b2, b3, b4, b5⟩
      · exact absurd h (by simp)
  · exact absurd h (by simp)

/-- A round of `trySendPrepareVote` that breaks leaves the node unchanged and
happens when the vote rule rejects the vote or the parent is not found. -/
theorem trySendPrepareVoteRound_break (d : Deps BT VP) (c c1 : Cbft BT VP) (p : PrepareVote)
    (h : trySendPrepareVoteRound d c p = some (c1, false)) :
    c1 = c ∧ (d.AllowVote c p = false ∨ voteReleasable d c p = false) := by
  unfold trySendPrepareVoteRound at h
  split at h
  · split at h
    · exact absurd h (by simp)
    · rename_i block hblock
      dsimp only at h
      split at h
      · split at h
        · exact absurd h (by simp)
        · simp at h
      · rename_i hgate
        simp only [Option.some.injEq, Prod.mk.injEq, and_true] at h
        refine ⟨h.symm, Or.inr ?_⟩
        unfold voteReleasable; rw [hblock]
        simpa using hgate
  · rename_i hallow
    simp only [Option.some.injEq, Prod.mk.injEq, and_true] at h
    exact ⟨h.symm, Or.inl (by simpa using hallow)⟩

theorem trySendPrepareVoteLoop_spec (d : Deps BT VP) (fuel : Nat) :
    ∀ (c r : Cbft BT VP), c.state.pendingPrepareVote.length ≤ fuel →
      trySendPrepareVoteLoop d fuel c = some r →
      (∃ sent rest, SentVotes d c r sent rest) ∧ SendFrame c r := by
  induction fuel with
  | zero =>
    intro c r hlen h
    simp only [trySendPrepareVoteLoop, Option.some.injEq] at h
    have hnil : c.state.pendingPrepareVote = [] := List.length_eq_zero.1 (Nat.le_zero.1 hlen)
    subst h
    exact ⟨⟨[], [], by simpa using hnil, hnil, by simp, by simp, by simp,
      fun e he => Or.inl he, by simp⟩, sendFrame_refl _⟩
  | succ n ih =>
    intro c r hlen h
    unfold trySendPrepareVoteLoop at h
    split at h
    · rename_i hnil
      simp only [Option.some.injEq] at h
      subst h
      exact ⟨⟨[], [], by simpa using hnil, hnil, by simp, by simp, by simp,
        fun e he => Or.inl he, by simp⟩, sendFrame_refl _⟩
    · rename_i p tl hp
      split at h
      · exact absurd h (by simp)
      · rename_i c1 h1
        simp only [Option.some.injEq] at h
        obtain ⟨hc1, hblk⟩ := trySendPrepareVoteRound_break d c c1 p h1
        subst h
        subst hc1
        refine ⟨⟨[], p :: tl, by simpa using hp, hp, by simp, by simp, by simp,
          fun e he => Or.inl he, ?_⟩, sendFrame_refl _⟩
        intro q hq
        simp only [List.head?_cons, Option.some.injEq] at hq
        rw [← hq]; exact hblk
      · rename_i c1 h1
        obtain ⟨_, hr, b1, b2, b3, b4, b5⟩ := trySendPrepareVoteRound_sent d c c1 p h1
        have htl : c1.state.pendingPrepareVote = tl := by rw [b2, hp]; rfl
        have hlen1 : c1.state.pendingPrepareVote.length ≤ n := by
          rw [htl]
          rw [hp] at hlen
          simpa using hlen
        obtain ⟨⟨sent, rest, s1, s2, s3, s4, s5, s6, s7⟩, fr⟩ := ih c1 r hlen1 h
        have hw : ∀ q, withParentQC d c1 q = withParentQC d c q :=
          fun q => withParentQC_congr d c c1 q b5.1 b5.2.2.2.1
        have hg : ∀ q, voteReleasable d c1 q = voteReleasable d c q :=
          fun q => voteReleasable_congr d c c1 q b5.1 b5.2.2.2.1
        have hmap : sent.map (withParentQC d c1) = sent.map (withParentQC d c) :=
          List.map_congr_left (fun q _ => hw q)
        refine ⟨⟨p :: sent, rest, ?_, s2, ?_, ?_, ?_, ?_, ?_⟩, sendFrame_trans b5 fr⟩
        · rw [hp, ← htl, s1]; rfl
        · rw [s3, b1, hmap]; simp
        · rw [s4, b3, hmap]; simp
        · intro q hq
          rcases List.mem_cons.1 hq with h0 | h0
          · rw [h0]; exact hr
          · rw [← hg q]; exact s5 q h0
        · intro e he
          rcases s6 e he with h0 | h0
          · rcases b4 e h0 with h2 | h2
            · exact Or.inl h2
            · exact Or.inr (by rw [h2]; simp)
          · exact Or.inr (by rw [hmap] at h0; simp only [List.map_cons, List.mem_cons]; exact Or.inr h0)
        · intro q hq
          rcases s7 q hq with h0 | h0
          · exact Or.inl h0
          · exact Or.inr (by rw [← hg q]; exact h0)

/-! ## The voting pipeline -/

theorem pipeInv_congr {s t : ViewState} (h1 : t.viewBlocks = s.viewBlocks)
    (h2 : t.voteIndices = s.voteIndices) (h4 : t.executing = s.executing)
    (h : PipeInv s) : PipeInv t :=
  ⟨by rw [h1]; exact h.blocks, by rw [h2]; exact h.sorted, by rw [h4]; exact h.cursor,
    by rw [h4, h2]; exact h.fresh, by rw [h2, h4]; exact h.below⟩

theorem pipeInv_reset (s : ViewState) (e v : Nat) : PipeInv (s.ResetView e v) :=
  ⟨by intro b hb; exact absurd hb (by simp [ViewState.ResetView]),
    by simp [ViewState.ResetView, ViewState.voteIndices],
    le_refl _,
    fun _ => ⟨rfl, rfl⟩,
    by intro v hv; exact absurd hv (by simp [ViewState.ResetView, ViewState.voteIndices])⟩

theorem broadcastVotes_emit_quiet (c : Cbft BT VP) (e : Effect)
    (he : Effect.isLocalBroadcast e = false) :
    broadcastVotes (c.emit e).out = broadcastVotes c.out := by
  show broadcastVotes (c.out ++ [e]) = _
  rw [broadcastVotes_append, broadcastVotes_quiet [e] (by simpa using he)]
  simp

theorem voteInv_emit (c : Cbft BT VP) (e : Effect) (he : Effect.isLocalBroadcast e = false)
    (h : VoteInv c) : VoteInv (c.emit e) := by
  obtain ⟨h1, pre, h2⟩ := h
  exact ⟨h1, pre, by rw [broadcastVotes_emit_quiet c e he]; exact h2⟩

theorem voteInv_congr (c : Cbft BT VP) {c1 : Cbft BT VP}
    (h1 : c1.state.viewBlocks = c.state.viewBlocks)
    (h2 : c1.state.hadSendPrepareVote = c.state.hadSendPrepareVote)
    (h3 : c1.state.pendingPrepareVote = c.state.pendingPrepareVote)
    (h4 : c1.state.executing = c.state.executing)
    (h5 : broadcastVotes c1.out = broadcastVotes c.out) (h : VoteInv c) :
    VoteInv c1 := by
  obtain ⟨k1, pre, k2⟩ := h
  exact ⟨pipeInv_congr h1 (by unfold ViewState.voteIndices; rw [h2, h3]) h4 k1, pre, by
    rw [h5, h2]; exact k2⟩

theorem voteInv_stable : Stable (VoteInv : Cbft BT VP → Prop) := by
  refine ⟨voteInv_emit, ?_, fun c _ h => voteInv_congr c rfl rfl rfl rfl rfl h,
    fun c _ h => voteInv_congr c rfl rfl rfl rfl rfl h⟩
  intro c e v h
  exact ⟨pipeInv_reset c.state e v, broadcastVotes c.out, by simp [ViewState.ResetView]⟩

theorem voteInv_stableMsg : StableMsg (VoteInv : Cbft BT VP → Prop) := by
  refine ⟨?_, fun c _ _ h => voteInv_congr c rfl rfl rfl rfl rfl h, ?_⟩
  · intro c v h
    refine voteInv_congr c rfl rfl rfl rfl ?_ h
    show broadcastVotes (c.out ++ [Effect.broadcastViewChange v]) = _
    rw [broadcastVotes_append]
    simp [broadcastVotes]
  · intro c id v h
    obtain ⟨a1, a2, a3, a4, -⟩ := addPrepareVote_frame c.state id v
    exact voteInv_congr c a3 a1 a2 a4 rfl h

theorem tryCommitNewBlock_voteInv (d : Deps BT VP) (c : Cbft BT VP)
    (lock commit : Option Block) (h : VoteInv c) :
    VoteInv (tryCommitNewBlock d c lock commit) := by
  unfold tryCommitNewBlock
  split
  · rename_i lk cm
    dsimp only
    split
    · refine voteInv_congr c rfl rfl rfl rfl ?_ h
      show broadcastVotes (c.out ++ [_] ++ [_]) = _
      rw [broadcastVotes_append, broadcastVotes_append]
      simp [broadcastVotes]
    · exact voteInv_emit c _ rfl h
  · exact h

theorem voteInv_stableIns (d : Deps BT VP) : StableIns d (VoteInv : Cbft BT VP → Prop) :=
  ⟨fun c _ h => voteInv_congr c rfl rfl rfl rfl rfl h,
    fun c _ h => voteInv_congr c rfl rfl rfl rfl rfl h,
    fun c _ h => voteInv_congr c rfl rfl rfl rfl rfl h,
    fun c _ _ _ h => tryCommitNewBlock_voteInv d c _ _ h,
    fun c _ h => voteInv_congr c rfl rfl rfl rfl rfl h⟩

theorem u32succ_lt (i : Nat) (h : i < maxUint32) : u32succ i = i + 1 := by
  unfold u32succ
  unfold maxUint32 at h
  exact Nat.mod_eq_of_lt (by omega)

theorem viewBlockByIndex_mem (s : ViewState) (i : Nat) (b : Block)
    (h : s.ViewBlockByIndex i = some b) : ∃ m ∈ s.viewBlocks, m.blockIndex = i := by
  unfold ViewState.ViewBlockByIndex at h
  simp only [Option.map_eq_some'] at h
  obtain ⟨m, hm, _⟩ := h
  exact ⟨m, List.mem_of_find?_eq_some hm, by simpa using List.find?_some hm⟩

theorem viewBlockByIndex_lt (s : ViewState) (i : Nat) (b : Block) (hs : PipeInv s)
    (h : s.ViewBlockByIndex i = some b) : i < maxUint32 := by
  obtain ⟨m, hm, hi⟩ := viewBlockByIndex_mem s i b h
  rw [← hi]; exact hs.blocks m hm

theorem findExecutableFirst_voteInv (d : Deps BT VP) (c c1 : Cbft BT VP) (h : VoteInv c)
    (h1 : findExecutableFirst d c = some c1) :
    VoteInv c1 ∧ (c1 = c ∨ c.state.executing.2 = false) := by
  unfold findExecutableFirst at h1
  split at h1
  · rename_i hmax
    obtain ⟨hf1, hf2⟩ := h.1.fresh hmax
    split at h1
    · split at h1
      · exact absurd h1 (by simp)
      · rename_i block _ _ parent _
        simp only [Option.some.injEq] at h1
        refine ⟨?_, Or.inr hf1⟩
        rw [← h1]
        obtain ⟨k1, pre, k2⟩ := h
        refine ⟨⟨k1.blocks, ?_, ?_, ?_, ?_⟩, pre, ?_⟩
        · show List.Pairwise _ c.state.voteIndices
          exact k1.sorted
        · show 0 ≤ maxUint32
          exact Nat.zero_le _
        · intro h0
          have h02 : (0 : Nat) = maxUint32 := h0
          exact absurd h02 (by decide)
        · intro i hi
          have hi2 : i ∈ c.state.voteIndices := hi
          rw [hf2] at hi2
          exact absurd hi2 (by simp)
        · show broadcastVotes (c.out ++ [Effect.execute block parent]) = _
          rw [broadcastVotes_append]
          simpa [broadcastVotes] using k2
    · simp only [Option.some.injEq] at h1
      exact ⟨by rw [← h1]; exact h, Or.inl h1.symm⟩
  · simp only [Option.some.injEq] at h1
    exact ⟨by rw [← h1]; exact h, Or.inl h1.symm⟩

theorem findExecutableSecond_voteInv (c : Cbft BT VP) (h : VoteInv c) :
    VoteInv (findExecutableSecond c c.state.executing.1 c.state.executing.2) := by
  unfold findExecutableSecond
  split
  · rename_i hfin
    split
    · rename_i block hblock
      split
      · exact h
      · rename_i parent _
        obtain ⟨k1, pre, k2⟩ := h
        have hlt := viewBlockByIndex_lt c.state _ block k1 hblock
        have hne : c.state.executing.1 ≠ maxUint32 := by
          intro hmax
          have := (k1.fresh hmax).1
          rw [hfin] at this
          exact absurd this (by simp)
        have hi : c.state.executing.1 < maxUint32 := lt_of_le_of_ne k1.cursor hne
        have hs := u32succ_lt _ hi
        refine ⟨⟨k1.blocks, ?_, ?_, ?_, ?_⟩, pre, ?_⟩
        · show List.Pairwise _ c.state.voteIndices
          exact k1.sorted
        · show u32succ c.state.executing.1 ≤ maxUint32
          exact le_of_lt hlt
        · intro h0
          have h02 : u32succ c.state.executing.1 = maxUint32 := h0
          exact absurd h02 (ne_of_lt hlt)
        · intro i hi1
          have hi2 : i ∈ c.state.voteIndices := hi1
          have hb := (k1.below i hi2).1
          show i ≤ u32succ c.state.executing.1 ∧ (i = u32succ c.state.executing.1 → false = true)
          rw [hs]
          exact ⟨by omega, fun h0 => absurd h0 (by omega)⟩
        · show broadcastVotes (c.out ++ [Effect.execute block parent]) = _
          rw [broadcastVotes_append]
          simpa [broadcastVotes] using k2
    · exact h
  · exact h

theorem findExecutableBlock_voteInv (d : Deps BT VP) (c : Cbft BT VP) (h : VoteInv c) :
    VoteInv (findExecutableBlock d c) := by
  unfold findExecutableBlock
  split
  · exact h
  · rename_i c1 h1
    obtain ⟨hv, hc⟩ := findExecutableFirst_voteInv d c c1 h h1
    rcases hc with hc | hc
    · rw [hc]
      exact findExecutableSecond_voteInv c h
    · rw [hc]
      unfold findExecutableSecond
      simpa using hv

theorem map_withParentQC_index (d : Deps BT VP) (c : Cbft BT VP) (l : List PrepareVote) :
    (l.map (withParentQC d c)).map (fun v => v.blockIndex) = l.map (fun v => v.blockIndex) := by
  rw [List.map_map]
  exact List.map_congr_left (fun p _ => withParentQC_blockIndex d c p)

theorem trySendPrepareVote_voteInv (d : Deps BT VP) (c r : Cbft BT VP) (h : VoteInv c)
    (hr : trySendPrepareVote d c = some r) : VoteInv r := by
  obtain ⟨⟨sent, rest, s1, s2, s3, s4, -, -, -⟩, fr⟩ :=
    trySendPrepareVoteLoop_spec d _ c r (le_refl _) hr
  obtain ⟨k1, pre, k2⟩ := h
  have hidx : r.state.voteIndices = c.state.voteIndices := by
    unfold ViewState.voteIndices
    rw [s2, s3, s1]
    simp only [List.map_append, map_withParentQC_index, List.append_assoc]
  refine ⟨pipeInv_congr fr.2.2.2.1 hidx fr.2.2.2.2.1 k1, pre, ?_⟩
  rw [s4, s3, k2, List.append_assoc]

theorem signBlock_voteInv (d : Deps BT VP) (c r : Cbft BT VP) (hash number i : Nat) (f : Bool)
    (h : VoteInv c) (hex : c.state.executing = (i, true)) (hmax : i < maxUint32)
    (hlt : ∀ j ∈ c.state.voteIndices, j < i)
    (hr : signBlock d c hash number i = some (r, f)) : VoteInv r := by
  unfold signBlock at hr
  split at hr
  · simp only [Option.some.injEq, Prod.mk.injEq] at hr; rw [← hr.1]; exact h
  · rename_i idx _
    dsimp only at hr
    split at hr
    · simp only [Option.some.injEq, Prod.mk.injEq] at hr; rw [← hr.1]; exact h
    · rename_i sig _
      simp only [Option.map_eq_some', Prod.mk.injEq] at hr
      obtain ⟨c2, h2, h3, _⟩ := hr
      rw [← h3]
      refine trySendPrepareVote_voteInv d _ c2 ?_ h2
      obtain ⟨k1, pre, k2⟩ := h
      have hidx : ∀ v : PrepareVote, v.blockIndex = i →
          ((c.setState (c.state.pendingPush v)).state.voteIndices
            = c.state.voteIndices ++ [i]) := by
        intro v hv
        show List.map _ (c.state.hadSendPrepareVote ++ (c.state.pendingPrepareVote ++ [v])) = _
        unfold ViewState.voteIndices
        rw [← List.append_assoc, List.map_append]
        simp [hv]
      refine ⟨⟨k1.blocks, ?_, k1.cursor, ?_, ?_⟩, pre, k2⟩
      · rw [hidx _ rfl]
        refine List.pairwise_append.2 ⟨k1.sorted, List.pairwise_singleton _ _, ?_⟩
        intro a ha b hb
        rw [List.mem_singleton.1 hb]
        exact hlt a ha
      · intro h0
        have h02 : c.state.executing.1 = maxUint32 := h0
        rw [hex] at h02
        exact absurd h02 (ne_of_lt hmax)
      · intro j hj
        rw [hidx _ rfl] at hj
        show j ≤ c.state.executing.1 ∧ (j = c.state.executing.1 → c.state.executing.2 = true)
        rw [hex]
        refine ⟨?_, fun _ => rfl⟩
        rcases List.mem_append.1 hj with h0 | h0
        · exact le_of_lt (hlt j h0)
        · rw [List.mem_singleton.1 h0]

theorem onAsyncExecuteSign_voteInv (d : Deps BT VP) (c r : Cbft BT VP)
    (s : BlockExecuteStatus) (f : Bool) (h : VoteInv c)
    (hr : onAsyncExecuteSign d c s = some (r, f)) : VoteInv r := by
  unfold onAsyncExecuteSign at hr
  split at hr
  · simp only [Option.some.injEq, Prod.mk.injEq] at hr; rw [← hr.1]; exact h
  · rename_i hfin
    split at hr
    · rename_i block hblock
      split at hr
      · obtain ⟨k1, pre, k2⟩ := h
        have hmax := viewBlockByIndex_lt c.state _ block k1 hblock
        have hlt : ∀ j ∈ c.state.voteIndices, j < c.state.executing.1 := by
          intro j hj
          obtain ⟨b1, b2⟩ := k1.below j hj
          rcases Nat.lt_or_ge j c.state.executing.1 with h0 | h0
          · exact h0
          · exact absurd (b2 (le_antisymm b1 h0)) hfin
        refine signBlock_voteInv d (c.setState (c.state.SetExecuting c.state.executing.1 true))
          r _ _ _ f ?_ rfl hmax hlt hr
        refine ⟨⟨k1.blocks, k1.sorted, k1.cursor, ?_, ?_⟩, pre, k2⟩
        · intro h0
          have h02 : c.state.executing.1 = maxUint32 := h0
          exact absurd h02 (ne_of_lt hmax)
        · intro j hj
          exact ⟨(k1.below j hj).1, fun _ => rfl⟩
      · simp only [Option.some.injEq, Prod.mk.injEq] at hr; rw [← hr.1]; exact h
    · simp only [Option.some.injEq, Prod.mk.injEq] at hr; rw [← hr.1]; exact h

theorem onAsyncExecuteStatus_voteInv (d : Deps BT VP) (c r : Cbft BT VP)
    (s : BlockExecuteStatus) (h : VoteInv c) (hr : onAsyncExecuteStatus d c s = some r) :
    VoteInv r := by
  unfold onAsyncExecuteStatus at hr
  split at hr
  · simp only [Option.some.injEq] at hr; rw [← hr]; exact h
  · split at hr
    · exact absurd hr (by simp)
    · rename_i c1 hsg
      simp only [Option.some.injEq] at hr
      rw [← hr]
      exact onAsyncExecuteSign_voteInv d c c1 s true h hsg
    · rename_i c1 hsg
      have hc1 := onAsyncExecuteSign_voteInv d c c1 s false h hsg
      simp only [Option.map_eq_some'] at hr
      obtain ⟨c2, h2, h3⟩ := hr
      rw [← h3]
      exact findExecutableBlock_voteInv d c2
        (findQCBlock_stable voteInv_stable d (voteInv_stableIns d) c1 c2 hc1 h2)

theorem OnPrepareBlockRules_passed (d : Deps BT VP) (c c1 : Cbft BT VP) (id : Nat)
    (msg : PrepareBlock) (h : OnPrepareBlockRules d c id msg = some (c1, none)) :
    ∀ e, d.PrepareBlockRules c msg = some e → e.fetch = false ∧ e.newView = true := by
  intro e he
  unfold OnPrepareBlockRules at h
  rw [he] at h
  dsimp only at h
  split at h
  · simp at h
  · rename_i hfetch
    split at h
    · rename_i hnew
      exact ⟨by simpa using hfetch, hnew⟩
    · simp at h

theorem addPrepareBlock_voteInv (c : Cbft BT VP) (msg : PrepareBlock)
    (hmsg : msg.blockIndex < maxUint32) (h : VoteInv c) :
    VoteInv (c.setState (c.state.AddPrepareBlock msg)) := by
  obtain ⟨k1, pre, k2⟩ := h
  refine ⟨⟨?_, k1.sorted, k1.cursor, k1.fresh, k1.below⟩, pre, k2⟩
  intro b hb
  have hb2 : b ∈ msg :: c.state.viewBlocks.filter (fun p => p.blockIndex != msg.blockIndex) := hb
  rcases List.mem_cons.1 hb2 with h0 | h0
  · rw [h0]; exact hmsg
  · exact k1.blocks b (List.mem_filter.1 h0).1

theorem OnPrepareBlock_voteInv (d : Deps BT VP) (hR : ProposalInRange d) (c r : Cbft BT VP)
    (e : Option HandlerError) (id : Nat) (msg : PrepareBlock) (h : VoteInv c)
    (hr : OnPrepareBlock d c id msg = some (r, e)) : VoteInv r := by
  unfold OnPrepareBlock at hr
  split at hr
  · exact absurd hr (by simp)
  · rename_i c1 e1 hchk
    simp only [Option.some.injEq, Prod.mk.injEq] at hr
    rw [← hr.1]
    exact OnPrepareBlockRules_stable voteInv_stable d c c1 _ id msg h hchk
  · rename_i c1 hchk
    have hc1 : VoteInv c1 := OnPrepareBlockRules_stable voteInv_stable d c c1 _ id msg h hchk
    have hmsg : msg.blockIndex < maxUint32 :=
      lt_of_lt_of_le (hR.2 c msg (OnPrepareBlockRules_passed d c c1 id msg hchk)) hR.1
    split at hr
    · simp only [Option.some.injEq, Prod.mk.injEq] at hr
      rw [← hr.1]; exact hc1
    · simp only [Option.some.injEq, Prod.mk.injEq] at hr
      rw [← hr.1]
      refine findExecutableBlock_voteInv d _ ?_
      exact stable_outExt voteInv_stable (sendAll_outExt id _ _) (addPrepareBlock_voteInv c1 msg hmsg hc1)

theorem step_voteInv (d : Deps BT VP) (hR : ProposalInRange d) (c r : Cbft BT VP) (ev : Event)
    (h : VoteInv c) (hr : step d c ev = some r) : VoteInv r := by
  cases ev with
  | prepareBlock id msg =>
    simp only [step, Option.map_eq_some'] at hr
    obtain ⟨⟨r1, e⟩, h1, h2⟩ := hr
    rw [← h2]
    exact OnPrepareBlock_voteInv d hR c r1 e id msg h h1
  | prepareVote id msg =>
    simp only [step, Option.map_eq_some'] at hr
    obtain ⟨⟨r1, e⟩, h1, h2⟩ := hr
    rw [← h2]
    exact OnPrepareVote_stable voteInv_stable voteInv_stableMsg d (voteInv_stableIns d)
      c r1 e id msg h h1
  | viewChange id msg =>
    simp only [step, Option.map_eq_some'] at hr
    obtain ⟨⟨r1, e⟩, h1, h2⟩ := hr
    rw [← h2]
    exact OnViewChange_stable voteInv_stable voteInv_stableMsg d c r1 e id msg h h1
  | viewTimeout => exact OnViewTimeout_stable voteInv_stable voteInv_stableMsg d c r h hr
  | insertQCBlock blocks qcs =>
    simp only [step, Option.map_eq_some'] at hr
    obtain ⟨⟨r1, e⟩, h1, h2⟩ := hr
    rw [← h2]
    exact OnInsertQCBlock_stable voteInv_stable d (voteInv_stableIns d) c r1 e blocks qcs h h1
  | asyncExecuteStatus s => exact onAsyncExecuteStatus_voteInv d c r s h hr

theorem run_voteInv (d : Deps BT VP) (hR : ProposalInRange d) (evs : List Event) :
    ∀ (c r : Cbft BT VP), VoteInv c → run d c evs = some r → VoteInv r := by
  induction evs with
  | nil =>
    intro c r hc h
    simp only [run, Option.some.injEq] at h
    rw [← h]; exact hc
  | cons ev evs ih =>
    intro c r hc h
    simp only [run, Option.bind_eq_some] at h
    obtain ⟨c1, h1, h2⟩ := h
    exact ih c1 r (step_voteInv d hR c c1 ev hc h1) h2

theorem toyDeps_proposalInRange : ProposalInRange toyDeps := by
  refine ⟨by decide, ?_⟩
  intro c msg h
  by_cases hlt : msg.blockIndex < 10
  · exact hlt
  · have h1 := h { fetch := false, newView := false } (by
      show (if msg.blockIndex < 10 then none else some _) = _
      rw [if_neg hlt])
    exact absurd h1.2 (by simp)

theorem voteInv_cbft0 : VoteInv cbft0 :=
  ⟨⟨by intro b hb; exact absurd hb (by simp [cbft0, viewState0]),
      by simp [cbft0, viewState0, ViewState.voteIndices],
      le_refl _,
      fun _ => ⟨rfl, rfl⟩,
      by intro i hi; exact absurd hi (by simp [cbft0, viewState0, ViewState.voteIndices])⟩,
    [], rfl⟩

/-! ## Certificates and votes -/

theorem viewQCByIndex_addQC (s : ViewState) (qc : QuorumCert) (i : Nat)
    (h : ((s.AddQC qc).viewQCByIndex i).isSome = true) :
    i = qc.blockIndex ∨ (s.viewQCByIndex i).isSome = true := by
  by_cases hi : i = qc.blockIndex
  · exact Or.inl hi
  · refine Or.inr ?_
    unfold ViewState.viewQCByIndex at h ⊢
    rw [Option.isSome_iff_exists] at h ⊢
    obtain ⟨q, hq⟩ := h
    have hmem := List.mem_of_find?_eq_some hq
    have hidx : q.blockIndex = i := by simpa using List.find?_some hq
    have hmem2 : q ∈ s.viewQCs.filter (fun x => x.blockIndex != qc.blockIndex) ++ [qc] := hmem
    rcases List.mem_append.1 hmem2 with h0 | h0
    · have hq2 : q ∈ s.viewQCs := (List.mem_filter.1 h0).1
      have : (s.viewQCs.find? (fun x => x.blockIndex == i)).isSome = true := by
        rw [List.find?_isSome]
        exact ⟨q, hq2, by simpa using hidx⟩
      exact Option.isSome_iff_exists.1 this
    · rw [List.mem_singleton.1 h0] at hidx
      exact absurd hidx.symm hi

theorem qcsBacked_stable (s : ViewState) (th : Nat) :
    Stable (QCsBacked s th : Cbft BT VP → Prop) := by
  refine ⟨fun _ _ _ h => h, ?_, fun _ _ h => h, fun _ _ h => h⟩
  intro c e v _ i hi
  exact absurd hi (by simp [ViewState.viewQCByIndex, ViewState.ResetView])

theorem generatePrepareQC_index (votes : List PrepareVote) (qc : QuorumCert) (i : Nat)
    (hall : ∀ v ∈ votes, v.blockIndex = i) (h : generatePrepareQC votes = some qc) :
    qc.blockIndex = i := by
  unfold generatePrepareQC at h
  split at h
  · exact absurd h (by simp)
  · rename_i v rest
    simp only [Option.some.injEq] at h
    rw [← h]
    exact hall v (List.mem_cons_self _ _)

theorem allPrepareVoteByIndex_index (s : ViewState) (i : Nat) :
    ∀ v ∈ s.AllPrepareVoteByIndex i, v.blockIndex = i := by
  intro v hv
  unfold ViewState.AllPrepareVoteByIndex at hv
  obtain ⟨e, he, rfl⟩ := List.mem_map.1 hv
  simpa using (List.mem_filter.1 he).2


theorem signedVotesOf_stable (s : ViewState) :
    Stable (fun x : Cbft BT VP => SignedVotesOf s x.state) := by
  refine ⟨fun _ _ _ h => h, ?_, fun _ _ h => h, fun _ _ h => h⟩
  intro c e v _
  exact Or.inr ⟨rfl, rfl⟩

theorem tryCommitNewBlock_signed (d : Deps BT VP) (c : Cbft BT VP) (lock commit : Option Block) :
    (tryCommitNewBlock d c lock commit).state.pendingPrepareVote = c.state.pendingPrepareVote
      ∧ (tryCommitNewBlock d c lock commit).state.hadSendPrepareVote
          = c.state.hadSendPrepareVote := by
  unfold tryCommitNewBlock
  split
  · dsimp only
    split <;> exact ⟨rfl, rfl⟩
  · exact ⟨rfl, rfl⟩

theorem signedVotesOf_stableIns (d : Deps BT VP) (s : ViewState) :
    StableIns d (fun x : Cbft BT VP => SignedVotesOf s x.state) := by
  refine ⟨fun _ _ h => h, fun _ _ h => h, fun _ _ h => h, ?_, fun _ _ h => h⟩
  intro c bt b qc h
  have hf := tryCommitNewBlock_signed d c (d.InsertQCBlock bt b qc).2.1 (d.InsertQCBlock bt b qc).2.2
  show SignedVotesOf s _
  unfold SignedVotesOf
  rw [hf.1, hf.2]
  exact h

theorem findExecutableBlock_signed (d : Deps BT VP) (c : Cbft BT VP) :
    (findExecutableBlock d c).state.pendingPrepareVote = c.state.pendingPrepareVote
      ∧ (findExecutableBlock d c).state.hadSendPrepareVote = c.state.hadSendPrepareVote := by
  have h2 : ∀ (x : Cbft BT VP) (i : Nat) (f : Bool),
      (findExecutableSecond x i f).state.pendingPrepareVote = x.state.pendingPrepareVote
        ∧ (findExecutableSecond x i f).state.hadSendPrepareVote = x.state.hadSendPrepareVote := by
    intro x i f
    unfold findExecutableSecond
    split
    · split
      · split
        · exact ⟨rfl, rfl⟩
        · exact ⟨rfl, rfl⟩
      · exact ⟨rfl, rfl⟩
    · exact ⟨rfl, rfl⟩
  unfold findExecutableBlock
  cases h1 : findExecutableFirst d c with
  | none => exact ⟨rfl, rfl⟩
  | some c1 =>
    dsimp only
    have hc1 : c1.state.pendingPrepareVote = c.state.pendingPrepareVote
        ∧ c1.state.hadSendPrepareVote = c.state.hadSendPrepareVote := by
      unfold findExecutableFirst at h1
      split at h1
      · split at h1
        · split at h1
          · exact absurd h1 (by simp)
          · simp only [Option.some.injEq] at h1
            rw [← h1]
            exact ⟨rfl, rfl⟩
        · simp only [Option.some.injEq] at h1
          rw [← h1]
          exact ⟨rfl, rfl⟩
      · simp only [Option.some.injEq] at h1
        rw [← h1]
        exact ⟨rfl, rfl⟩
    have := h2 c1 c.state.executing.1 c.state.executing.2
    rw [this.1, this.2]
    exact hc1

/-- The calls of a completed `changeView`: the confirmation of the view change
unless the node is loading, then `ForkedReset` with an empty rollback list. -/
theorem changeView_out (d : Deps BT VP) (c r : Cbft BT VP) (e v : Nat) (b : Block)
    (q : Option QuorumCert) (vc : Option ViewChangeQC)
    (h : changeView d c e v (some b) q vc = some r) :
    r.out = c.out ++ (if c.loading then [] else [Effect.confirmViewChange e v b q vc])
      ++ [Effect.txPoolForkedReset b []] := by
  unfold changeView at h
  dsimp only at h
  split at h
  · rename_i b1 iv hb hiv
    simp only [Option.some.injEq] at hb h
    rw [← h, ← hb]
    unfold clearInvalidBlocks
    cases hl : c.loading with
    | true => simp [hl, Cbft.emit, Cbft.setState, ViewState.ResetView, ViewState.SetViewTimer,
        ViewState.SetLastViewChangeQC]
    | false => simp [hl, Cbft.emit, Cbft.setState, ViewState.ResetView, ViewState.SetViewTimer,
        ViewState.SetLastViewChangeQC]
  · exact absurd h (by simp)

/-! ## The loop of `OnInsertQCBlock` -/

theorem OnInsertQCBlockLoop_step (d : Deps BT VP) (c : Cbft BT VP) (p : Block × QuorumCert)
    (rest : List (Block × QuorumCert)) :
    OnInsertQCBlockLoop d (p :: rest) c
      = match d.QCBlockRules c p.1 p.2 with
        | none => (insertPairRef d c p).bind (OnInsertQCBlockLoop d rest)
        | some err =>
          if err.newView then (insertPairRef d c p).bind (OnInsertQCBlockLoop d rest)
          else some (c, some (HandlerError.rule err)) := by
  obtain ⟨block, qc⟩ := p
  unfold insertPairRef
  rw [OnInsertQCBlockLoop]
  unfold OnInsertQCBlockRules
  cases hr : d.QCBlockRules c block qc with
  | none =>
    dsimp only
    cases insertQCBlock d c block qc <;> rfl
  | some err =>
    dsimp only
    by_cases hn : err.newView = true
    · simp only [if_pos hn]
      cases changeView d c qc.epoch qc.viewNumber (some block) (some qc) none with
      | none => rfl
      | some c1 =>
        simp only [Option.map_some', Option.some_bind]
        cases insertQCBlock d c1 block qc <;> rfl
    · simp only [if_neg hn]

theorem OnInsertQCBlockLoop_all (d : Deps BT VP) (l : List (Block × QuorumCert)) :
    ∀ c r, insertPairsRef d l c = some r → OnInsertQCBlockLoop d l c = some (r, none) := by
  induction l with
  | nil =>
    intro c r h
    simp only [insertPairsRef, Option.some.injEq] at h
    rw [OnInsertQCBlockLoop, h]
  | cons p rest ih =>
    intro c r h
    simp only [insertPairsRef, Option.bind_eq_some] at h
    obtain ⟨c1, h1, h2⟩ := h
    rw [OnInsertQCBlockLoop_step]
    have hb : (insertPairRef d c p).bind (OnInsertQCBlockLoop d rest) = some (r, none) := by
      rw [h1]
      exact ih c1 r h2
    cases hr : d.QCBlockRules c p.1 p.2 with
    | none => exact hb
    | some err =>
      dsimp only
      by_cases hn : err.newView = true
      · rw [if_pos hn]; exact hb
      · unfold insertPairRef at h1
        rw [hr] at h1
        dsimp only at h1
        rw [if_neg hn] at h1
        exact absurd h1 (by simp)

theorem OnInsertQCBlockLoop_reject (d : Deps BT VP) (l : List (Block × QuorumCert)) :
    ∀ (c : Cbft BT VP) (k : Nat) (r : Cbft BT VP) (p : Block × QuorumCert) (err : SafetyError),
      insertPairsRef d (l.take k) c = some r → l[k]? = some p →
      d.QCBlockRules r p.1 p.2 = some err → err.newView = false →
      OnInsertQCBlockLoop d l c = some (r, some (HandlerError.rule err)) := by
  induction l with
  | nil =>
    intro c k r p err _ hk
    simp at hk
  | cons q rest ih =>
    intro c k r p err hpre hk hrule hn
    cases k with
    | zero =>
      simp only [List.take_zero, insertPairsRef, Option.some.injEq] at hpre
      simp only [List.getElem?_cons_zero, Option.some.injEq] at hk
      rw [OnInsertQCBlockLoop_step, hk, hpre, hrule]
      dsimp only
      rw [if_neg (by simp [hn])]
    | succ k =>
      simp only [List.take_succ_cons, insertPairsRef, Option.bind_eq_some] at hpre
      obtain ⟨c1, h1, h2⟩ := hpre
      simp only [List.getElem?_cons_succ] at hk
      have hb : (insertPairRef d c q).bind (OnInsertQCBlockLoop d rest)
          = some (r, some (HandlerError.rule err)) := by
        rw [h1]
        exact ih c1 k r p err h2 hk hrule hn
      rw [OnInsertQCBlockLoop_step]
      cases hr : d.QCBlockRules c q.1 q.2 with
      | none => exact hb
      | some err1 =>
        dsimp only
        by_cases hn1 : err1.newView = true
        · rw [if_pos hn1]; exact hb
        · unfold insertPairRef at h1
          rw [hr] at h1
          dsimp only at h1
          rw [if_neg hn1] at h1
          exact absurd h1 (by simp)

theorem OnInsertQCBlockLoop_cases (d : Deps BT VP) (l : List (Block × QuorumCert)) :
    ∀ (c r : Cbft BT VP) (e : Option HandlerError), OnInsertQCBlockLoop d l c = some (r, e) →
      (e = none ∧ insertPairsRef d l c = some r)
        ∨ ∃ k p err, insertPairsRef d (l.take k) c = some r ∧ l[k]? = some p
            ∧ d.QCBlockRules r p.1 p.2 = some err ∧ err.newView = false
            ∧ e = some (HandlerError.rule err) := by
  induction l with
  | nil =>
    intro c r e h
    rw [OnInsertQCBlockLoop] at h
    simp only [Option.some.injEq, Prod.mk.injEq] at h
    exact Or.inl ⟨h.2.symm, by rw [insertPairsRef, h.1]⟩
  | cons p rest ih =>
    intro c r e h
    rw [OnInsertQCBlockLoop_step] at h
    have hgo : (insertPairRef d c p).bind (OnInsertQCBlockLoop d rest) = some (r, e) →
        (e = none ∧ insertPairsRef d (p :: rest) c = some r)
          ∨ ∃ k q err, insertPairsRef d ((p :: rest).take k) c = some r
              ∧ (p :: rest)[k]? = some q
              ∧ d.QCBlockRules r q.1 q.2 = some err ∧ err.newView = false
              ∧ e = some (HandlerError.rule err) := by
      intro hb
      simp only [Option.bind_eq_some] at hb
      obtain ⟨c1, h1, h2⟩ := hb
      rcases ih c1 r e h2 with ⟨he, hall⟩ | ⟨k, q, err, hpre, hk, hrule, hn, he⟩
      · refine Or.inl ⟨he, ?_⟩
        rw [insertPairsRef, h1]
        exact hall
      · refine Or.inr ⟨k + 1, q, err, ?_, ?_, hrule, hn, he⟩
        · rw [List.take_succ_cons, insertPairsRef, h1]
          exact hpre
        · rw [List.getElem?_cons_succ]
          exact hk
    cases hr : d.QCBlockRules c p.1 p.2 with
    | none =>
      rw [hr] at h
      exact hgo h
    | some err =>
      rw [hr] at h
      dsimp only at h
      by_cases hn : err.newView = true
      · rw [if_pos hn] at h
        exact hgo h
      · rw [if_neg hn] at h
        simp only [Option.some.injEq, Prod.mk.injEq] at h
        refine Or.inr ⟨0, p, err, ?_, ?_, ?_, ?_, h.2.symm⟩
        · rw [List.take_zero, insertPairsRef, h.1]
        · rw [List.getElem?_cons_zero]
        · rw [← h.1]; exact hr
        · simpa using hn

/-! ## The executing cursor points at a view block -/

theorem cursorBlock_congr (c : Cbft BT VP) {c1 : Cbft BT VP}
    (hb : c1.state.viewBlocks = c.state.viewBlocks)
    (he : c1.state.executing = c.state.executing) (h : CursorBlock c) : CursorBlock c1 := by
  unfold CursorBlock ViewState.ViewBlockByIndex at *
  rw [hb, he]
  exact h

theorem cursorBlock_stable : Stable (CursorBlock : Cbft BT VP → Prop) := by
  refine ⟨fun _ _ _ h => h, ?_, fun _ _ h => h, fun _ _ h => h⟩
  intro c e v _
  exact Or.inl rfl

theorem cursorBlock_stableMsg : StableMsg (CursorBlock : Cbft BT VP → Prop) := by
  refine ⟨fun _ _ h => h, ?_, ?_⟩
  · intro c id v h
    exact cursorBlock_congr c (by unfold ViewState.AddViewChange; rfl)
      (by unfold ViewState.AddViewChange; rfl) h
  · intro c id v h
    obtain ⟨-, -, f3, f4, -⟩ := addPrepareVote_frame c.state id v
    exact cursorBlock_congr c f3 f4 h

theorem tryCommitNewBlock_cursor (d : Deps BT VP) (c : Cbft BT VP) (lock commit : Option Block) :
    (tryCommitNewBlock d c lock commit).state.viewBlocks = c.state.viewBlocks
      ∧ (tryCommitNewBlock d c lock commit).state.executing = c.state.executing := by
  unfold tryCommitNewBlock
  split
  · dsimp only
    split <;> exact ⟨rfl, rfl⟩
  · exact ⟨rfl, rfl⟩

theorem cursorBlock_stableIns (d : Deps BT VP) :
    StableIns d (CursorBlock : Cbft BT VP → Prop) := by
  refine ⟨fun _ _ h => h, fun _ _ h => h, fun _ _ h => h, ?_, fun _ _ h => h⟩
  intro c bt b qc h
  obtain ⟨f1, f2⟩ := tryCommitNewBlock_cursor d c (d.InsertQCBlock bt b qc).2.1
    (d.InsertQCBlock bt b qc).2.2
  exact cursorBlock_congr c f1 f2 h

theorem findExecutableBlock_cursorBlock (d : Deps BT VP) (c : Cbft BT VP)
    (h : CursorBlock c) : CursorBlock (findExecutableBlock d c) := by
  have hsucc : u32succ maxUint32 = 0 := by decide
  unfold findExecutableBlock
  cases h1 : findExecutableFirst d c with
  | none => exact h
  | some c1 =>
    dsimp only
    have hc1 : CursorBlock c1 ∧ c1.state.viewBlocks = c.state.viewBlocks := by
      unfold findExecutableFirst at h1
      split at h1
      · rename_i hidx
        split at h1
        · rename_i block hblock
          split at h1
          · exact absurd h1 (by simp)
          · simp only [Option.some.injEq] at h1
            rw [← h1]
            refine ⟨Or.inr ?_, rfl⟩
            rw [hidx, hsucc] at hblock
            show (c.state.ViewBlockByIndex 0).isSome = true
            rw [hblock]
            rfl
        · simp only [Option.some.injEq] at h1
          rw [← h1]
          exact ⟨h, rfl⟩
      · simp only [Option.some.injEq] at h1
        rw [← h1]
        exact ⟨h, rfl⟩
    unfold findExecutableSecond
    split
    · split
      · rename_i block hblock
        split
        · exact hc1.1
        · refine Or.inr ?_
          show (c1.state.ViewBlockByIndex (u32succ c.state.executing.1)).isSome = true
          rw [hblock]
          rfl
      · exact hc1.1
    · exact hc1.1

theorem trySendPrepareVote_cursorBlock (d : Deps BT VP) (c r : Cbft BT VP)
    (h : CursorBlock c) (hr : trySendPrepareVote d c = some r) : CursorBlock r := by
  obtain ⟨-, fr⟩ := trySendPrepareVoteLoop_spec d _ c r (le_refl _) hr
  exact cursorBlock_congr c fr.2.2.2.1 fr.2.2.2.2.1 h

theorem signBlock_cursorBlock (d : Deps BT VP) (c r : Cbft BT VP) (hash number i : Nat)
    (f : Bool) (h : CursorBlock c) (hr : signBlock d c hash number i = some (r, f)) :
    CursorBlock r := by
  unfold signBlock at hr
  split at hr
  · simp only [Option.some.injEq, Prod.mk.injEq] at hr; rw [← hr.1]; exact h
  · dsimp only at hr
    split at hr
    · simp only [Option.some.injEq, Prod.mk.injEq] at hr; rw [← hr.1]; exact h
    · simp only [Option.map_eq_some', Prod.mk.injEq] at hr
      obtain ⟨c2, h2, h3, _⟩ := hr
      rw [← h3]
      refine trySendPrepareVote_cursorBlock d _ c2 ?_ h2
      exact cursorBlock_congr c rfl rfl h

theorem onAsyncExecuteSign_cursorBlock (d : Deps BT VP) (c r : Cbft BT VP)
    (s : BlockExecuteStatus) (f : Bool) (h : CursorBlock c)
    (hr : onAsyncExecuteSign d c s = some (r, f)) : CursorBlock r := by
  unfold onAsyncExecuteSign at hr
  split at hr
  · simp only [Option.some.injEq, Prod.mk.injEq] at hr; rw [← hr.1]; exact h
  · split at hr
    · rename_i block hblock
      split at hr
      · refine signBlock_cursorBlock d _ r _ _ _ f ?_ hr
        refine Or.inr ?_
        show (c.state.ViewBlockByIndex c.state.executing.1).isSome = true
        rw [hblock]
        rfl
      · simp only [Option.some.injEq, Prod.mk.injEq] at hr; rw [← hr.1]; exact h
    · simp only [Option.some.injEq, Prod.mk.injEq] at hr; rw [← hr.1]; exact h

theorem onAsyncExecuteStatus_cursorBlock (d : Deps BT VP) (c r : Cbft BT VP)
    (s : BlockExecuteStatus) (h : CursorBlock c) (hr : onAsyncExecuteStatus d c s = some r) :
    CursorBlock r := by
  unfold onAsyncExecuteStatus at hr
  split at hr
  · simp only [Option.some.injEq] at hr; rw [← hr]; exact h
  · split at hr
    · exact absurd hr (by simp)
    · rename_i c1 hsg
      simp only [Option.some.injEq] at hr
      rw [← hr]
      exact onAsyncExecuteSign_cursorBlock d c c1 s true h hsg
    · rename_i c1 hsg
      have hc1 := onAsyncExecuteSign_cursorBlock d c c1 s false h hsg
      simp only [Option.map_eq_some'] at hr
      obtain ⟨c2, h2, h3⟩ := hr
      rw [← h3]
      exact findExecutableBlock_cursorBlock d c2
        (findQCBlock_stable cursorBlock_stable d (cursorBlock_stableIns d) c1 c2 hc1 h2)

theorem addPrepareBlock_cursorBlock (c : Cbft BT VP) (msg : PrepareBlock) (h : CursorBlock c) :
    CursorBlock (c.setState (c.state.AddPrepareBlock msg)) := by
  rcases h with h | h
  · exact Or.inl h
  · refine Or.inr ?_
    show ((List.find? (fun p => p.blockIndex == c.state.executing.1)
      (msg :: c.state.viewBlocks.filter (fun p => p.blockIndex != msg.blockIndex))).map
        (fun p => p.block)).isSome = true
    unfold ViewState.ViewBlockByIndex at h
    have hmap : ∀ o : Option PrepareBlock, (o.map (fun p => p.block)).isSome = o.isSome := by
      intro o
      cases o <;> rfl
    rw [hmap] at h ⊢
    rw [List.find?_isSome] at h ⊢
    obtain ⟨p, hp, hi⟩ := h
    by_cases hm : msg.blockIndex = c.state.executing.1
    · exact ⟨msg, List.mem_cons_self _ _, by simpa using hm⟩
    · refine ⟨p, List.mem_cons_of_mem _ (List.mem_filter.2 ⟨hp, ?_⟩), hi⟩
      have hpi : p.blockIndex = c.state.executing.1 := by simpa using hi
      simp only [bne_iff_ne, ne_eq, hpi]
      exact fun h0 => hm h0.symm

theorem OnPrepareBlock_cursorBlock (d : Deps BT VP) (c r : Cbft BT VP)
    (e : Option HandlerError) (id : Nat) (msg : PrepareBlock) (h : CursorBlock c)
    (hr : OnPrepareBlock d c id msg = some (r, e)) : CursorBlock r := by
  unfold OnPrepareBlock at hr
  split at hr
  · exact absurd hr (by simp)
  · rename_i c1 e1 hchk
    simp only [Option.some.injEq, Prod.mk.injEq] at hr
    rw [← hr.1]
    exact OnPrepareBlockRules_stable cursorBlock_stable d c c1 _ id msg h hchk
  · rename_i c1 hchk
    have hc1 : CursorBlock c1 :=
      OnPrepareBlockRules_stable cursorBlock_stable d c c1 _ id msg h hchk
    split at hr
    · simp only [Option.some.injEq, Prod.mk.injEq] at hr
      rw [← hr.1]; exact hc1
    · simp only [Option.some.injEq, Prod.mk.injEq] at hr
      rw [← hr.1]
      refine findExecutableBlock_cursorBlock d _ ?_
      exact stable_outExt cursorBlock_stable (sendAll_outExt id _ _)
        (addPrepareBlock_cursorBlock c1 msg hc1)

theorem step_cursorBlock (d : Deps BT VP) (c r : Cbft BT VP) (ev : Event)
    (h : CursorBlock c) (hr : step d c ev = some r) : CursorBlock r := by
  cases ev with
  | prepareBlock id msg =>
    simp only [step, Option.map_eq_some'] at hr
    obtain ⟨⟨r1, e⟩, h1, h2⟩ := hr
    rw [← h2]
    exact OnPrepareBlock_cursorBlock d c r1 e id msg h h1
  | prepareVote id msg =>
    simp only [step, Option.map_eq_some'] at hr
    obtain ⟨⟨r1, e⟩, h1, h2⟩ := hr
    rw [← h2]
    exact OnPrepareVote_stable cursorBlock_stable cursorBlock_stableMsg d
      (cursorBlock_stableIns d) c r1 e id msg h h1
  | viewChange id msg =>
    simp only [step, Option.map_eq_some'] at hr
    obtain ⟨⟨r1, e⟩, h1, h2⟩ := hr
    rw [← h2]
    exact OnViewChange_stable cursorBlock_stable cursorBlock_stableMsg d c r1 e id msg h h1
  | viewTimeout => exact OnViewTimeout_stable cursorBlock_stable cursorBlock_stableMsg d c r h hr
  | insertQCBlock blocks qcs =>
    simp only [step, Option.map_eq_some'] at hr
    obtain ⟨⟨r1, e⟩, h1, h2⟩ := hr
    rw [← h2]
    exact OnInsertQCBlock_stable cursorBlock_stable d (cursorBlock_stableIns d) c r1 e
      blocks qcs h h1
  | asyncExecuteStatus s => exact onAsyncExecuteStatus_cursorBlock d c r s h hr

/-- Every state the handlers reach from a state with the two invariants of the
cursor has them: a cursor at the sentinel is not finished (part of the
pipeline invariant, for safety rules that keep block indices below `Amount`),
and a cursor elsewhere points at a view block (for all collaborators). -/
theorem run_cursorBlock (d : Deps BT VP) (hR : ProposalInRange d) (evs : List Event) :
    ∀ (c r : Cbft BT VP), VoteInv c → CursorBlock c → run d c evs = some r →
      (r.state.executing.1 = maxUint32 → r.state.executing.2 = false) ∧ CursorBlock r := by
  induction evs with
  | nil =>
    intro c r hv hc h
    simp only [run, Option.some.injEq] at h
    rw [← h]
    exact ⟨fun h0 => (hv.1.fresh h0).1, hc⟩
  | cons ev evs ih =>
    intro c r hv hc h
    simp only [run, Option.bind_eq_some] at h
    obtain ⟨c1, h1, h2⟩ := h
    exact ih c1 r (step_voteInv d hR c c1 ev hv h1) (step_cursorBlock d c c1 ev hc h1) h2

theorem cursorBlock_cbft0 : CursorBlock cbft0 := Or.inl (by rfl)
/-! ## Claims -/

/-- C1: `tryCommitNewBlock(lock, commit)` with both blocks present.  When
`commit.number` is `highest_commit_block.number + 1` (a `uint64` sum), the
highest lock and commit blocks become `lock` and `commit`, the trace gains
`commitBlock(commit, qc)` with the certificate the block tree holds for
`commit` followed by `UpdateChainState(highest_qc_block, lock, commit)`, and
the block tree is pruned and re-rooted at `commit`.  Otherwise state, block
tree and validator pool are unchanged and the trace gains only
`UpdateChainState(highest_qc_block, nil, nil)`. -/
theorem tryCommitNewBlock_contract (d : Deps BT VP) (c : Cbft BT VP) (lock commit : Block) :
    if u64succ c.state.highestCommitBlock.number = commit.number then
      (tryCommitNewBlock d c (some lock) (some commit)).state
          = { c.state with highestLockBlock := lock, highestCommitBlock := commit }
        ∧ (tryCommitNewBlock d c (some lock) (some commit)).out
          = c.out ++ [Effect.commitBlock commit
                (d.FindBlockAndQC c.blockTree commit.hash commit.number).2,
              Effect.updateChainState c.state.highestQCBlock (some lock) (some commit)]
        ∧ (tryCommitNewBlock d c (some lock) (some commit)).blockTree
          = d.NewRoot (d.PruneBlock c.blockTree commit.hash commit.number) commit
    else
      tryCommitNewBlock d c (some lock) (some commit)
        = { c with out := c.out ++ [Effect.updateChainState c.state.highestQCBlock none none] } := by
  unfold tryCommitNewBlock
  split <;> rename_i h <;>
    simp [h, Cbft.emit, Cbft.setState, Cbft.setBlockTree, ViewState.SetHighestLockBlock,
      ViewState.SetHighestCommitBlock]

/-- C2: from a valid state (the highest lock block at most one above the
highest commit block, numbers within `uint64`) and with a block tree whose
lock candidate is the child of its commit candidate, no sequence of handler
calls (`OnPrepareBlock`, `OnPrepareVote`, `OnViewChange`, `OnViewTimeout`,
`OnInsertQCBlock`, `onAsyncExecuteStatus`) lowers the number of the highest
commit block or of the highest lock block: between any two points of a run
both numbers are non-decreasing. -/
theorem highest_commit_lock_monotone (d : Deps BT VP) (hT : TreeContract d)
    (c r1 r2 : Cbft BT VP) (evs1 evs2 : List Event) (hv : CommitValid c)
    (h1 : run d c evs1 = some r1) (h2 : run d r1 evs2 = some r2) :
    r1.state.highestCommitBlock.number ≤ r2.state.highestCommitBlock.number
      ∧ r1.state.highestLockBlock.number ≤ r2.state.highestLockBlock.number := by
  have hr1 : CommitAbove c.state.highestCommitBlock.number c.state.highestLockBlock.number r1 :=
    run_stable (commitAbove_stable _ _) (commitAbove_stableMsg _ _) (commitAbove_stablePipe _ _)
      d (commitAbove_stableIns d hT _ _) evs1 c r1 ⟨hv, le_refl _, le_refl _⟩ h1
  have hr2 : CommitAbove r1.state.highestCommitBlock.number r1.state.highestLockBlock.number r2 :=
    run_stable (commitAbove_stable _ _) (commitAbove_stableMsg _ _) (commitAbove_stablePipe _ _)
      d (commitAbove_stableIns d hT _ _) evs2 r1 r2 ⟨hr1.1, le_refl _, le_refl _⟩ h2
  exact ⟨hr2.2.1, hr2.2.2⟩

theorem highest_commit_lock_monotone_witness :
    (cbftS2a.state.highestCommitBlock.number ≤ cbftS2b.state.highestCommitBlock.number
      ∧ cbftS2a.state.highestLockBlock.number ≤ cbftS2b.state.highestLockBlock.number)
    ∧ cbftS2a.state.highestCommitBlock = genesis
    ∧ cbftS2b.state.highestCommitBlock = blockB1
    ∧ cbftS2b.state.highestLockBlock = blockB2 :=
  ⟨highest_commit_lock_monotone toyDeps toyDeps_treeContract cbft0 cbftS2a cbftS2b
      (eventsS2.take 1) (eventsS2.drop 1) ⟨by decide, by decide⟩ (by rfl) (by rfl),
    by rfl, by rfl, by rfl⟩

/-- C3: when the view is filled (`max_qc_index + 1 == Amount` in `uint32`) and
the block tree holds the highest QC block (with its certificate unless that
block has number `0`), `tryChangeView` is the call
`changeView(epoch, view_number + 1, highest_qc_block, its QC, nil)`, whatever
view changes are stored: it completes, the view is `(epoch, view_number + 1)`
and the last ViewChangeQC is empty. -/
theorem tryChangeView_view_filled (d : Deps BT VP) (c : Cbft BT VP) (oqc : Option QuorumCert)
    (hfull : u32succ c.state.maxQCIndex = d.amount)
    (hfind : d.FindBlockAndQC c.blockTree c.state.highestQCBlock.hash
      c.state.highestQCBlock.number = (some c.state.highestQCBlock, oqc))
    (hcert : c.state.highestQCBlock.number = 0 ∨ ∃ q, oqc = some q) :
    ∃ r, tryChangeView d c = some r
      ∧ changeView d c c.state.epoch (u64succ c.state.viewNumber)
          (some c.state.highestQCBlock) oqc none = some r
      ∧ r.state.epoch = c.state.epoch
      ∧ r.state.viewNumber = u64succ c.state.viewNumber
      ∧ r.state.lastViewChangeQC = none := by
  have hiv : ∃ iv, changeViewInterval d (u64succ c.state.viewNumber)
      (some c.state.highestQCBlock) oqc = some iv := by
    unfold changeViewInterval
    by_cases h0 : c.state.highestQCBlock.number = 0
    · exact ⟨1, by simp [h0]⟩
    · rcases hcert with h | ⟨q, rfl⟩
      · exact absurd h h0
      · simp only [h0, if_false]
        split <;> exact ⟨_, rfl⟩
  obtain ⟨iv, hiv⟩ := hiv
  obtain ⟨r, hr, hs, -⟩ := changeView_some d c c.state.epoch (u64succ c.state.viewNumber)
    c.state.highestQCBlock oqc none iv hiv
  refine ⟨r, ?_, hr, by rw [hs]; rfl, by rw [hs]; rfl, by rw [hs]; rfl⟩
  unfold tryChangeView
  simp only [hfull, if_true, hfind]
  exact hr

theorem tryChangeView_view_filled_witness :
    ∃ r, tryChangeView toyDeps cbftFilled = some r
      ∧ changeView toyDeps cbftFilled cbftFilled.state.epoch (u64succ cbftFilled.state.viewNumber)
          (some cbftFilled.state.highestQCBlock) none none = some r
      ∧ r.state.epoch = cbftFilled.state.epoch
      ∧ r.state.viewNumber = u64succ cbftFilled.state.viewNumber
      ∧ r.state.lastViewChangeQC = none :=
  tryChangeView_view_filled toyDeps cbftFilled none (by decide) (by decide) (Or.inl (by decide))

/-- C4, as the claim states it, fails: the abort compares the maximum block
number of the ViewChangeQC with the block number of the certificate the block
tree returns for the highest QC block, not with `highest_qc_block.number`.
After `eventsBehind`, run with safety rules that reject every message of
another view, the highest QC block is `blockB3` (number 3), stored with
a certificate built from a vote of the previous view that names block number
1.  With three ViewChanges on `blockB3` the maximum block number is 3, which
does not exceed `highest_qc_block.number`, and `tryChangeView` leaves the node
in view `(1, 1)`. -/
theorem tryChangeView_behind_counterexample :
    run toyDepsStrict cbft0
        (eventsBehind ++ [Event.viewChange 3 (viewChangeOn 1 3 blockB3 (some qcB3))])
        = some cbftBehind
      ∧ u32succ cbftBehind.state.maxQCIndex ≠ toyDepsStrict.amount
      ∧ threshold (toyDepsStrict.Len cbftBehind.validatorPool cbftBehind.state.highestQCBlock.number)
          ≤ cbftBehind.state.ViewChangeLen
      ∧ cbftBehind.state.highestQCBlock = blockB3
      ∧ cbftBehind.state.highestQCBlock.number = 3
      ∧ (generateViewChangeQC cbftBehind.state.AllViewChange).MaxBlock.2.2.2 = 3
      ∧ (toyDepsStrict.FindBlockAndQC cbftBehind.blockTree cbftBehind.state.highestQCBlock.hash
          cbftBehind.state.highestQCBlock.number).2.map (fun q => q.blockNumber) = some 1
      ∧ tryChangeView toyDepsStrict cbftBehind = some cbftBehind
      ∧ cbftBehind.state.viewNumber = 1 :=
  ⟨by rfl, by decide, by decide, by rfl, by rfl, by rfl, by rfl, by rfl, by rfl⟩

/-- C4 (amended): the view is not filled and the block tree returns the
highest QC block, with a certificate `q` unless the number of that block is
`0`.  With at least `threshold(validators at highest_qc_block.number)` view
changes, `tryChangeView` builds the ViewChangeQC; when the highest QC block is
not genesis and the maximum block number of the ViewChangeQC exceeds
`q.block_number`, the block number of that certificate, it leaves the node
unchanged; otherwise it is the call
`changeView(epoch, view_number + 1, highest_qc_block, its QC, viewChangeQC)`
and the view becomes `(epoch, view_number + 1)` carrying that ViewChangeQC.
With fewer view changes it leaves the node unchanged. -/
theorem tryChangeView_view_change_quorum (d : Deps BT VP) (c : Cbft BT VP)
    (oqc : Option QuorumCert) (q : QuorumCert)
    (hnot : u32succ c.state.maxQCIndex ≠ d.amount)
    (hfind : d.FindBlockAndQC c.blockTree c.state.highestQCBlock.hash
      c.state.highestQCBlock.number = (some c.state.highestQCBlock, oqc))
    (hcert : c.state.highestQCBlock.number = 0 ∨ oqc = some q) :
    if threshold (d.Len c.validatorPool c.state.highestQCBlock.number) ≤ c.state.ViewChangeLen then
      if c.state.highestQCBlock.number ≠ 0
          ∧ q.blockNumber < (generateViewChangeQC c.state.AllViewChange).MaxBlock.2.2.2 then
        tryChangeView d c = some c
      else
        ∃ r, tryChangeView d c = some r
          ∧ changeView d c c.state.epoch (u64succ c.state.viewNumber)
              (some c.state.highestQCBlock) oqc
              (some (generateViewChangeQC c.state.AllViewChange)) = some r
          ∧ r.state.epoch = c.state.epoch
          ∧ r.state.viewNumber = u64succ c.state.viewNumber
          ∧ r.state.lastViewChangeQC = some (generateViewChangeQC c.state.AllViewChange)
    else tryChangeView d c = some c := by
  split
  · rename_i hth
    have hiv : ∃ iv, changeViewInterval d (u64succ c.state.viewNumber)
        (some c.state.highestQCBlock) oqc = some iv := by
      unfold changeViewInterval
      by_cases h0 : c.state.highestQCBlock.number = 0
      · exact ⟨1, by simp [h0]⟩
      · rcases hcert with h | rfl
        · exact absurd h h0
        · simp only [h0, if_false]
          split <;> exact ⟨_, rfl⟩
    obtain ⟨iv, hiv⟩ := hiv
    obtain ⟨r, hr, hs, -⟩ := changeView_some d c c.state.epoch (u64succ c.state.viewNumber)
      c.state.highestQCBlock oqc (some (generateViewChangeQC c.state.AllViewChange)) iv hiv
    split
    · rename_i hb
      obtain ⟨h0, hlt⟩ := hb
      rcases hcert with h | rfl
      · exact absurd h h0
      · unfold tryChangeView
        simp only [hnot, if_false, hth, if_true, hfind, h0, ne_eq, not_false_eq_true, hlt]
    · rename_i hb
      refine ⟨r, ?_, hr, by rw [hs]; rfl, by rw [hs]; rfl, by rw [hs]; rfl⟩
      unfold tryChangeView
      simp only [hnot, if_false, hth, if_true, hfind]
      by_cases h0 : c.state.highestQCBlock.number = 0
      · simp only [h0, ne_eq, not_true_eq_false, if_false]
        exact hr
      · rcases hcert with h | rfl
        · exact absurd h h0
        · have hlt : ¬ q.blockNumber
              < (generateViewChangeQC c.state.AllViewChange).MaxBlock.2.2.2 :=
            fun h => hb ⟨h0, h⟩
          simp only [h0, ne_eq, not_false_eq_true, if_true, hlt, if_false]
          exact hr
  · rename_i hth
    unfold tryChangeView
    simp only [hnot, if_false, hth]

theorem tryChangeView_view_change_quorum_witness :
    (cbftQuorumB1.state.highestQCBlock = blockB1
      ∧ ∃ r, tryChangeView toyDeps cbftQuorumB1 = some r
        ∧ changeView toyDeps cbftQuorumB1 cbftQuorumB1.state.epoch
            (u64succ cbftQuorumB1.state.viewNumber) (some cbftQuorumB1.state.highestQCBlock)
            (some (qcOf blockB1 0))
            (some (generateViewChangeQC cbftQuorumB1.state.AllViewChange)) = some r
        ∧ r.state.epoch = cbftQuorumB1.state.epoch
        ∧ r.state.viewNumber = u64succ cbftQuorumB1.state.viewNumber
        ∧ r.state.lastViewChangeQC
            = some (generateViewChangeQC cbftQuorumB1.state.AllViewChange))
      ∧ (cbftBehind.state.highestQCBlock = blockB3
        ∧ tryChangeView toyDepsStrict cbftBehind = some cbftBehind) := by
  have h := tryChangeView_view_change_quorum toyDeps cbftQuorumB1 (some (qcOf blockB1 0))
    (qcOf blockB1 0) (by decide) (by rfl) (Or.inr rfl)
  rw [if_pos (by decide), if_neg (by decide)] at h
  have h2 := tryChangeView_view_change_quorum toyDepsStrict cbftBehind
    (some { qcOf blockB1 0 with validatorSet := [3, 0, 1] })
    { qcOf blockB1 0 with validatorSet := [3, 0, 1] } (by decide) (by rfl) (Or.inr rfl)
  rw [if_pos (by decide), if_pos (by decide)] at h2
  exact ⟨⟨by rfl, h⟩, by rfl, h2⟩

/-- C5: `changeView(epoch, view, block, qc, view_change_qc)` with a block and
a certificate.  The interval given to `SetViewTimer` is `1` when
`block.number == 0` or `qc.view_number + 1 != view`, and the `uint32`
difference `Amount - qc.block_index` otherwise (`u32sub_eq`: the plain
difference when `qc.block_index ≤ Amount`); afterwards the view state is at
`(epoch, view)` and its last ViewChangeQC is `view_change_qc`.  Without a
certificate the call completes, with interval `1`, exactly for a block of
number `0`. -/
theorem changeView_contract (d : Deps BT VP) (c : Cbft BT VP) (e v : Nat) (b : Block)
    (q : QuorumCert) (vc : Option ViewChangeQC) :
    (∃ r, changeView d c e v (some b) (some q) vc = some r
      ∧ r.state.viewTimer
          = (if b.number = 0 ∨ u64succ q.viewNumber ≠ v then 1 else u32sub d.amount q.blockIndex)
      ∧ r.state.epoch = e ∧ r.state.viewNumber = v ∧ r.state.lastViewChangeQC = vc)
    ∧ (if b.number = 0 then
        ∃ r, changeView d c e v (some b) none vc = some r
          ∧ r.state.viewTimer = 1
          ∧ r.state.epoch = e ∧ r.state.viewNumber = v ∧ r.state.lastViewChangeQC = vc
       else changeView d c e v (some b) none vc = none) := by
  constructor
  · have hiv : changeViewInterval d v (some b) (some q)
        = some (if b.number = 0 ∨ u64succ q.viewNumber ≠ v then 1
            else u32sub d.amount q.blockIndex) := by
      unfold changeViewInterval
      by_cases h0 : b.number = 0
      · simp [h0]
      · by_cases h1 : u64succ q.viewNumber = v <;> simp [h0, h1]
    obtain ⟨r, hr, hs, -⟩ := changeView_some d c e v b (some q) vc _ hiv
    exact ⟨r, hr, by rw [hs]; rfl, by rw [hs]; rfl, by rw [hs]; rfl, by rw [hs]; rfl⟩
  · split
    · rename_i h0
      have hiv : changeViewInterval d v (some b) none = some 1 := by
        simp [changeViewInterval, h0]
      obtain ⟨r, hr, hs, -⟩ := changeView_some d c e v b none vc _ hiv
      exact ⟨r, hr, by rw [hs]; rfl, by rw [hs]; rfl, by rw [hs]; rfl, by rw [hs]; rfl⟩
    · rename_i h0
      simp [changeView, changeViewInterval, h0]

/-- C6: a completed call `insertQCBlock(block, qc)` makes `block` the highest
QC block and hands `(block, qc)` to the block tree, whose result (pruned and
re-rooted at the commit candidate when that is committed) is the tree
afterwards.  When `(qc.epoch, qc.view_number)` differs from the current view
the certificate is not added: the certificates of the view and `max_qc_index`
are the ones before the call (or those of a view reset by the call).  When it
equals the current view they are the ones after `AddQC(qc)` (or those of a
view reset by the call). -/
theorem insertQCBlock_view_gate (d : Deps BT VP) (c r : Cbft BT VP) (block : Block)
    (qc : QuorumCert) (h : insertQCBlock d c block qc = some r) :
    r.state.highestQCBlock = block
      ∧ (r.blockTree = (d.InsertQCBlock c.blockTree block qc).1
          ∨ ∃ cm, (d.InsertQCBlock c.blockTree block qc).2.2 = some cm
              ∧ r.blockTree = d.NewRoot
                  (d.PruneBlock (d.InsertQCBlock c.blockTree block qc).1 cm.hash cm.number) cm)
      ∧ (if c.state.epoch = qc.epoch ∧ c.state.viewNumber = qc.viewNumber then
          ViewQCsOf (c.state.AddQC qc) r.state
         else ViewQCsOf c.state r.state) := by
  unfold insertQCBlock at h
  split at h
  · exact absurd h (by simp)
  · rename_i c6 h6
    simp only [Option.some.injEq] at h
    obtain ⟨f1, f2, f3, f4⟩ := insertQCBlockStore_frame d c block qc
    have h7 := tryChangeView_stable
      (insertedQC_stable block (insertQCBlockStore d c block qc).blockTree
        (if c.state.epoch = qc.epoch ∧ c.state.viewNumber = qc.viewNumber then
          c.state.AddQC qc else c.state)) d _ c6 ⟨f1, rfl, Or.inl ⟨f3, f4⟩⟩ h6
    have h8 : InsertedQC block (insertQCBlockStore d c block qc).blockTree
        (if c.state.epoch = qc.epoch ∧ c.state.viewNumber = qc.viewNumber then
          c.state.AddQC qc else c.state) r := by
      rw [← h]
      rcases insertQCBlockSwitch_cases d c6 block with hsw | ⟨vp, hsw⟩
      · rw [hsw]; exact h7
      · rw [hsw]; exact ⟨h7.1, h7.2.1, Or.inr ⟨rfl, rfl⟩⟩
    refine ⟨h8.1, by rw [h8.2.1]; exact f2, ?_⟩
    have h9 := h8.2.2
    split
    · rename_i hm
      rw [if_pos hm] at h9
      exact h9
    · rename_i hm
      rw [if_neg hm] at h9
      exact h9

theorem insertQCBlock_view_gate_witness :
    (cbftOtherView.state.highestQCBlock = blockB1
      ∧ (cbftOtherView.blockTree = (toyDeps.InsertQCBlock cbft0.blockTree blockB1 qcOtherView).1
          ∨ ∃ cm, (toyDeps.InsertQCBlock cbft0.blockTree blockB1 qcOtherView).2.2 = some cm
              ∧ cbftOtherView.blockTree = toyDeps.NewRoot
                  (toyDeps.PruneBlock (toyDeps.InsertQCBlock cbft0.blockTree blockB1 qcOtherView).1
                    cm.hash cm.number) cm)
      ∧ (if cbft0.state.epoch = qcOtherView.epoch ∧ cbft0.state.viewNumber = qcOtherView.viewNumber
          then ViewQCsOf (cbft0.state.AddQC qcOtherView) cbftOtherView.state
          else ViewQCsOf cbft0.state cbftOtherView.state))
    ∧ cbftOtherView.state.maxQCIndex = maxUint32
    ∧ cbftOtherView.blockTree = [(genesis, none), (blockB1, some qcOtherView)] :=
  ⟨insertQCBlock_view_gate toyDeps cbft0 cbftOtherView blockB1 qcOtherView (by rfl),
    by rfl, by rfl⟩

/-- C7 fails as stated: the vote for `blockB1` (number 1) is broadcast although
the block tree holds no certificate for its parent, genesis, and the vote
carries no parent certificate. -/
theorem trySendPrepareVote_counterexample :
    trySendPrepareVote toyDeps cbftVotes = some cbftVotesSent
      ∧ broadcastVotes cbftVotesSent.out = [voteOf 0 blockB1 0]
      ∧ (voteOf 0 blockB1 0).parentQC = none
      ∧ cbftVotes.state.ViewBlockByIndex 0 = some blockB1
      ∧ blockB1.number ≠ 0
      ∧ toyDeps.FindBlockAndQC cbftVotes.blockTree blockB1.parentHash (u64pred blockB1.number)
          = (some genesis, none) := by
  refine ⟨by rfl, by rfl, by rfl, by rfl, by decide, by rfl⟩

/-- C7, as the code has it: a completed `trySendPrepareVote` sends a front
part `sent` of the pending queue and leaves the remainder `rest` pending.
Every vote it sends is one whose block has its parent in the block tree (or
has number `0`), and it is broadcast and stored in `had_sent_prepare_vote`
carrying the certificate the block tree holds for that parent as `ParentQC`;
the broadcasts are exactly these votes, in order, and the tally gains nothing
else.  The first vote left
pending is one the vote rule rejects or whose parent is not in the block tree;
a pending vote whose parent is not in the block tree (block number not `0`) is
not among the sent ones and is still pending afterwards. -/
theorem trySendPrepareVote_gate (d : Deps BT VP) (c r : Cbft BT VP)
    (h : trySendPrepareVote d c = some r) :
    ∃ sent rest, SentVotes d c r sent rest
      ∧ ∀ p ∈ c.state.pendingPrepareVote, voteReleasable d c p = false →
          p ∉ sent ∧ p ∈ r.state.pendingPrepareVote := by
  obtain ⟨⟨sent, rest, hs⟩, -⟩ :=
    trySendPrepareVoteLoop_spec d _ c r (le_refl _) h
  refine ⟨sent, rest, hs, ?_⟩
  intro p hp hblocked
  obtain ⟨s1, s2, -, -, s5, -, -⟩ := hs
  have hns : p ∉ sent := by
    intro hmem
    have := s5 p hmem
    rw [hblocked] at this
    exact absurd this (by simp)
  refine ⟨hns, ?_⟩
  rw [s1] at hp
  rw [s2]
  rcases List.mem_append.1 hp with h0 | h0
  · exact absurd h0 hns
  · exact h0

theorem trySendPrepareVote_gate_witness :
    (∃ sent rest, SentVotes toyDeps cbftVotes cbftVotesSent sent rest
      ∧ ∀ p ∈ cbftVotes.state.pendingPrepareVote, voteReleasable toyDeps cbftVotes p = false →
          p ∉ sent ∧ p ∈ cbftVotesSent.state.pendingPrepareVote)
    ∧ cbftVotesSent.state.pendingPrepareVote = [voteOf 0 blockB2 1]
    ∧ cbftVotesSent.state.hadSendPrepareVote = [voteOf 0 blockB1 0] :=
  ⟨trySendPrepareVote_gate toyDeps cbftVotes cbftVotesSent (by rfl), by rfl, by rfl⟩

/-- C9: from a state that satisfies the pipeline invariant (such as a fresh
view) and with safety rules that admit only proposals whose index is below
`Amount`, after every sequence of handler calls the block indices of the votes
this node has signed in the view (the sent ones, then the pending ones) are
strictly increasing, so are those of `had_sent_prepare_vote` in the order the
votes were added, and the votes of `had_sent_prepare_vote` are the last
PrepareVotes broadcast, in that same order. -/
theorem prepareVotes_strictly_increasing (d : Deps BT VP) (hR : ProposalInRange d)
    (c r : Cbft BT VP) (evs : List Event) (hv : VoteInv c) (h : run d c evs = some r) :
    List.Pairwise (fun a b => a < b) r.state.voteIndices
      ∧ List.Pairwise (fun a b => a < b)
          (r.state.hadSendPrepareVote.map (fun v => v.blockIndex))
      ∧ ∃ pre, broadcastVotes r.out = pre ++ r.state.hadSendPrepareVote := by
  obtain ⟨k1, k2⟩ := run_voteInv d hR evs c r hv h
  refine ⟨k1.sorted, ?_, k2⟩
  have hs := k1.sorted
  unfold ViewState.voteIndices at hs
  rw [List.map_append] at hs
  exact (List.pairwise_append.1 hs).1

theorem prepareVotes_strictly_increasing_witness :
    (List.Pairwise (fun a b => a < b) cbftS1.state.voteIndices
      ∧ List.Pairwise (fun a b => a < b)
          (cbftS1.state.hadSendPrepareVote.map (fun v => v.blockIndex))
      ∧ ∃ pre, broadcastVotes cbftS1.out = pre ++ cbftS1.state.hadSendPrepareVote)
    ∧ cbftS1.state.hadSendPrepareVote.map (fun v => v.blockIndex) = [0, 1]
    ∧ (broadcastVotes cbftS1.out).map (fun v => v.blockIndex) = [0, 1] :=
  ⟨prepareVotes_strictly_increasing toyDeps toyDeps_proposalInRange cbft0 cbftS1 eventsS1
      voteInv_cbft0 (by rfl), by rfl, by rfl⟩

/-- C10 fails as stated: after `OnInsertQCBlock` with `blockB1` and its
certificate for index 0 of the current view, the view state stores that
certificate while it holds no vote for index 0, with a threshold of 3. -/
theorem OnInsertQCBlock_votes_counterexample :
    run toyDeps cbft0 eventsCatchUp = some cbftCatchUp
      ∧ cbftCatchUp.state.viewQCByIndex 0 = some (qcOf blockB1 0)
      ∧ cbftCatchUp.state.epoch = (qcOf blockB1 0).epoch
      ∧ cbftCatchUp.state.viewNumber = (qcOf blockB1 0).viewNumber
      ∧ cbftCatchUp.state.PrepareVoteLenByIndex 0 = 0
      ∧ threshold (toyDeps.Len cbftCatchUp.validatorPool
          cbftCatchUp.state.highestQCBlock.number) = 3 := by
  refine ⟨by rfl, by rfl, by rfl, by rfl, by rfl, by rfl⟩

/-- C10, as the code has it: every certificate in the view state after a
completed `findQCBlock` either was there before the call or is backed by at
least `threshold(validators at highest_qc_block.number)` stored votes for its
block index, the threshold being the one read at the start of the call. -/
theorem findQCBlock_votes_threshold (d : Deps BT VP) (c r : Cbft BT VP)
    (h : findQCBlock d c = some r) :
    QCsBacked c.state (threshold (d.Len c.validatorPool c.state.highestQCBlock.number)) r := by
  unfold findQCBlock at h
  simp only [Option.bind_eq_some] at h
  obtain ⟨c1, h1, h2⟩ := h
  refine tryChangeView_stable (qcsBacked_stable _ _) d c1 r ?_ h2
  unfold findQCBlockInsert at h1
  dsimp only at h1
  split at h1
  · rename_i hgate
    simp only [Bool.and_eq_true, decide_eq_true_eq] at hgate
    split at h1
    · rename_i block qc hblock hqc
      simp only [Option.map_eq_some'] at h1
      obtain ⟨c0, h0, h3⟩ := h1
      rw [← h3]
      refine (qcsBacked_stable _ _).emit c0 _ rfl ?_
      unfold insertQCBlock at h0
      split at h0
      · exact absurd h0 (by simp)
      · rename_i c6 h6
        simp only [Option.some.injEq] at h0
        have hidx : qc.blockIndex = u32succ c.state.maxQCIndex :=
          generatePrepareQC_index _ qc _ (allPrepareVoteByIndex_index c.state _) hqc
        have hstore : QCsBacked c.state
            (threshold (d.Len c.validatorPool c.state.highestQCBlock.number))
            (insertQCBlockStore d c block qc) := by
          intro i hi
          have hq : (insertQCBlockStore d c block qc).state.viewQCs
              = (if c.state.epoch = qc.epoch ∧ c.state.viewNumber = qc.viewNumber then
                  c.state.AddQC qc else c.state).viewQCs :=
            (insertQCBlockStore_frame d c block qc).2.2.1
          have hv : (insertQCBlockStore d c block qc).state.viewVotes = c.state.viewVotes := by
            unfold insertQCBlockStore
            rw [(tryCommitNewBlock_votes d _ _ _)]
            split <;> rfl
          have hlen : (insertQCBlockStore d c block qc).state.PrepareVoteLenByIndex i
              = c.state.PrepareVoteLenByIndex i := by
            unfold ViewState.PrepareVoteLenByIndex ViewState.AllPrepareVoteByIndex
            rw [hv]
          rw [hlen]
          unfold ViewState.viewQCByIndex at hi
          rw [hq] at hi
          split at hi
          · rcases viewQCByIndex_addQC c.state qc i hi with h4 | h4
            · rw [h4, hidx]
              exact Or.inr hgate.1
            · exact Or.inl h4
          · exact Or.inl hi
        have h7 := tryChangeView_stable (qcsBacked_stable _ _) d _ c6 hstore h6
        rw [← h0]
        rcases insertQCBlockSwitch_cases d c6 block with hsw | ⟨vp, hsw⟩
        · rw [hsw]; exact h7
        · rw [hsw]
          intro i hi
          exact absurd hi (by simp [ViewState.viewQCByIndex, ViewState.ResetView])
    · exact absurd h1 (by simp)
  · simp only [Option.some.injEq] at h1
    rw [← h1]
    intro i hi
    exact Or.inl hi

theorem findQCBlock_votes_threshold_witness :
    QCsBacked cbftBeforeQC.state
        (threshold (toyDeps.Len cbftBeforeQC.validatorPool
          cbftBeforeQC.state.highestQCBlock.number)) cbftAfterQC
      ∧ (cbftBeforeQC.state.viewQCByIndex 0).isSome = false
      ∧ (cbftAfterQC.state.viewQCByIndex 0).isSome = true
      ∧ cbftAfterQC.state.PrepareVoteLenByIndex 0 = 3 :=
  ⟨findQCBlock_votes_threshold toyDeps cbftBeforeQC cbftAfterQC (by rfl), by rfl, by rfl, by rfl⟩


/-- C11, as the claim states it, fails for `OnPrepareBlock`: when the safety
rules answer NewView the handler rotates the view through `changeView` before
`verifyConsensusMsg` runs, so a proposal whose signature does not verify is
answered with an error after the view state has moved to view `(1, 1)`. -/
theorem OnPrepareBlock_newView_counterexample :
    toyDepsNewView.PrepareBlockRules cbft0 proposalNewView
        = some { fetch := false, newView := true }
      ∧ toyDepsNewView.verifyPrepareBlock cbftNewViewRejected proposalNewView = none
      ∧ OnPrepareBlock toyDepsNewView cbft0 1 proposalNewView
        = some (cbftNewViewRejected, some HandlerError.verify)
      ∧ cbft0.state.viewNumber = 0
      ∧ cbftNewViewRejected.state.viewNumber = 1
      ∧ cbftNewViewRejected.state.lastViewChangeQC = proposalNewView.viewChangeQC
      ∧ cbftNewViewRejected.state ≠ cbft0.state := by
  refine ⟨by rfl, by rfl, by rfl, by rfl, by rfl, by rfl, ?_⟩
  intro h
  have h2 : cbftNewViewRejected.state.viewNumber = cbft0.state.viewNumber := by rw [h]
  exact absurd h2 (by decide)

/-- C11 (amended): a message from peer `id` that the handler drops in the
state it was received in (`OnPrepareVote`, `OnViewChange`: the safety rules
return an error or `verifyConsensusMsg` fails; `OnPrepareBlock`: the rules
return an error other than NewView, or they pass and `verifyConsensusMsg`
fails) makes the handler return an error, and the view state, the block tree
and the validator pool after the call are those before it. -/
theorem handleMsg_dropped (d : Deps BT VP) (c : Cbft BT VP) (id : Nat) (m : ConsensusMsg)
    (h : droppedMsg d c id m = true) :
    ∃ r e, handleMsg d c id m = some (r, some e) ∧ r.state = c.state
      ∧ r.blockTree = c.blockTree ∧ r.validatorPool = c.validatorPool := by
  cases m with
  | prepareBlock msg =>
    dsimp only [droppedMsg] at h
    dsimp only [handleMsg]
    unfold OnPrepareBlock OnPrepareBlockRules
    cases hr : d.PrepareBlockRules c msg with
    | some err =>
      rw [hr] at h
      dsimp only at h ⊢
      by_cases hf : err.fetch = true
      · rw [if_pos hf]
        exact ⟨_, _, rfl, rfl, rfl, rfl⟩
      · have hn : err.newView = false := by
          cases hn : err.newView with
          | false => rfl
          | true => simp [hf, hn] at h
        rw [if_neg hf, if_neg (by simp [hn])]
        exact ⟨_, _, rfl, rfl, rfl, rfl⟩
    | none =>
      rw [hr] at h
      dsimp only at h ⊢
      cases hv : d.verifyPrepareBlock c msg with
      | some i => rw [hv] at h; exact absurd h (by simp)
      | none => exact ⟨_, _, rfl, rfl, rfl, rfl⟩
  | prepareVote msg =>
    dsimp only [droppedMsg] at h
    dsimp only [handleMsg]
    unfold OnPrepareVote
    cases hr : d.PrepareVoteRules c msg with
    | some err =>
      dsimp only
      by_cases hf : err.fetch = true
      · rw [if_pos hf]
        exact ⟨_, _, rfl, rfl, rfl, rfl⟩
      · rw [if_neg hf]
        exact ⟨_, _, rfl, rfl, rfl, rfl⟩
    | none =>
      rw [hr] at h
      dsimp only at h ⊢
      cases hv : d.verifyPrepareVote (c.sendAll id (d.prepareVoteFetchRules c id msg)) msg with
      | some i => rw [hv] at h; exact absurd h (by simp)
      | none =>
        have hx := sendAll_outExt id (d.prepareVoteFetchRules c id msg) c
        exact ⟨_, _, rfl, hx.1, hx.2.1, hx.2.2.1⟩
  | viewChange msg =>
    dsimp only [droppedMsg] at h
    dsimp only [handleMsg]
    unfold OnViewChange
    cases hr : d.ViewChangeRules c msg with
    | some err =>
      dsimp only
      by_cases hf : err.fetch = true
      · rw [if_pos hf]
        exact ⟨_, _, rfl, rfl, rfl, rfl⟩
      · rw [if_neg hf]
        exact ⟨_, _, rfl, rfl, rfl, rfl⟩
    | none =>
      rw [hr] at h
      dsimp only at h ⊢
      cases hv : d.verifyViewChange c msg with
      | some i => rw [hv] at h; exact absurd h (by simp)
      | none => exact ⟨_, _, rfl, rfl, rfl, rfl⟩

theorem handleMsg_dropped_witness :
    droppedMsg toyDepsBadVote cbft0 1 (ConsensusMsg.prepareVote (voteOf 1 blockB1 0)) = true
      ∧ ∃ r e, handleMsg toyDepsBadVote cbft0 1 (ConsensusMsg.prepareVote (voteOf 1 blockB1 0))
          = some (r, some e) ∧ r.state = cbft0.state
        ∧ r.blockTree = cbft0.blockTree ∧ r.validatorPool = cbft0.validatorPool :=
  ⟨by rfl, handleMsg_dropped toyDepsBadVote cbft0 1
    (ConsensusMsg.prepareVote (voteOf 1 blockB1 0)) (by rfl)⟩

/-- C12, as the claim states it, fails: the fetch issued for a proposal the
rules answer with Fetch names the proposed block itself.  For the proposal of
`blockB2` (hash 102, number 2, parent hash 101) the only call is
`fetchBlock(7, 102, 2)`, not `fetchBlock(7, 101, 1)`. -/
theorem OnPrepareBlock_parent_counterexample :
    toyDepsFetch.PrepareBlockRules cbft0 (proposalOf blockB2 1)
        = some { fetch := true, newView := false }
      ∧ (∃ r e, OnPrepareBlock toyDepsFetch cbft0 7 (proposalOf blockB2 1) = some (r, some e)
          ∧ r.out = [Effect.fetchBlock 7 102 2]
          ∧ r.out ≠ [Effect.fetchBlock 7 (proposalOf blockB2 1).block.parentHash
              (u64pred (proposalOf blockB2 1).block.number)])
      ∧ (proposalOf blockB2 1).block.parentHash = 101
      ∧ u64pred (proposalOf blockB2 1).block.number = 1 :=
  ⟨by rfl, ⟨_, _, by rfl, by rfl, by decide⟩, by rfl, by rfl⟩

/-- C12 (amended): for every PrepareBlock message from peer `id` that
`PrepareBlockRules` answers with an error whose `Fetch()` holds,
`OnPrepareBlock` issues exactly one call, `fetchBlock(id, hash, number)` with
the hash and the number of the proposed block itself, returns the error of the
rules, and changes nothing else: the view state, the block tree and the
validator pool are those before the call. -/
theorem OnPrepareBlock_fetch (d : Deps BT VP) (c : Cbft BT VP) (id : Nat) (msg : PrepareBlock)
    (err : SafetyError) (hr : d.PrepareBlockRules c msg = some err) (hf : err.fetch = true) :
    ∃ r, OnPrepareBlock d c id msg = some (r, some (HandlerError.rule err))
      ∧ r.out = c.out ++ [Effect.fetchBlock id msg.block.hash msg.block.number]
      ∧ r.state = c.state ∧ r.blockTree = c.blockTree ∧ r.validatorPool = c.validatorPool
      ∧ r.loading = c.loading := by
  unfold OnPrepareBlock OnPrepareBlockRules
  rw [hr]
  dsimp only
  rw [if_pos hf]
  exact ⟨_, rfl, rfl, rfl, rfl, rfl, rfl⟩

theorem OnPrepareBlock_fetch_witness :
    toyDepsFetch.PrepareBlockRules cbft0 (proposalOf blockB2 1)
        = some { fetch := true, newView := false }
      ∧ ∃ r, OnPrepareBlock toyDepsFetch cbft0 7 (proposalOf blockB2 1)
          = some (r, some (HandlerError.rule { fetch := true, newView := false }))
        ∧ r.out = cbft0.out ++ [Effect.fetchBlock 7 (proposalOf blockB2 1).block.hash
            (proposalOf blockB2 1).block.number]
        ∧ r.state = cbft0.state ∧ r.blockTree = cbft0.blockTree
        ∧ r.validatorPool = cbft0.validatorPool ∧ r.loading = cbft0.loading :=
  ⟨by rfl, OnPrepareBlock_fetch toyDepsFetch cbft0 7 (proposalOf blockB2 1)
    { fetch := true, newView := false } (by rfl) (by rfl)⟩

/-- C13, as the claim states it, fails: on a node the validator pool does not
list, the successful status of the block under the unfinished cursor marks
the cursor finished and no PrepareVote is signed or enqueued. -/
theorem onAsyncExecuteStatus_counterexample :
    statusB1.err = false
      ∧ cbftExecuting.state.executing = (0, false)
      ∧ cbftExecuting.state.ViewBlockByIndex 0 = some blockB1
      ∧ blockB1.hash = statusB1.hash
      ∧ ∃ r, onAsyncExecuteStatus toyDepsObserver cbftExecuting statusB1 = some r
          ∧ r.state.executing = (0, true)
          ∧ r.state.pendingPrepareVote = []
          ∧ r.state.hadSendPrepareVote = [] :=
  ⟨by rfl, by rfl, by rfl, by rfl, _, by rfl, by rfl, by rfl, by rfl⟩

/-- C13 (amended): `onAsyncExecuteStatus(s)`.  If `s` carries an error the
node is unchanged.  If `s` is a success, `executing.finished` is false and the
view block at `executing.index` has hash `s.Hash`, the cursor is marked
finished; then, when the validator pool lists the local node at the block
number and signing succeeds, the PrepareVote for (block hash, block number,
`executing.index`) is signed and pushed on the pending queue before
`trySendPrepareVote`, `findQCBlock` and `findExecutableBlock` run, and when
the node is not listed or signing fails the call ends there without a vote.
In every other success case the call is `findQCBlock` followed by
`findExecutableBlock` on the unchanged state, and the signed votes afterwards
are those before, or none after a view reset. -/
theorem onAsyncExecuteStatus_contract (d : Deps BT VP) (c : Cbft BT VP)
    (s : BlockExecuteStatus) :
    (s.err = true → onAsyncExecuteStatus d c s = some c)
    ∧ (s.err = false →
        (∀ block, c.state.executing.2 = false →
            c.state.ViewBlockByIndex c.state.executing.1 = some block → block.hash = s.hash →
            (∀ idx sig, d.GetValidatorByNodeID c.validatorPool block.number = some idx →
                d.signPrepareVote (signedVote c block c.state.executing.1 idx 0) = some sig →
                onAsyncExecuteStatus d c s
                  = (trySendPrepareVote d
                      ((c.setState (c.state.SetExecuting c.state.executing.1 true)).setState
                        ((c.state.SetExecuting c.state.executing.1 true).pendingPush
                          (signedVote c block c.state.executing.1 idx sig)))).bind
                      (fun c2 => (findQCBlock d c2).map (findExecutableBlock d)))
            ∧ ((d.GetValidatorByNodeID c.validatorPool block.number = none
                  ∨ ∃ idx, d.GetValidatorByNodeID c.validatorPool block.number = some idx
                      ∧ d.signPrepareVote (signedVote c block c.state.executing.1 idx 0) = none) →
                onAsyncExecuteStatus d c s
                  = some (c.setState (c.state.SetExecuting c.state.executing.1 true))))
        ∧ ((c.state.executing.2 = true
              ∨ ∀ block, c.state.ViewBlockByIndex c.state.executing.1 = some block →
                  block.hash ≠ s.hash) →
            onAsyncExecuteStatus d c s = (findQCBlock d c).map (findExecutableBlock d)
              ∧ ∀ r, onAsyncExecuteStatus d c s = some r → SignedVotesOf c.state r.state)) := by
  refine ⟨fun hs => by unfold onAsyncExecuteStatus; rw [if_pos hs], fun hs => ⟨?_, ?_⟩⟩
  · intro block hfin hblock hhash
    have hsign : onAsyncExecuteSign d c s
        = signBlock d (c.setState (c.state.SetExecuting c.state.executing.1 true))
            block.hash block.number c.state.executing.1 := by
      unfold onAsyncExecuteSign
      rw [hfin, hblock]
      dsimp only
      rw [if_neg (by simp), if_pos hhash]
    constructor
    · intro idx sig hv hsig
      unfold onAsyncExecuteStatus
      rw [if_neg (by simp [hs]), hsign]
      unfold signBlock
      have hv2 : d.GetValidatorByNodeID
          (c.setState (c.state.SetExecuting c.state.executing.1 true)).validatorPool
          block.number = some idx := hv
      rw [hv2]
      dsimp only
      have hsig2 : d.signPrepareVote
          { epoch := (c.setState (c.state.SetExecuting c.state.executing.1 true)).state.epoch,
            viewNumber :=
              (c.setState (c.state.SetExecuting c.state.executing.1 true)).state.viewNumber,
            blockHash := block.hash, blockNumber := block.number,
            blockIndex := c.state.executing.1, validatorIndex := idx % 4294967296,
            parentQC := none, signature := 0 } = some sig := hsig
      rw [hsig2]
      dsimp only
      have aux : ∀ o : Option (Cbft BT VP),
          (match o.map (fun c2 => (c2, false)) with
            | none => none
            | some (c1, true) => some c1
            | some (c1, false) => (findQCBlock d c1).map (findExecutableBlock d))
          = o.bind (fun c2 => (findQCBlock d c2).map (findExecutableBlock d)) := by
        intro o
        cases o <;> rfl
      exact aux _
    · intro hfail
      unfold onAsyncExecuteStatus
      rw [if_neg (by simp [hs]), hsign]
      unfold signBlock
      rcases hfail with hv | ⟨idx, hv, hsig⟩
      · have hv2 : d.GetValidatorByNodeID
            (c.setState (c.state.SetExecuting c.state.executing.1 true)).validatorPool
            block.number = none := hv
        rw [hv2]
      · have hv2 : d.GetValidatorByNodeID
            (c.setState (c.state.SetExecuting c.state.executing.1 true)).validatorPool
            block.number = some idx := hv
        rw [hv2]
        dsimp only
        have hsig2 : d.signPrepareVote
            { epoch := (c.setState (c.state.SetExecuting c.state.executing.1 true)).state.epoch,
              viewNumber :=
                (c.setState (c.state.SetExecuting c.state.executing.1 true)).state.viewNumber,
              blockHash := block.hash, blockNumber := block.number,
              blockIndex := c.state.executing.1, validatorIndex := idx % 4294967296,
              parentQC := none, signature := 0 } = none := hsig
        rw [hsig2]
  · intro hother
    have hsign : onAsyncExecuteSign d c s = some (c, false) := by
      unfold onAsyncExecuteSign
      rcases hother with hfin | hne
      · rw [if_pos hfin]
      · split
        · rfl
        · split
          · rename_i block hblock
            rw [if_neg (hne block hblock)]
          · rfl
    have heq : onAsyncExecuteStatus d c s = (findQCBlock d c).map (findExecutableBlock d) := by
      unfold onAsyncExecuteStatus
      rw [if_neg (by simp [hs]), hsign]
    refine ⟨heq, ?_⟩
    intro r hr
    rw [heq] at hr
    simp only [Option.map_eq_some'] at hr
    obtain ⟨c1, h1, h2⟩ := hr
    have hq : SignedVotesOf c.state c1.state :=
      findQCBlock_stable (signedVotesOf_stable c.state) d (signedVotesOf_stableIns d c.state)
        c c1 (Or.inl ⟨rfl, rfl⟩) h1
    rw [← h2]
    unfold SignedVotesOf
    rw [(findExecutableBlock_signed d c1).1, (findExecutableBlock_signed d c1).2]
    exact hq

theorem onAsyncExecuteStatus_contract_witness :
    onAsyncExecuteStatus toyDeps cbftExecuting statusB1
        = (trySendPrepareVote toyDeps
            ((cbftExecuting.setState (cbftExecuting.state.SetExecuting 0 true)).setState
              ((cbftExecuting.state.SetExecuting 0 true).pendingPush
                (signedVote cbftExecuting blockB1 0 0 1)))).bind
            (fun c2 => (findQCBlock toyDeps c2).map (findExecutableBlock toyDeps))
      ∧ (onAsyncExecuteStatus toyDeps cbftExecuting statusB1).map
          (fun r => (r.state.executing, r.state.hadSendPrepareVote))
        = some ((0, true), [signedVote cbftExecuting blockB1 0 0 1]) :=
  ⟨(((onAsyncExecuteStatus_contract toyDeps cbftExecuting statusB1).2 (by rfl)).1 blockB1
      (by rfl) (by rfl) (by rfl)).1 0 1 (by rfl) (by rfl), by rfl⟩

/-- C14, as the claim states it, fails: in scenario S3 the highest QC block is
genesis, whose number is `0`, so `changeView` sets the timer interval `1`.
With a genesis certificate of view 0 at block index 0 the condition
`qc.view + 1 == view` holds and `Amount - qc.block_index` is `10`, yet the
interval after the rotation to `(1, 1)` is `1`. -/
theorem scenarioS3_interval_counterexample :
    run toyDeps (cbftS3 (some qcGenesis)) (eventsS3 (some qcGenesis)) = some cbftAfterS3
      ∧ cbftAfterS3.state.epoch = 1
      ∧ cbftAfterS3.state.viewNumber = 1
      ∧ u64succ qcGenesis.viewNumber = cbftAfterS3.state.viewNumber
      ∧ u32sub toyDeps.amount qcGenesis.blockIndex = 10
      ∧ cbftAfterS3.state.viewTimer = 1
      ∧ cbftAfterS3.state.viewTimer ≠ u32sub toyDeps.amount qcGenesis.blockIndex :=
  ⟨by rfl, by rfl, by rfl, by rfl, by rfl, by rfl, by decide⟩

/-- C14 (amended): scenario S3 (4 validators, threshold 3, `Amount = 10`, view
`(1, 0)`, the three highest blocks are genesis, no proposal received), both
when the block tree holds no certificate for genesis and when it holds the
certificate `qcGenesis` of view 0.  After the local timeout and the
ViewChange of one other validator the view is still `(1, 0)`; with the
ViewChange of a second one `tryChangeView` rotates to `(1, 1)`, and the timer
interval set by `changeView` is `1`, the highest QC block being genesis. -/
theorem scenarioS3_rotates :
    ∀ q ∈ [none, some qcGenesis],
      threshold (toyDeps.Len (cbftS3 q).validatorPool (cbftS3 q).state.highestQCBlock.number) = 3
        ∧ (cbftS3 q).state.highestQCBlock.number = 0
        ∧ (∃ r, run toyDeps (cbftS3 q) ((eventsS3 q).take 2) = some r
            ∧ r.state.epoch = 1 ∧ r.state.viewNumber = 0 ∧ r.state.ViewChangeLen = 2)
        ∧ ∃ r, run toyDeps (cbftS3 q) (eventsS3 q) = some r
            ∧ r.state.epoch = 1 ∧ r.state.viewNumber = 1 ∧ r.state.viewTimer = 1
            ∧ r.state.viewChanges = [] := by
  intro q hq
  simp only [List.mem_cons, List.mem_singleton, List.not_mem_nil, or_false] at hq
  rcases hq with hq | hq
  · rw [hq]
    exact ⟨by rfl, by rfl, ⟨_, by rfl, by rfl, by rfl, by rfl⟩,
      ⟨_, by rfl, by rfl, by rfl, by rfl, by rfl⟩⟩
  · rw [hq]
    exact ⟨by rfl, by rfl, ⟨_, by rfl, by rfl, by rfl, by rfl⟩,
      ⟨_, by rfl, by rfl, by rfl, by rfl, by rfl⟩⟩

theorem scenarioS3_rotates_witness :
    threshold (toyDeps.Len (cbftS3 none).validatorPool
        (cbftS3 none).state.highestQCBlock.number) = 3
      ∧ (cbftS3 none).state.highestQCBlock.number = 0
      ∧ (∃ r, run toyDeps (cbftS3 none) ((eventsS3 none).take 2) = some r
          ∧ r.state.epoch = 1 ∧ r.state.viewNumber = 0 ∧ r.state.ViewChangeLen = 2)
      ∧ ∃ r, run toyDeps (cbftS3 none) (eventsS3 none) = some r
          ∧ r.state.epoch = 1 ∧ r.state.viewNumber = 1 ∧ r.state.viewTimer = 1
          ∧ r.state.viewChanges = [] :=
  scenarioS3_rotates none (List.mem_cons_self _ _)

/-- C15: when the validator pool does not list the local node as a validator
at `highest_qc_block.number` (`GetValidatorByNodeID` returns an error),
`OnViewTimeout` returns without any change: no ViewChange is built, stored,
handed to the bridge or broadcast, and the node is the one before the call. -/
theorem OnViewTimeout_not_validator (d : Deps BT VP) (c : Cbft BT VP)
    (h : d.GetValidatorByNodeID c.validatorPool c.state.highestQCBlock.number = none) :
    OnViewTimeout d c = some c := by
  unfold OnViewTimeout
  rw [h]

theorem OnViewTimeout_not_validator_witness :
    toyDepsObserver.GetValidatorByNodeID cbft0.validatorPool cbft0.state.highestQCBlock.number
        = none
      ∧ OnViewTimeout toyDepsObserver cbft0 = some cbft0 :=
  ⟨by rfl, OnViewTimeout_not_validator toyDepsObserver cbft0 (by rfl)⟩

/-- C16: `OnInsertQCBlock` called with lists of different lengths returns an
error and changes nothing: the node after the call is the one before it. -/
theorem OnInsertQCBlock_length_mismatch (d : Deps BT VP) (c : Cbft BT VP)
    (blocks : List Block) (qcs : List QuorumCert) (h : blocks.length ≠ qcs.length) :
    OnInsertQCBlock d c blocks qcs = some (c, some HandlerError.lengthMismatch) := by
  unfold OnInsertQCBlock
  rw [if_pos h]

theorem OnInsertQCBlock_length_mismatch_witness :
    [blockB1, blockB2].length ≠ [qcOf blockB1 0].length
      ∧ OnInsertQCBlock toyDeps cbft0 [blockB1, blockB2] [qcOf blockB1 0]
          = some (cbft0, some HandlerError.lengthMismatch) :=
  ⟨by decide, OnInsertQCBlock_length_mismatch toyDeps cbft0 [blockB1, blockB2] [qcOf blockB1 0]
    (by decide)⟩

/-- C17: for every state with the two invariants of the executing cursor, a
cursor at the sentinel is not finished and a cursor elsewhere points at a view
block (`run_cursorBlock`: the handlers keep both), one call of
`findExecutableBlock` dispatches at most one block.  If `executing.index` is
the sentinel and block index 0 is present with its parent found in the block
tree, it dispatches block 0 with that parent and sets `executing = (0, false)`.
If `executing.finished` holds and the block at `executing.index + 1` is
present, it dispatches that block with the view block at `executing.index` as
parent and sets `executing = (executing.index + 1, false)`; the two rules
exclude each other.  In every other case it changes nothing. -/
theorem findExecutableBlock_dispatch (d : Deps BT VP) (c : Cbft BT VP)
    (hfresh : c.state.executing.1 = maxUint32 → c.state.executing.2 = false)
    (hcur : CursorBlock c) :
    (∀ block parent, c.state.executing.1 = maxUint32 →
        c.state.ViewBlockByIndex 0 = some block →
        (d.FindBlockAndQC c.blockTree block.parentHash (u64pred block.number)).1 = some parent →
        findExecutableBlock d c
          = (c.emit (Effect.execute block parent)).setState (c.state.SetExecuting 0 false))
    ∧ (∀ block, c.state.executing.2 = true →
        c.state.ViewBlockByIndex (u32succ c.state.executing.1) = some block →
        c.state.executing.1 ≠ maxUint32
          ∧ ∃ parent, c.state.ViewBlockByIndex c.state.executing.1 = some parent
            ∧ findExecutableBlock d c
              = (c.emit (Effect.execute block parent)).setState
                  (c.state.SetExecuting (u32succ c.state.executing.1) false))
    ∧ (¬ (c.state.executing.1 = maxUint32
          ∧ ∃ block parent, c.state.ViewBlockByIndex 0 = some block
              ∧ (d.FindBlockAndQC c.blockTree block.parentHash
                  (u64pred block.number)).1 = some parent) →
        ¬ (c.state.executing.2 = true
          ∧ ∃ block, c.state.ViewBlockByIndex (u32succ c.state.executing.1) = some block) →
        findExecutableBlock d c = c)
    ∧ ((findExecutableBlock d c).out = c.out
        ∨ ∃ block parent, (findExecutableBlock d c).out
            = c.out ++ [Effect.execute block parent]) := by
  have hsucc : u32succ maxUint32 = 0 := by decide
  have h1 : ∀ block parent, c.state.executing.1 = maxUint32 →
      c.state.ViewBlockByIndex 0 = some block →
      (d.FindBlockAndQC c.blockTree block.parentHash (u64pred block.number)).1 = some parent →
      findExecutableBlock d c
        = (c.emit (Effect.execute block parent)).setState (c.state.SetExecuting 0 false) := by
    intro block parent hidx hb hp
    have hf := hfresh hidx
    unfold findExecutableBlock findExecutableFirst
    rw [if_pos hidx, hidx, hsucc, hb]
    dsimp only
    rw [hp]
    dsimp only
    unfold findExecutableSecond
    rw [hf]
    rfl
  have h2 : ∀ block parent, c.state.executing.1 ≠ maxUint32 → c.state.executing.2 = true →
      c.state.ViewBlockByIndex (u32succ c.state.executing.1) = some block →
      c.state.ViewBlockByIndex c.state.executing.1 = some parent →
      findExecutableBlock d c
        = (c.emit (Effect.execute block parent)).setState
            (c.state.SetExecuting (u32succ c.state.executing.1) false) := by
    intro block parent hidx hf hb hp
    unfold findExecutableBlock findExecutableFirst
    rw [if_neg hidx]
    dsimp only
    unfold findExecutableSecond
    rw [if_pos hf, hb]
    dsimp only
    rw [hp]
    rfl
  have h3 : ((c.state.executing.1 = maxUint32
        ∧ (c.state.ViewBlockByIndex 0 = none
            ∨ ∃ block, c.state.ViewBlockByIndex 0 = some block
                ∧ (d.FindBlockAndQC c.blockTree block.parentHash
                    (u64pred block.number)).1 = none))
      ∨ (c.state.executing.1 ≠ maxUint32
        ∧ (c.state.executing.2 = false
            ∨ c.state.ViewBlockByIndex (u32succ c.state.executing.1) = none
            ∨ c.state.ViewBlockByIndex c.state.executing.1 = none))) →
      findExecutableBlock d c = c := by
    intro h
    rcases h with ⟨hidx, hb⟩ | ⟨hidx, hb⟩
    · have hf := hfresh hidx
      unfold findExecutableBlock findExecutableFirst
      rw [if_pos hidx, hidx, hsucc]
      rcases hb with hb | ⟨block, hb, hp⟩
      · rw [hb]
        dsimp only
        unfold findExecutableSecond
        rw [hf]
        rfl
      · rw [hb]
        dsimp only
        rw [hp]
    · unfold findExecutableBlock findExecutableFirst
      rw [if_neg hidx]
      dsimp only
      unfold findExecutableSecond
      rcases hb with hb | hb | hb
      · rw [hb]
        rfl
      · rw [hb]
        split <;> rfl
      · rw [hb]
        split
        · split <;> rfl
        · rfl
  have hne : c.state.executing.2 = true → c.state.executing.1 ≠ maxUint32 := by
    intro hf h0
    rw [hfresh h0] at hf
    exact absurd hf (by simp)
  have hparent : c.state.executing.1 ≠ maxUint32 →
      ∃ parent, c.state.ViewBlockByIndex c.state.executing.1 = some parent := by
    intro h0
    rcases hcur with h | h
    · exact absurd h h0
    · exact Option.isSome_iff_exists.1 h
  refine ⟨h1, ?_, ?_, ?_⟩
  · intro block hf hb
    obtain ⟨parent, hp⟩ := hparent (hne hf)
    exact ⟨hne hf, parent, hp, h2 block parent (hne hf) hf hb hp⟩
  · intro hn1 hn2
    by_cases hidx : c.state.executing.1 = maxUint32
    · refine h3 (Or.inl ⟨hidx, ?_⟩)
      cases hb : c.state.ViewBlockByIndex 0 with
      | none => exact Or.inl rfl
      | some block =>
        refine Or.inr ⟨block, rfl, ?_⟩
        cases hp : (d.FindBlockAndQC c.blockTree block.parentHash (u64pred block.number)).1 with
        | none => rfl
        | some parent => exact absurd ⟨hidx, block, parent, hb, hp⟩ hn1
    · refine h3 (Or.inr ⟨hidx, ?_⟩)
      cases hf : c.state.executing.2 with
      | false => exact Or.inl rfl
      | true =>
        refine Or.inr (Or.inl ?_)
        cases hb : c.state.ViewBlockByIndex (u32succ c.state.executing.1) with
        | none => rfl
        | some block => exact absurd ⟨hf, block, hb⟩ hn2
  · by_cases hidx : c.state.executing.1 = maxUint32
    · cases hb : c.state.ViewBlockByIndex 0 with
      | none => exact Or.inl (by rw [h3 (Or.inl ⟨hidx, Or.inl hb⟩)])
      | some block =>
        cases hp : (d.FindBlockAndQC c.blockTree block.parentHash (u64pred block.number)).1 with
        | none => exact Or.inl (by rw [h3 (Or.inl ⟨hidx, Or.inr ⟨block, hb, hp⟩⟩)])
        | some parent => exact Or.inr ⟨block, parent, by rw [h1 block parent hidx hb hp]; rfl⟩
    · cases hf : c.state.executing.2 with
      | false => exact Or.inl (by rw [h3 (Or.inr ⟨hidx, Or.inl hf⟩)])
      | true =>
        cases hb : c.state.ViewBlockByIndex (u32succ c.state.executing.1) with
        | none => exact Or.inl (by rw [h3 (Or.inr ⟨hidx, Or.inr (Or.inl hb)⟩)])
        | some block =>
          obtain ⟨parent, hp⟩ := hparent hidx
          exact Or.inr ⟨block, parent, by rw [h2 block parent hidx hf hb hp]; rfl⟩

theorem findExecutableBlock_dispatch_witness :
    run toyDeps cbft0 (eventsS1.take 5) = some (findExecutableBlock toyDeps cbftNextReady)
      ∧ cbftNextReady.state.executing = (0, true)
      ∧ (cbftNextReady.state.executing.1 = maxUint32 → cbftNextReady.state.executing.2 = false)
      ∧ CursorBlock cbftNextReady
      ∧ cbftNextReady.state.executing.1 ≠ maxUint32
      ∧ ∃ parent, cbftNextReady.state.ViewBlockByIndex cbftNextReady.state.executing.1
            = some parent
        ∧ findExecutableBlock toyDeps cbftNextReady
          = (cbftNextReady.emit (Effect.execute blockB2 parent)).setState
              (cbftNextReady.state.SetExecuting (u32succ cbftNextReady.state.executing.1) false) :=
  ⟨by rfl, by rfl, by decide, Or.inr (by rfl),
    (findExecutableBlock_dispatch toyDeps cbftNextReady (by decide) (Or.inr (by rfl))).2.1
      blockB2 (by rfl) (by rfl)⟩

/-- C19: the code at the failing input.  Before the last ViewChange arrives
the node has sent its vote for `blockB1` (number 1) and holds a pending vote
for `blockB2` (number 2), both above genesis (number 0), the block the view
change falls back to.  The rotation to view `(1, 1)` calls
`ConfirmViewChange` and `ForkedReset(genesis, [])`: the rollback list is empty
and `ClearCache` is not called, because `clearInvalidBlocks` reads the two
vote queues after `ResetView` has emptied them. -/
theorem changeView_rollback_empty :
    run toyDeps cbft0 (eventsRollback.take 6) = some cbftBeforeRotate
      ∧ cbftBeforeRotate.state.hadSendPrepareVote.map (fun p => (p.blockIndex, p.blockNumber))
          = [(0, 1)]
      ∧ cbftBeforeRotate.state.pendingPrepareVote.map (fun p => (p.blockIndex, p.blockNumber))
          = [(1, 2)]
      ∧ cbftBeforeRotate.state.ViewBlockByIndex 0 = some blockB1
      ∧ cbftBeforeRotate.state.ViewBlockByIndex 1 = some blockB2
      ∧ cbftBeforeRotate.state.highestQCBlock = genesis
      ∧ step toyDeps cbftBeforeRotate (Event.viewChange 2 (viewChangeOf 2)) = some cbftRotated
      ∧ cbftRotated.state.viewNumber = 1
      ∧ (∃ vc, cbftRotated.out = cbftBeforeRotate.out
          ++ [Effect.confirmViewChange 1 1 genesis none vc, Effect.txPoolForkedReset genesis []])
      ∧ clearedBlocks cbftRotated.out = [] :=
  ⟨by rfl, by rfl, by rfl, by rfl, by rfl, by rfl, by rfl, by rfl, ⟨_, by rfl⟩, by rfl⟩

/-- C20: `OnInsertQCBlock` on lists of equal length processes the pairs
`(blocks[i], qcs[i])` in list order and is not atomic.  With `insertPairsRef`
for the application of `insertQCBlock` to a list of pairs in order (each
preceded by `changeView(qc.epoch, qc.view_number, block, qc, none)` when its
rule result is NewView): if every pair is applied, the call returns no error
and the node is the one after all pairs; if the pairs `0..k-1` are applied and
`QCBlockRules` rejects pair `k` in the node reached, with an error that is not
NewView, the call returns that error and the node is the one after the pairs
`0..k-1`; and a completed call is one of these two. -/
theorem OnInsertQCBlock_in_order (d : Deps BT VP) (c : Cbft BT VP) (blocks : List Block)
    (qcs : List QuorumCert) (hlen : blocks.length = qcs.length) :
    (∀ r, insertPairsRef d (blocks.zip qcs) c = some r →
        OnInsertQCBlock d c blocks qcs = some (r, none))
    ∧ (∀ k r p err, insertPairsRef d ((blocks.zip qcs).take k) c = some r →
        (blocks.zip qcs)[k]? = some p →
        d.QCBlockRules r p.1 p.2 = some err → err.newView = false →
        OnInsertQCBlock d c blocks qcs = some (r, some (HandlerError.rule err)))
    ∧ (∀ r e, OnInsertQCBlock d c blocks qcs = some (r, e) →
        (e = none ∧ insertPairsRef d (blocks.zip qcs) c = some r)
          ∨ ∃ k p err, k < blocks.length
              ∧ insertPairsRef d ((blocks.zip qcs).take k) c = some r
              ∧ (blocks.zip qcs)[k]? = some p
              ∧ d.QCBlockRules r p.1 p.2 = some err ∧ err.newView = false
              ∧ e = some (HandlerError.rule err)) := by
  have hdef : OnInsertQCBlock d c blocks qcs = OnInsertQCBlockLoop d (blocks.zip qcs) c := by
    unfold OnInsertQCBlock
    rw [if_neg (by simp [hlen])]
  rw [hdef]
  refine ⟨OnInsertQCBlockLoop_all d _ c, ?_, ?_⟩
  · intro k r p err hpre hk hrule hn
    exact OnInsertQCBlockLoop_reject d _ c k r p err hpre hk hrule hn
  · intro r e h
    rcases OnInsertQCBlockLoop_cases d _ c r e h with h1 | ⟨k, p, err, hpre, hk, hrule, hn, he⟩
    · exact Or.inl h1
    · refine Or.inr ⟨k, p, err, ?_, hpre, hk, hrule, hn, he⟩
      have hlt : k < (blocks.zip qcs).length := by
        by_contra hge
        rw [List.getElem?_eq_none (Nat.le_of_not_lt hge)] at hk
        exact absurd hk (by simp)
      rw [List.length_zip, ← hlen, Nat.min_self] at hlt
      exact hlt

theorem OnInsertQCBlock_in_order_witness :
    [blockB1, blockB2, blockB3].length = [qcOf blockB1 0, qcOf blockB2 1, qcOf blockB3 2].length
      ∧ insertPairsRef toyDepsReject
          (([blockB1, blockB2, blockB3].zip [qcOf blockB1 0, qcOf blockB2 1, qcOf blockB3 2]).take 1)
          cbft0 = some cbftOnePair
      ∧ cbftOnePair.blockTree = [(genesis, none), (blockB1, some (qcOf blockB1 0))]
      ∧ OnInsertQCBlock toyDepsReject cbft0 [blockB1, blockB2, blockB3]
          [qcOf blockB1 0, qcOf blockB2 1, qcOf blockB3 2]
        = some (cbftOnePair, some (HandlerError.rule { fetch := false, newView := false })) :=
  ⟨by rfl, by rfl, by rfl,
    (OnInsertQCBlock_in_order toyDepsReject cbft0 [blockB1, blockB2, blockB3]
      [qcOf blockB1 0, qcOf blockB2 1, qcOf blockB3 2] (by rfl)).2.1 1 cbftOnePair
      (blockB2, qcOf blockB2 1) { fetch := false, newView := false }
      (by rfl) (by rfl) (by rfl) (by rfl)⟩
end PlatON
